import Mathlib

/-!
# Periodic service sequencer: verification development

Shallow embedding of the scheduler cores found in the repository
(`RTES_FINAL/Sequencer.hpp`, `final_project_combined_ver_3_FINAL/Sequencer.hpp`,
`final_project_combined_ver_1/Sequencer.hpp`) together with theorems about them.

Conventions of the embedding:
* unsigned machine integers are naturals reduced modulo their width where the
  source increments them or converts to them (`tick`, `_num_iteration`, the
  times in microseconds); the `int` counter of ver_3 is an integer kept in the
  range of the type;
* a `double` is the rational it stands for, and an operation on `double` gives
  the rounding of its exact result;
* calls that reach another object or the operating system are recorded as
  events, in call order;
* results of operating-system calls and clock readings are inputs.
-/

namespace RTES_FINAL

/-- Modulus of `uint64_t`, the type of the local `tick` counter. -/
def UINT64_MOD : Nat := 2 ^ 64

/-- Modulus of `uint32_t`, the type of the counters of `Service_Statistic`. -/
def UINT32_MOD : Nat := 2 ^ 32

/-- Rounding of the operations on `double`: the result of an operation is `fl`
of its exact value.  Rounding is monotone, and every integer up to `2 ^ 53` is
a `double`. -/
structure Rounding where
  fl : ℚ → ℚ
  mono : ∀ a b : ℚ, a ≤ b → fl a ≤ fl b
  fl_nat : ∀ n : ℕ, n ≤ 2 ^ 53 → fl n = n

/-- Arithmetic without rounding error. -/
def Rounding.exactArith : Rounding :=
  { fl := fun q => q, mono := fun _ _ h => h, fl_nat := fun _ _ => rfl }

/-- Data members of `class Service_Statistic`; the four times and the iteration
count are `uint32_t`, the total is a `double`. -/
structure Service_Statistic where
  min_execution_time : Nat
  max_execution_time : Nat
  min_start_time : Nat
  max_start_time : Nat
  num_iteration : Nat
  total_execution_time : ℚ
deriving DecidableEq, Repr

/-- Constructor `Service_Statistic::Service_Statistic`. -/
def Service_Statistic.init : Service_Statistic :=
  { min_execution_time := 0xFFFFFFFF, max_execution_time := 0,
    min_start_time := 0xFFFFFFFF, max_start_time := 0,
    num_iteration := 0, total_execution_time := 0 }

/-- Method `Service_Statistic::update_statistic(exec_time, start_time)`. -/
def Service_Statistic.update_statistic (R : Rounding) (st : Service_Statistic)
    (exec_time start_time : Nat) : Service_Statistic :=
  { num_iteration := (st.num_iteration + 1) % UINT32_MOD,
    total_execution_time := R.fl (st.total_execution_time + exec_time),
    min_execution_time :=
      if exec_time < st.min_execution_time then exec_time else st.min_execution_time,
    max_execution_time :=
      if exec_time > st.max_execution_time then exec_time else st.max_execution_time,
    min_start_time :=
      if start_time < st.min_start_time then start_time else st.min_start_time,
    max_start_time :=
      if start_time > st.max_start_time then start_time else st.max_start_time }

/-- The five output parameters of `Service_Statistic::get_statistic`. -/
structure Statistic where
  min_exec_time : Nat
  max_exec_time : Nat
  avg_exec_time : ℚ
  jitter_exec_time : Nat
  jitter_start_time : Nat
deriving DecidableEq, Repr

/-- Method `Service_Statistic::get_statistic`; the two jitters are differences of
`uint32_t`, the average is a division of `double`. -/
def Service_Statistic.get_statistic (R : Rounding) (st : Service_Statistic) : Statistic :=
  if st.num_iteration ≠ 0 then
    { min_exec_time := st.min_execution_time,
      max_exec_time := st.max_execution_time,
      avg_exec_time := R.fl (st.total_execution_time / st.num_iteration),
      jitter_exec_time :=
        (st.max_execution_time + UINT32_MOD - st.min_execution_time) % UINT32_MOD,
      jitter_start_time :=
        (st.max_start_time + UINT32_MOD - st.min_start_time) % UINT32_MOD }
  else
    { min_exec_time := 0, max_exec_time := 0, avg_exec_time := 0,
      jitter_exec_time := 0, jitter_start_time := 0 }

/-- A fresh `Service_Statistic` after one call of `update_statistic` for each
pair `(exec_time, start_time)` of the list, in order. -/
def Service_Statistic.record (R : Rounding) (samples : List (Nat × Nat)) : Service_Statistic :=
  samples.foldl (fun st x => st.update_statistic R x.1 x.2) Service_Statistic.init

/-- Position of the service thread inside `Service::_provideService`; clock
readings are in microseconds. -/
inductive ThreadPc
  /-- Started by the constructor, about to read `_t1`. -/
  | spawned
  /-- About to evaluate the condition of `while (_running)`. -/
  | loopHead
  /-- Inside `_sem.acquire()`. -/
  | acquire
  /-- After `acquire` returned, about to evaluate `if (!_running) break`. -/
  | woken
  /-- Past the test `if (!_running) break`, found false: `_start_time` was
  computed, about to read `_t3`. -/
  | started (start_time : Nat)
  /-- Inside `_doService()`. -/
  | inTask (start_time : Nat) (t3 : Nat)
  /-- The loop has been left and `_provideService` has returned. -/
  | exited
deriving DecidableEq, Repr

/-- Data members of `class Service`: the parameters, the value of the semaphore
`_sem`, the flag `_running`, the statistics object behind `_service_stat`, the
reading `_t1` and the position of the thread.  The `std::binary_semaphore` is a
counter here: a release on a semaphore that is already at 1 is counted. -/
structure Service where
  affinity : Nat
  priority : Nat
  period : Nat
  service_id : Nat
  sem : Nat
  running : Bool
  service_stat : Service_Statistic
  t1 : Nat
  thread : ThreadPc
deriving DecidableEq, Repr

/-- The state set up by the constructor of `Service`: the member initialisers,
then the thread started on `_provideService`. -/
def Service.init (affinity priority period : Nat) (service_stat : Service_Statistic)
    (service_id : Nat) : Service :=
  { affinity := affinity, priority := priority, period := period,
    service_id := service_id, sem := 0, running := true,
    service_stat := service_stat, t1 := 0, thread := .spawned }

/-- Constructor `Service::Service(doService, affinity, priority, period,
service_stat, service_id)`.  The body has no check and no `throw`, so the result
is always a constructed service. -/
def Service.construct (affinity priority period : Nat) (service_stat : Service_Statistic)
    (service_id : Nat) : Except String Service :=
  .ok (Service.init affinity priority period service_stat service_id)

/-- Method `Service::release`: `_sem.release()`. -/
def Service.release (s : Service) : Service :=
  { s with sem := s.sem + 1 }

/-- Method `Service::stop`: `_running = false; _sem.release();`. -/
def Service.stop (s : Service) : Service :=
  { s with running := false, sem := s.sem + 1 }

/-- The conversion of a signed count of microseconds to `uint32_t`: the count is
reduced modulo `2 ^ 32`, so that a negative count (a clock that was set back)
becomes a large value. -/
def toUint32 (count : Int) : Nat :=
  (count % 2 ^ 32).toNat

/-- One step of the service thread in `_provideService`; `now` is the reading
of the clock should the step take one.  A thread inside `acquire` with the
semaphore at 0 is blocked and the step changes nothing. -/
def Service.provideServiceStep (R : Rounding) (now : Nat) (s : Service) : Service :=
  match s.thread with
  | .spawned => { s with t1 := now, thread := .loopHead }
  | .loopHead =>
    if s.running then { s with thread := .acquire } else { s with thread := .exited }
  | .acquire =>
    if s.sem = 0 then s else { s with sem := s.sem - 1, thread := .woken }
  | .woken =>
    if !s.running then { s with thread := .exited }
    else { s with thread := .started (toUint32 ((now : Int) - (s.t1 : Int))) }
  | .started start_time => { s with thread := .inTask start_time now }
  | .inTask start_time t3 =>
    let execution_time := toUint32 ((now : Int) - (t3 : Int))
    { s with service_stat := s.service_stat.update_statistic R execution_time start_time,
             thread := .loopHead }
  | .exited => s

/-- Accessor `Service::getPeriod`. -/
def Service.getPeriod (s : Service) : Nat := s.period

/-- The range-based `for` loop in the tick thread:
`if (tick % service->getPeriod() == 0) service->release();` for each service in
order.  The result lists the positions (counted from `i`) of the services on
which `release()` was called, in call order.  Evaluating `%` with a zero divisor
is a division by zero, where the loop faults (`none`). -/
def releaseDue (tick : Nat) : List Service → Nat → Option (List Nat)
  | [], _ => some []
  | s :: rest, i =>
    if s.getPeriod = 0 then none
    else
      match releaseDue tick rest (i + 1) with
      | none => none
      | some calls => some (if tick % s.getPeriod = 0 then i :: calls else calls)

/-- One iteration of the `while (_running)` loop of the tick thread, after the
1 ms sleep: `tick++` on a `uint64_t`, then the release loop.  Returns the new
tick and the release calls made. -/
def tickIteration (tick : Nat) (services : List Service) : Option (Nat × List Nat) :=
  let tick1 := (tick + 1) % UINT64_MOD
  match releaseDue tick1 services 0 with
  | none => none
  | some calls => some (tick1, calls)

/-- The tick thread of `Sequencer::startServices` run for `D` completed
iterations, starting from `tick = 0`: the final tick and every release call made,
in order. -/
def runTicks (services : List Service) : Nat → Option (Nat × List Nat)
  | 0 => some (0, [])
  | D + 1 =>
    match runTicks services D with
    | none => none
    | some (tick, calls) =>
      match tickIteration tick services with
      | none => none
      | some (tick1, more) => some (tick1, calls ++ more)

/-- Number of `release()` calls received by the service at position `i` during
`D` completed tick iterations. -/
def releaseCount (services : List Service) (D i : Nat) : Option Nat :=
  (runTicks services D).map (fun r => r.2.count i)

/-- Members of `class Sequencer`: `_services`, the flag `_running`, and whether
`_tickThread` holds a started thread. -/
structure Sequencer where
  services : List Service
  running : Bool
  tickThread : Bool
deriving DecidableEq, Repr

/-- A `new Service_Statistic`, as the callers of `addService` pass it. -/
def newStat : Service_Statistic := Service_Statistic.init

/-- A default-constructed `Sequencer`. -/
def Sequencer.empty : Sequencer :=
  { services := [], running := false, tickThread := false }

/-- Method `Sequencer::addService`: constructs the service and appends it. -/
def Sequencer.addService (seq : Sequencer) (affinity priority period : Nat)
    (service_stat : Service_Statistic) (service_id : Nat) : Except String Sequencer :=
  match Service.construct affinity priority period service_stat service_id with
  | .error e => .error e
  | .ok svc => .ok { seq with services := seq.services ++ [svc] }

/-- Method `Sequencer::startServices`: sets `_running` and starts the tick
thread. -/
def Sequencer.startServices (seq : Sequencer) : Sequencer :=
  { seq with running := true, tickThread := true }

/-- Method `Sequencer::stopServices`: clears `_running`, then `stop()` on every
service in the order of `_services`. -/
def Sequencer.stopServices (seq : Sequencer) : Sequencer :=
  { seq with running := false, services := seq.services.map Service.stop }

/-- Sum of the execution times of a list of samples. -/
def execSum (samples : List (Nat × Nat)) : Nat :=
  (samples.map Prod.fst).sum

/-- Two services of periods 100 ms and 300 ms. -/
def twoServices : List Service :=
  [Service.init 0 50 100 newStat 1, Service.init 1 51 300 newStat 2]

/-- Three services of periods 100 ms, 300 ms and 7 ms. -/
def threeServices : List Service :=
  [Service.init 1 99 100 newStat 1, Service.init 1 98 300 newStat 2,
   Service.init 2 97 7 newStat 3]

end RTES_FINAL

namespace Ver3

/-- Value of `std::numeric_limits<double>::max()`, the initial value of the running
minima. -/
def DBL_MAX : ℚ := (2 - 1 / 2 ^ 52) * 2 ^ 1023

/-- The greatest value of an `int`. -/
def INT_MAX : Int := 2147483647

/-- An `int` result reduced to the range of the type: the value an increment
past `INT_MAX` leaves on the targets of this program (two's complement). -/
def wrapInt32 (x : Int) : Int :=
  (x + 2 ^ 31) % 2 ^ 32 - 2 ^ 31

/-- The conversion `std::chrono::duration<double, std::milli>(d).count()` of a
difference `d` of two clock readings: the count of `d` in nanoseconds is
converted to `double` and divided by `1000000.0`.  Readings are in milliseconds,
so the count in nanoseconds is `d * 1000000`. -/
def toMilliseconds (R : RTES_FINAL.Rounding) (d : ℚ) : ℚ :=
  R.fl (R.fl (d * 1000000) / 1000000)

/-- Position of the service thread inside `Service::_provideService`.  Clock
readings are in milliseconds; a `double` is the rational it stands for, and the
operations on `double` round their results (`Rounding`). -/
inductive ThreadPc
  /-- About to evaluate the condition of `while (_isRunning)`. -/
  | loopHead
  /-- Inside `sem_wait(&_releaseSem)`. -/
  | semWait
  /-- After `sem_wait` returned, about to evaluate `if (_isRunning)`. -/
  | woken
  /-- Past the test `if (_isRunning)`, found true, up to the return of
  `_doService()`; `start` is the local recorded before the call. -/
  | inTask (start : ℚ)
  /-- The loop has been left and `_provideService` has returned. -/
  | exited
deriving DecidableEq, Repr

/-- Data members of `class Service`, the value of the semaphore `_releaseSem`,
whether it was destroyed, whether a stop was requested on the `std::jthread`,
and the position of the thread.  The `int` `_executionCount` is kept in the
range of the type by `wrapInt32`.  The semaphore value is a natural number with
no upper limit here, whereas `sem_post` fails once the value is `SEM_VALUE_MAX`
(`2147483647`): statements about releases carry that bound. -/
structure Service where
  service_name : String
  affinity : Nat
  priority : Nat
  period : Nat
  isRunning : Bool
  releaseSem : Nat
  semDestroyed : Bool
  stopRequested : Bool
  thread : ThreadPc
  lastStartTime : ℚ
  minExecTime : ℚ
  maxExecTime : ℚ
  totalExecTime : ℚ
  executionCount : Int
  minStartJitter : ℚ
  maxStartJitter : ℚ
deriving DecidableEq, Repr

/-- Accessor `Service::getPeriod`. -/
def Service.getPeriod (s : Service) : Nat := s.period

/-- The state set up by the constructor of `Service`: the parameters are stored,
`_isRunning` is set, the semaphore is initialised to 0, the statistics have their
default member initialisers, and the thread is started on `_provideService`
(which, after `_initializeService`, is at the loop head). -/
def Service.init (name : String) (affinity priority period : Nat) : Service :=
  { service_name := name, affinity := affinity, priority := priority,
    period := period, isRunning := true, releaseSem := 0,
    semDestroyed := false, stopRequested := false, thread := .loopHead,
    lastStartTime := 0, minExecTime := DBL_MAX, maxExecTime := 0,
    totalExecTime := 0, executionCount := 0,
    minStartJitter := DBL_MAX, maxStartJitter := 0 }

/-- Constructor `Service::Service(name, doService, affinity, priority, period)`.
The body has no check and no `throw`, so the result is always a constructed
service. -/
def Service.construct (name : String) (affinity priority period : Nat) :
    Except String Service :=
  .ok (Service.init name affinity priority period)

/-- Method `Service::release`: one `sem_post` on the counting semaphore. -/
def Service.release (s : Service) : Service :=
  { s with releaseSem := s.releaseSem + 1 }

/-- One step of the service thread in `_provideService`; `now` is the reading
of the clock should the step take one.  A thread inside `sem_wait` with the
semaphore at 0 is blocked and the step changes nothing. -/
def Service.provideServiceStep (R : RTES_FINAL.Rounding) (now : ℚ) (s : Service) :
    Service :=
  match s.thread with
  | .loopHead =>
    if s.isRunning then { s with thread := .semWait } else { s with thread := .exited }
  | .semWait =>
    if s.releaseSem = 0 then s
    else { s with releaseSem := s.releaseSem - 1, thread := .woken }
  | .woken =>
    if s.isRunning then
      let start := now
      let s1 :=
        if s.executionCount > 0 then
          let actualInterval := toMilliseconds R (start - s.lastStartTime)
          let expectedInterval : ℚ := s.period
          let jitter := |R.fl (actualInterval - expectedInterval)|
          { s with minStartJitter := min s.minStartJitter jitter,
                   maxStartJitter := max s.maxStartJitter jitter }
        else s
      { s1 with lastStartTime := start, thread := .inTask start }
    else { s with thread := .loopHead }
  | .inTask start =>
    let execTime := toMilliseconds R (now - start)
    { s with minExecTime := min s.minExecTime execTime,
             maxExecTime := max s.maxExecTime execTime,
             totalExecTime := R.fl (s.totalExecTime + execTime),
             executionCount := wrapInt32 (s.executionCount + 1),
             thread := .loopHead }
  | .exited => s

/-- Release credits not yet turned into a recorded execution: the value of the
semaphore, plus one when the thread has taken a credit and has not yet finished
the execution it pays for. -/
def Service.credits (s : Service) : Nat :=
  s.releaseSem +
    (match s.thread with
     | .woken => 1
     | .inTask _ => 1
     | _ => 0)

/-- Number of thread steps after which a running thread is certainly blocked. -/
def Service.stepsLeft (s : Service) : Nat :=
  4 * s.releaseSem +
    (match s.thread with
     | .loopHead => 1
     | .semWait => 0
     | .woken => 3
     | .inTask _ => 2
     | .exited => 0)

/-- The thread is blocked: inside `sem_wait` with no release credit. -/
def Service.blocked (s : Service) : Bool :=
  s.thread = .semWait && s.releaseSem = 0

/-- The service thread taking one step per clock reading of the list. -/
def Service.runThread (R : RTES_FINAL.Rounding) (s : Service) (clock : List ℚ) : Service :=
  clock.foldl (fun st now => st.provideServiceStep R now) s

/-- What happens to a service between two observations: a call of `release()`
from the release driver, or a step of the service thread. -/
inductive Action
  | release
  | thread (now : ℚ)
deriving DecidableEq, Repr

/-- Effect of one action. -/
def Service.act (R : RTES_FINAL.Rounding) (s : Service) : Action → Service
  | .release => s.release
  | .thread now => s.provideServiceStep R now

/-- Effect of a sequence of actions, a schedule of the driver and the thread. -/
def Service.run (R : RTES_FINAL.Rounding) (s : Service) (schedule : List Action) :
    Service :=
  schedule.foldl (Service.act R) s

/-- Number of `release()` calls in a schedule. -/
def releasesIn (schedule : List Action) : Nat :=
  schedule.count .release

/-- The service "Gas Monitor" of `final.cpp` (affinity 1, priority 99, period
100 ms) after a first release: its thread is inside the task, started at
100 ms.  No operation on a `double` has been done yet. -/
def gasMonitorInTask : Service :=
  (Service.init "Gas Monitor" 1 99 100).run RTES_FINAL.Rounding.exactArith
    [.thread 0, .release, .thread 0, .thread 100]

/-- The same service after the task has returned at 102 ms and the thread waits
for the next release.  The execution time, 2 ms, is a `double`, and so is every
value computed up to here. -/
def gasMonitorIdle : Service :=
  gasMonitorInTask.run RTES_FINAL.Rounding.exactArith [.thread 102, .thread 102]

/-- The record printed by `Service::logStatistics`. -/
structure Report where
  service_name : String
  period : Nat
  minExecTime : ℚ
  maxExecTime : ℚ
  avgExecTime : ℚ
  execJitter : ℚ
  startJitter : ℚ
deriving DecidableEq, Repr

/-- Calls made by `Service::stop`, in order. -/
inductive Event
  | semPost
  | requestStop
  | semDestroy
  | report (r : Report)
deriving DecidableEq, Repr

/-- Method `Service::logStatistics`: nothing when `_executionCount == 0`, else the
report.  The average and the two jitters are written as the exact values of
their expressions. -/
def Service.logStatistics (s : Service) : List Event :=
  if s.executionCount = 0 then []
  else
    let avgExecTime := s.totalExecTime / s.executionCount
    let execJitter := s.maxExecTime - s.minExecTime
    let startJitter := s.maxStartJitter - s.minStartJitter
    [.report { service_name := s.service_name, period := s.period,
               minExecTime := s.minExecTime, maxExecTime := s.maxExecTime,
               avgExecTime := avgExecTime, execJitter := execJitter,
               startJitter := startJitter }]

/-- Method `Service::stop`: `_isRunning = false; sem_post; request_stop();
sem_destroy; logStatistics();`.  There is no `join`: the thread keeps its
position, and it is joined only by the destructor of the `std::jthread`. -/
def Service.stop (s : Service) : Service × List Event :=
  let s1 := { s with isRunning := false }
  let s2 := { s1 with releaseSem := s1.releaseSem + 1 }
  let s3 := { s2 with stopRequested := true }
  let s4 := { s3 with semDestroyed := true }
  (s4, [.semPost, .requestStop, .semDestroy] ++ s4.logStatistics)

/-- Members of `class Sequencer`: `_services` and `_timerIds`. -/
structure Sequencer where
  services : List Service
  timerIds : List Nat
deriving DecidableEq, Repr

/-- Method `Sequencer::addService`: constructs the service and appends it. -/
def Sequencer.addService (seq : Sequencer) (name : String)
    (affinity priority period : Nat) : Except String Sequencer :=
  match Service.construct name affinity priority period with
  | .error e => .error e
  | .ok svc => .ok { seq with services := seq.services ++ [svc] }

/-- A `struct timespec`. -/
structure Timespec where
  tv_sec : Int
  tv_nsec : Int
deriving DecidableEq, Repr

/-- A `struct itimerspec`. -/
structure Itimerspec where
  it_value : Timespec
  it_interval : Timespec
deriving DecidableEq, Repr

/-- Conversion of a `uint32_t` to `int` (`int period_ms = svc->getPeriod()`). -/
def toInt32 (n : Nat) : Int :=
  if n % 2 ^ 32 < 2 ^ 31 then (n % 2 ^ 32 : Nat) else ((n % 2 ^ 32 : Nat) : Int) - 2 ^ 32

/-- The timer setting computed in `startServices` for a service. -/
def timerSpec (svc : Service) : Itimerspec :=
  let period_ms : Int := toInt32 svc.getPeriod
  let it_value : Timespec :=
    { tv_sec := Int.tdiv period_ms 1000, tv_nsec := Int.tmod period_ms 1000 * 1000000 }
  { it_value := it_value, it_interval := it_value }

/-- Results of the operating-system calls made by `startServices`, by position of
the service: `timer_create` gives the new timer or fails, `timer_settime`
succeeds or fails. -/
structure TimerEnv where
  timer_create : Nat → Option Nat
  timer_settime : Nat → Bool

/-- Calls made by the sequencer, in order. -/
inductive SeqEvent
  | perror (msg : String)
  | timerSet (timer : Nat) (service : Nat) (its : Itimerspec)
  | timerDelete (timer : Nat)
  | serviceStop (service : Nat) (calls : List Event)
deriving DecidableEq, Repr

/-- The `for` loop of `Sequencer::startServices` over the services from position
`i` on: returns the timers pushed to `_timerIds` and the calls made. -/
def armTimers (env : TimerEnv) : List Service → Nat → List Nat × List SeqEvent
  | [], _ => ([], [])
  | svc :: rest, i =>
    let (timers, events) := armTimers env rest (i + 1)
    match env.timer_create i with
    | none => (timers, .perror "timer_create" :: events)
    | some timerId =>
      if env.timer_settime i then
        (timerId :: timers, .timerSet timerId i (timerSpec svc) :: events)
      else
        (timers, .perror "timer_settime" :: .timerDelete timerId :: events)

/-- Method `Sequencer::startServices`: it returns `void` and has no `throw`, so
it always completes normally. -/
def Sequencer.startServices (env : TimerEnv) (seq : Sequencer) :
    Except String (Sequencer × List SeqEvent) :=
  let (timers, events) := armTimers env seq.services 0
  .ok ({ seq with timerIds := seq.timerIds ++ timers }, events)

/-- The second `for` loop of `Sequencer::stopServices`, over the services from
position `i` on: `svc->stop()` for each. -/
def stopAll : List Service → Nat → List Service × List SeqEvent
  | [], _ => ([], [])
  | svc :: rest, i =>
    let (svc1, calls) := svc.stop
    let (rest1, events) := stopAll rest (i + 1)
    (svc1 :: rest1, .serviceStop i calls :: events)

/-- Method `Sequencer::stopServices`: `timer_delete` for every entry of
`_timerIds`, `_timerIds.clear()`, then `stop()` on every service. -/
def Sequencer.stopServices (seq : Sequencer) : Sequencer × List SeqEvent :=
  let deletions := seq.timerIds.map SeqEvent.timerDelete
  let (services1, stops) := stopAll seq.services 0
  ({ services := services1, timerIds := [] }, deletions ++ stops)

end Ver3

namespace Ver1

/-- Modulus of `uint32_t`, the type of `execCount` and `missedDeadlines`. -/
def UINT32_MOD : Nat := 2 ^ 32

/-- Members of `class Service_Statistic`. -/
structure Service_Statistic where
  execCount : Nat
  missedDeadlines : Nat
deriving DecidableEq, Repr

/-- Position of the service thread inside `Service::_provideService`; clock
readings are in nanoseconds. -/
inductive ThreadPc
  /-- Inside `_cv.wait(lock, ...)`. -/
  | waiting
  /-- Inside `_func()`; `start` was read before the call. -/
  | inTask (start : Int)
  /-- The loop has been left and `_provideService` has returned. -/
  | exited
deriving DecidableEq, Repr

/-- Data members of `class Service`: the parameters, the object behind `_stats`
(absent for a null pointer), the flags `_ready` and `_running`, the position of
the thread and whether `_service` is joinable. -/
structure Service where
  priority : Nat
  criticality : Nat
  period : Nat
  stats : Option Service_Statistic
  service_id : Nat
  ready : Bool
  running : Bool
  thread : ThreadPc
  joinable : Bool
deriving DecidableEq, Repr

/-- Constructor `Service::Service(func, priority, criticality, period_ms, stats,
service_id)`: stores the parameters and starts the thread. -/
def Service.construct (priority criticality period_ms : Nat)
    (stats : Option Service_Statistic) (service_id : Nat) : Service :=
  { priority := priority, criticality := criticality, period := period_ms,
    stats := stats, service_id := service_id, ready := false, running := true,
    thread := .waiting, joinable := true }

/-- Method `Service::release`: sets `_ready` and notifies. -/
def Service.release (s : Service) : Service :=
  { s with ready := true }

/-- One step of the service thread in `_provideService`; `now` is the reading of
the steady clock taken by the step.  A thread waiting with `_ready` false and
`_running` true is blocked and the step changes nothing. -/
def Service.provideServiceStep (now : Int) (s : Service) : Service :=
  match s.thread with
  | .waiting =>
    if s.ready || !s.running then
      if !s.running then { s with thread := .exited }
      else { s with ready := false, thread := .inTask now }
    else s
  | .inTask start =>
    let stats1 := s.stats.map fun st =>
      let st1 := { st with execCount := (st.execCount + 1) % UINT32_MOD }
      if now - start > (s.period : Int) * 1000000 then
        { st1 with missedDeadlines := (st1.missedDeadlines + 1) % UINT32_MOD }
      else st1
    { s with stats := stats1, thread := .waiting }
  | .exited => s

/-- Calls made by `Service::stop`, in order. -/
inductive Event
  | notifyOne
  | join
deriving DecidableEq, Repr

/-- Method `Service::stop`: sets `_running = false` and `_ready = true`,
notifies, and joins the thread when it is joinable.  The join returns when the
thread has left its loop: a task under way is finished first (`finish` is the
clock reading at its end). -/
def Service.stop (finish : Int) (s : Service) : Service × List Event :=
  let s1 := { s with running := false, ready := true }
  if s1.joinable then
    let s2 :=
      match s1.thread with
      | .inTask _ => (s1.provideServiceStep finish).provideServiceStep finish
      | _ => s1.provideServiceStep finish
    ({ s2 with joinable := false }, [.notifyOne, .join])
  else (s1, [.notifyOne])

/-- Members of `class Sequencer`: `_services`, the flag `_running`, and whether
`_tickThread` is joinable. -/
structure Sequencer where
  services : List Service
  running : Bool
  tickThreadJoinable : Bool
deriving DecidableEq, Repr

/-- Method `Sequencer::addService`. -/
def Sequencer.addService (seq : Sequencer) (priority criticality period_ms : Nat)
    (stats : Option Service_Statistic) (service_id : Nat) : Sequencer :=
  { seq with services :=
      seq.services ++ [Service.construct priority criticality period_ms stats service_id] }

/-- Method `Sequencer::startServices`: sets `_running` and starts the tick
thread, which releases every service every 20 ms while `_running` holds. -/
def Sequencer.startServices (seq : Sequencer) : Sequencer :=
  { seq with running := true, tickThreadJoinable := true }

/-- Calls made by `Sequencer::stopServices`, in order. -/
inductive SeqEvent
  | tickThreadJoin
  | serviceStop (service : Nat) (calls : List Event)
deriving DecidableEq, Repr

/-- The `for` loop of `Sequencer::stopServices`, over the services from position
`i` on: `service->stop()` for each; `finish i` is the clock reading at the end of
the task of service `i`, should one be under way. -/
def stopAll (finish : Nat → Int) : List Service → Nat → List Service × List SeqEvent
  | [], _ => ([], [])
  | svc :: rest, i =>
    let (svc1, calls) := svc.stop (finish i)
    let (rest1, events) := stopAll finish rest (i + 1)
    (svc1 :: rest1, .serviceStop i calls :: events)

/-- Method `Sequencer::stopServices`: clears `_running`, joins the tick thread
when it is joinable, then `stop()` on every service. -/
def Sequencer.stopServices (finish : Nat → Int) (seq : Sequencer) :
    Sequencer × List SeqEvent :=
  let seq1 := { seq with running := false }
  let (seq2, joins) :=
    if seq1.tickThreadJoinable then
      ({ seq1 with tickThreadJoinable := false }, [SeqEvent.tickThreadJoin])
    else (seq1, [])
  let (services1, stops) := stopAll finish seq2.services 0
  ({ seq2 with services := services1 }, joins ++ stops)

end Ver1

namespace RTES_FINAL

/-- What happens to a service between two observations: a call of `release()`,
or a step of the service thread with the clock reading it takes. -/
inductive Action
  | release
  | thread (now : Nat)
deriving DecidableEq, Repr

/-- Effect of one action. -/
def Service.act (R : Rounding) (s : Service) : Action → Service
  | .release => s.release
  | .thread now => s.provideServiceStep R now

/-- Effect of a sequence of actions, a schedule of the callers of `release()` and
of the thread. -/
def Service.run (R : Rounding) (s : Service) (schedule : List Action) : Service :=
  schedule.foldl (Service.act R) s

/-- The clock readings of the steps of the thread in a schedule, in order. -/
def threadReadings : List Action → List Nat
  | [] => []
  | .release :: rest => threadReadings rest
  | .thread now :: rest => now :: threadReadings rest

/-- Position of the tick thread inside the lambda of `Sequencer::startServices`. -/
inductive TickPc
  /-- About to evaluate the condition of `while (_running)`. -/
  | check
  /-- Inside the loop body: in `sleep_for`, before `tick++` and the release loop. -/
  | sleeping
  /-- The loop has been left. -/
  | exited
deriving DecidableEq, Repr

/-- The local `tick` of the tick thread and its position. -/
structure TickThread where
  tick : Nat
  pc : TickPc
deriving DecidableEq, Repr

/-- The tick thread as `startServices` starts it. -/
def TickThread.start : TickThread := { tick := 0, pc := .check }

/-- The services after `release()` on those at the positions `calls`. -/
def releaseAt (services : List Service) (calls : List Nat) : List Service :=
  services.enum.map (fun p => if p.1 ∈ calls then p.2.release else p.2)

/-- One step of the tick thread: the test of `_running`, or one loop body (sleep,
`tick++`, release loop).  Returns the sequencer, the thread, and the positions
of the services released by the step; `none` when the release loop divides by
zero. -/
def Sequencer.tickThreadStep (seq : Sequencer) (th : TickThread) :
    Option (Sequencer × TickThread × List Nat) :=
  match th.pc with
  | .check =>
    some (seq, { th with pc := if seq.running then .sleeping else .exited }, [])
  | .sleeping =>
    match tickIteration th.tick seq.services with
    | none => none
    | some (tick1, calls) =>
      some ({ seq with services := releaseAt seq.services calls },
            { tick := tick1, pc := .check }, calls)
  | .exited => some (seq, th, [])

/-- The comparison `customLess`: by period, strictly. -/
def customLess (a b : Service) : Bool :=
  a.getPeriod < b.getPeriod

/-- Method `Sequencer::sortServicesbyAscendingPeriod`:
`std::sort(_services.begin(), _services.end(), customLess)`.  The sort is an
insertion sort, which is what `std::sort` of libstdc++ runs on up to 16
elements; `std::sort` itself fixes the result only up to the order of services
of equal period, and the theorems about the sorted collection state only what
every such result has: it is a permutation and the periods do not decrease. -/
def Sequencer.sortServicesbyAscendingPeriod (seq : Sequencer) : Sequencer :=
  { seq with services := seq.services.insertionSort (fun a b => customLess b a = false) }

/-- The services on which the release loop calls `release()` at a tick, in call
order; `none` when the loop divides by zero. -/
def releasedServices (tick : Nat) (services : List Service) : Option (List Service) :=
  (releaseDue tick services 0).map (fun calls => calls.filterMap (fun i => services[i]?))

/-- A sequencer with one service of period 1 ms, started. -/
def startedOneService : Sequencer :=
  { services := [Service.init 1 99 1 newStat 1], running := true, tickThread := true }

end RTES_FINAL

namespace Ver3

/-- The clock readings of the steps of the thread in a schedule, in order. -/
def threadReadings : List Action → List ℚ
  | [] => []
  | .release :: rest => threadReadings rest
  | .thread now :: rest => now :: threadReadings rest

/-- The start time of the task execution that an action begins, if it begins
one: the local `start` with which a step takes the thread, woken, into the
task. -/
def Service.stepStart (R : RTES_FINAL.Rounding) (s : Service) (a : Action) : List ℚ :=
  match a, s.thread, (s.act R a).thread with
  | .thread _, .woken, .inTask start => [start]
  | _, _, _ => []

/-- The start times of the task executions begun during a schedule, in order. -/
def Service.starts (R : RTES_FINAL.Rounding) (s : Service) : List Action → List ℚ
  | [] => []
  | a :: rest => s.stepStart R a ++ (s.act R a).starts R rest

/-- The start-interval jitters of a list of start times: for each execution after
the first, `|start - previous start - period|` as the code computes it, the
interval converted to a `double` of milliseconds and the subtraction rounded. -/
def jitters (R : RTES_FINAL.Rounding) (period : Nat) : List ℚ → List ℚ
  | a :: b :: rest =>
    |R.fl (toMilliseconds R (b - a) - (period : ℚ))| :: jitters R period (b :: rest)
  | _ => []

/-- A schedule of three releases of a service, each followed by its execution:
the executions start at 100, 201 and 299 ms. -/
def threeRuns : List Action :=
  [.thread 0, .release, .thread 0, .thread 100, .thread 102, .thread 102,
   .release, .thread 200, .thread 201, .thread 203, .thread 203,
   .release, .thread 298, .thread 299, .thread 301]

/-- One release of a service followed by its execution, with every clock reading
at 0. -/
def cycle : List Action :=
  [.release, .thread 0, .thread 0, .thread 0, .thread 0]

/-- The schedule of `n` such cycles. -/
def cycles : Nat → List Action
  | 0 => []
  | n + 1 => cycle ++ cycles n

/-- The service "Gas Monitor" after `2147483648` executions, each released and
run with every clock reading at 0; the thread waits for the next release. -/
def gasMonitorAfterOverflow : Service :=
  (Service.init "Gas Monitor" 1 99 100).run RTES_FINAL.Rounding.exactArith
    (.thread 0 :: cycles 2147483648)

/-- The relation between a running service and the start times of the
executions it has begun so far, at most `INT_MAX` of them. -/
def JitterInv (R : RTES_FINAL.Rounding) (P : Nat) (s : Service) (st : List ℚ) : Prop :=
  s.isRunning = true ∧ s.period = P ∧ (st.length : Int) ≤ INT_MAX ∧
    s.executionCount =
      (st.length : Int) - (match s.thread with
                           | .inTask _ => 1
                           | _ => 0) ∧
    ((∃ x, s.thread = .inTask x) → st ≠ []) ∧
    (st ≠ [] → st.getLast? = some s.lastStartTime) ∧
    s.minStartJitter = (jitters R P st).foldl min DBL_MAX ∧
    s.maxStartJitter = (jitters R P st).foldl max 0

end Ver3

namespace RTES_FINAL

end RTES_FINAL

namespace Ver1

/-- What happens to a service between two observations: a call of `release()`,
or a step of the service thread with the reading of the steady clock it takes. -/
inductive Action
  | release
  | thread (now : Int)
deriving DecidableEq, Repr

/-- Effect of one action. -/
def Service.act (s : Service) : Action → Service
  | .release => s.release
  | .thread now => s.provideServiceStep now

/-- Effect of a sequence of actions, a schedule of the callers of `release()` and
of the thread. -/
def Service.run (s : Service) (schedule : List Action) : Service :=
  schedule.foldl Service.act s

/-- Number of task executions completed during a schedule: the steps the thread
takes from inside `_func()`, at which the call returns. -/
def Service.completed (s : Service) : List Action → Nat
  | [] => 0
  | a :: rest =>
    (match a, s.thread with
     | .thread _, .inTask _ => 1
     | _, _ => 0) + (s.act a).completed rest

/-- Number of the task executions completed during a schedule whose measured
duration `end - start` exceeded the period (in nanoseconds). -/
def Service.late (s : Service) : List Action → Nat
  | [] => 0
  | a :: rest =>
    (match a, s.thread with
     | .thread now, .inTask start =>
       if now - start > (s.period : Int) * 1000000 then 1 else 0
     | _, _ => 0) + (s.act a).late rest

/-- The actions of one release followed by one task execution from `start` to
`finish`. -/
def oneExecution (start finish : Int) : List Action :=
  [.release, .thread start, .thread finish]

/-- The actions of `n` releases, each followed by one task execution from `start`
to `finish`. -/
def executions (start finish : Int) : Nat → List Action
  | 0 => []
  | n + 1 => oneExecution start finish ++ executions start finish n

/-- A service of period 100 ms with a fresh `Service_Statistic`. -/
def freshService : Service :=
  Service.construct 1 2 100 (some { execCount := 0, missedDeadlines := 0 }) 1

end Ver1

namespace RTES_FINAL

/-- The `for` loop of `Sequencer::stopServices`: `service->stop()` for each
service in the order of `_services`.  Returns the services after the calls and
the services on which `stop()` was called, in call order. -/
def stopLoop : List Service → List Service × List Service
  | [] => ([], [])
  | s :: rest => (s.stop :: (stopLoop rest).1, s :: (stopLoop rest).2)

/-- Method `Sequencer::stopServices` together with the services on which it
calls `stop()`, in call order. -/
def Sequencer.stopServicesTrace (seq : Sequencer) : Sequencer × List Service :=
  ({ seq with running := false, services := (stopLoop seq.services).1 },
   (stopLoop seq.services).2)

/-- The arguments of one `addService` call: affinity, priority, period, the
statistics object and the service id. -/
structure ServiceArgs where
  affinity : Nat
  priority : Nat
  period : Nat
  service_stat : Service_Statistic
  service_id : Nat
deriving DecidableEq, Repr

/-- The service that `addService` constructs from its arguments. -/
def ServiceArgs.service (a : ServiceArgs) : Service :=
  Service.init a.affinity a.priority a.period a.service_stat a.service_id

/-- A sequence of `addService` calls on a sequencer, in order. -/
def Sequencer.addServices (seq : Sequencer) : List ServiceArgs → Except String Sequencer
  | [] => .ok seq
  | a :: rest =>
    match seq.addService a.affinity a.priority a.period a.service_stat a.service_id with
    | .error e => .error e
    | .ok seq1 => seq1.addServices rest

/-- An `addService` call for period 300 ms followed by one for period 100 ms. -/
def slowThenFast : List ServiceArgs :=
  [{ affinity := 1, priority := 98, period := 300, service_stat := newStat, service_id := 1 },
   { affinity := 1, priority := 99, period := 100, service_stat := newStat, service_id := 2 }]

end RTES_FINAL

namespace Ver1

/-- Number of task executions begun during a schedule: the steps of the thread
that take it from inside `_cv.wait` into `_func()`. -/
def Service.begun (s : Service) : List Action → Nat
  | [] => 0
  | a :: rest =>
    (match a, s.thread, (s.act a).thread with
     | .thread _, .waiting, .inTask _ => 1
     | _, _, _ => 0) + (s.act a).begun rest

/-- The steps of the service thread alone, one per clock reading. -/
def threadSteps (clock : List Int) : List Action :=
  clock.map .thread

/-- The calls of `release()` alone, `k` of them. -/
def releases (k : Nat) : List Action :=
  List.replicate k .release

end Ver1

namespace FinalCombined

/-- The value of `std::string::npos`, the largest `size_t`. -/
def NPOS : Nat := 2 ^ 64 - 1

/-- Modulus of `size_t`. -/
def SIZE_MOD : Nat := 2 ^ 64

/-- The double-quote character. -/
def QUOTE : Char := Char.ofNat 34

/-- Index of the first character of a string that satisfies `p`, if any. -/
def firstIdx (p : Char → Bool) : List Char → Option Nat
  | [] => none
  | c :: cs => if p c then some 0 else (firstIdx p cs).map (· + 1)

/-- Index of the first occurrence of `needle` in a string, if any. -/
def findAux (needle : List Char) : List Char → Option Nat
  | [] => if needle = [] then some 0 else none
  | c :: cs =>
    if List.isPrefixOf needle (c :: cs) then some 0
    else (findAux needle cs).map (· + 1)

/-- Method `std::string::find(needle, pos)`: the position of the first occurrence
of `needle` at or after `pos`, or `npos`.  A string is the list of its
characters. -/
def find (s needle : List Char) (pos : Nat) : Nat :=
  if pos > s.length then NPOS
  else
    match findAux needle (s.drop pos) with
    | some i => pos + i
    | none => NPOS

/-- Method `std::string::find_first_not_of(chars, pos)`. -/
def find_first_not_of (s chars : List Char) (pos : Nat) : Nat :=
  match firstIdx (fun c => !chars.contains c) (s.drop pos) with
  | some i => pos + i
  | none => NPOS

/-- Method `std::string::find_first_of(chars, pos)`. -/
def find_first_of (s chars : List Char) (pos : Nat) : Nat :=
  match firstIdx (fun c => chars.contains c) (s.drop pos) with
  | some i => pos + i
  | none => NPOS

/-- Method `std::string::substr(pos, count)`: throws `std::out_of_range` when
`pos > size()`, else the characters from `pos` on, at most `count` of them. -/
def substr (s : List Char) (pos count : Nat) : Except String (List Char) :=
  if pos > s.length then .error "std::out_of_range"
  else .ok ((s.drop pos).take count)

/-- The erase-remove idiom `field.erase(remove(field.begin(), field.end(), '"'),
field.end())`. -/
def removeQuotes (field : List Char) : List Char :=
  field.filter (fun c => c != QUOTE)

/-- The characters skipped before the value: `" \":"`. -/
def SKIPPED : List Char := [' ', QUOTE, ':']

/-- The characters that end the value: `",}"`. -/
def TERMINATORS : List Char := [',', Char.ofNat 125]

/-- The search string `"\"" + key + "\""`. -/
def quoted (key : List Char) : List Char :=
  QUOTE :: key ++ [QUOTE]

/-- Function `extract_json_field` of `final_combined_code/final.cpp`.  The
subtraction `end - start` is a `size_t` subtraction. -/
def extract_json_field (json key : List Char) : Except String (List Char) :=
  let pos := find json (quoted key) 0
  if pos = NPOS then .ok []
  else
    let pos1 := find json [':'] pos
    let start := find_first_not_of json SKIPPED pos1
    let end1 := find_first_of json TERMINATORS start
    match substr json start ((end1 + SIZE_MOD - start) % SIZE_MOD) with
    | .error e => .error e
    | .ok field => .ok (removeQuotes field)

end FinalCombined

namespace CallPython

open FinalCombined in
/-- Function `extract_json_field` of
`cpp_calling_python_files/call_python_from_cpp_script.cpp`: as in `final.cpp`,
with a second `npos` test after the search for the colon. -/
def extract_json_field (json key : List Char) : Except String (List Char) :=
  let pos := find json (quoted key) 0
  if pos = NPOS then .ok []
  else
    let pos1 := find json [':'] pos
    if pos1 = NPOS then .ok []
    else
      let start := find_first_not_of json SKIPPED pos1
      let end1 := find_first_of json TERMINATORS start
      match substr json start ((end1 + SIZE_MOD - start) % SIZE_MOD) with
      | .error e => .error e
      | .ok field => .ok (removeQuotes field)

end CallPython

namespace FinalCombined

/-- The flags `frame_ready` and `processing_in_progress` of `final.cpp`. -/
structure Flags where
  frame_ready : Bool
  processing_in_progress : Bool
deriving DecidableEq, Repr

/-- Function `capture_frames`: `distance` is the result of `measure_distance()`
and `captured` that of `camera.captureToFile`. -/
def capture_frames (distance : ℚ) (captured : Bool) (st : Flags) : Flags :=
  if st.processing_in_progress then st
  else if distance < 20 then
    if captured then { frame_ready := true, processing_in_progress := true }
    else st
  else st

/-- The servo calls of `inference_service`. -/
inductive ServoCall
  | sweep_servo_1
  | sweep_servo_2
deriving DecidableEq, Repr

/-- Function `inference_service`: `output` is the result of `run_python_script`.
An exception of `extract_json_field` leaves the function (and ends the
program). -/
def inference_service (output : List Char) (st : Flags) :
    Except String (Flags × List ServoCall) :=
  if !st.frame_ready then .ok (st, [])
  else
    let st1 := { st with frame_ready := false }
    if !output.isEmpty then
      match extract_json_field output "class".toList with
      | .error e => .error e
      | .ok detected_class =>
        match extract_json_field output "confidence".toList with
        | .error e => .error e
        | .ok _ =>
          match extract_json_field output "inference_time_ms".toList with
          | .error e => .error e
          | .ok _ =>
            let calls :=
              if detected_class = "biodegradable".toList then [ServoCall.sweep_servo_1]
              else if detected_class = "nonbiodegradable".toList then [ServoCall.sweep_servo_2]
              else []
            .ok ({ st1 with processing_in_progress := false }, calls)
    else .ok (st1, [])

/-- The type `enum class SystemState`. -/
inductive SystemState
  | RUNNING
  | EMERGENCY
deriving DecidableEq, Repr

/-- The `float` constant `1.9f`: the binary32 value nearest to 1.9. -/
def THRESHOLD_HIGH : ℚ := 15938355 / 8388608

/-- The `float` constant `1.7f`: the binary32 value nearest to 1.7. -/
def THRESHOLD_LOW : ℚ := 14260634 / 8388608

/-- A finite value of the type `float` (binary32): an integer of magnitude below
`2 ^ 24` times a power of two with exponent from -149 to 104. -/
def IsFloat32 (x : ℚ) : Prop :=
  ∃ m e : ℤ, |m| < 2 ^ 24 ∧ -149 ≤ e ∧ e ≤ 104 ∧ x = m * (2 : ℚ) ^ e

/-- Method `MQ7Callback::hasADS1115Sample`: the new value of `systemState`. -/
def hasADS1115Sample (sample : ℚ) (systemState : SystemState) : SystemState :=
  if sample > THRESHOLD_HIGH ∧ systemState ≠ .EMERGENCY then .EMERGENCY
  else if sample < THRESHOLD_LOW ∧ systemState = .EMERGENCY then .RUNNING
  else systemState

end FinalCombined

namespace Demo

/-- The value of `LLONG_MAX`. -/
def LLONG_MAX : Int := 2 ^ 63 - 1

/-- The signal number `SIGINT`. -/
def SIGINT : Int := 2

/-- The timing counters of a demo program: `min_exec_time`, `max_exec_time`,
`total_exec_time`, `jitter` and `exec_count` (or their `emergency`
counterparts). -/
structure TimingStats where
  min_time : Int
  max_time : Int
  total_time : Int
  jitter : Int
  count : Int
deriving DecidableEq, Repr

/-- The initial values of the counters. -/
def TimingStats.initial : TimingStats :=
  { min_time := LLONG_MAX, max_time := 0, total_time := 0, jitter := 0, count := 0 }

/-- Integer division of C++: no value when the divisor is zero, else the
quotient truncated towards zero. -/
def cdiv (a b : Int) : Option Int :=
  if b = 0 then none else some (Int.tdiv a b)

/-- The five lines of a summary block: count, minimum, maximum, the average
`total / count`, and the jitter. -/
def TimingStats.summary (t : TimingStats) : Option (List Int) :=
  match cdiv t.total_time t.count with
  | none => none
  | some avg => some [t.count, t.min_time, t.max_time, avg, t.jitter]

/-- The summary block of `final_project_combined_ver_1/final.cpp`, whose average
is `exec_count[i] ? total_exec_time[i] / exec_count[i] : 0`. -/
def TimingStats.summaryGuarded (t : TimingStats) : Option (List Int) :=
  match (if t.count ≠ 0 then cdiv t.total_time t.count else some 0) with
  | none => none
  | some avg => some [t.count, t.min_time, t.max_time, avg, t.jitter]

end Demo

namespace RTES_FINAL.servo

/-- Function `signalHandler` of `RTES_FINAL/servo.cpp`: the numbers it prints. -/
def signalHandler (signal : Int) (exec : Demo.TimingStats) : Option (List Int) :=
  if signal = Demo.SIGINT then exec.summary else some []

/-- The summary printed by `main` of `RTES_FINAL/servo.cpp` once its loop has
ended. -/
def main (exec : Demo.TimingStats) : Option (List Int) :=
  exec.summary

end RTES_FINAL.servo

namespace RTES_FINAL.gas_thread

/-- Function `signalHandler` of `RTES_FINAL/gas_thread.cpp`: the numbers it
prints, the timing block and then the emergency block. -/
def signalHandler (signal : Int) (exec emergency : Demo.TimingStats) :
    Option (List Int) :=
  if signal = Demo.SIGINT then
    match exec.summary with
    | none => none
    | some a =>
      match emergency.summary with
      | none => none
      | some b => some (a ++ b)
  else some []

end RTES_FINAL.gas_thread

namespace Ver2

/-- Function `signalHandler` of `final_combined_ver_2.cpp`: the numbers it
prints, the control block and then the gas block. -/
def signalHandler (_signum : Int) (exec emergency : Demo.TimingStats) : Option (List Int) :=
  match exec.summary with
  | none => none
  | some a =>
    match emergency.summary with
    | none => none
    | some b => some (a ++ b)

end Ver2

namespace Ver1

/-- Function `signalHandler` of `final_project_combined_ver_1/final.cpp`: the
numbers it prints, one block per thread. -/
def signalHandler (_signum : Int) (stats : List Demo.TimingStats) :
    Option (List (List Int)) :=
  stats.mapM Demo.TimingStats.summaryGuarded

end Ver1

/-! ## Theorems -/

namespace RTES_FINAL

theorem releaseDue_count (tick : Nat) :
    ∀ (services : List Service) (k : Nat), (∀ s ∈ services, s.period ≠ 0) →
      ∃ calls, releaseDue tick services k = some calls ∧
        ∀ j, calls.count j =
          if k ≤ j ∧ ∃ s, services[j - k]? = some s ∧ tick % s.period = 0 then 1 else 0 := by
  intro services
  induction services with
  | nil => intro k _; exact ⟨[], rfl, by simp⟩
  | cons s rest ih =>
    intro k hv
    have hs : s.period ≠ 0 := hv s (List.mem_cons_self _ _)
    obtain ⟨calls, hc, hcount⟩ := ih (k + 1) (fun x hx => hv x (List.mem_cons_of_mem _ hx))
    refine ⟨if tick % s.period = 0 then k :: calls else calls, ?_, ?_⟩
    · simp [releaseDue, Service.getPeriod, hs, hc]
    · intro j
      have hk : calls.count k = 0 := by
        rw [hcount k]; simp
      by_cases hjk : j = k
      · subst hjk
        by_cases hd : tick % s.period = 0
        · simp [hd, hk]
        · simp [hd, hk]
      · have hcj := hcount j
        by_cases hlt : k ≤ j
        · have h1 : k + 1 ≤ j := by omega
          have h2 : j - k = (j - (k + 1)) + 1 := by omega
          by_cases hd : tick % s.period = 0
          · simp [hd, List.count_cons, hjk, hcj, h1, hlt, h2, Ne.symm hjk]
          · simp [hd, hcj, h1, hlt, h2]
        · have h1 : ¬ k + 1 ≤ j := by omega
          by_cases hd : tick % s.period = 0
          · simp [hd, List.count_cons, hjk, hcj, h1, hlt, Ne.symm hjk]
          · simp [hd, hcj, h1, hlt]

theorem runTicks_count (services : List Service) (hv : ∀ s ∈ services, s.period ≠ 0) :
    ∀ D, D < UINT64_MOD →
      ∃ calls, runTicks services D = some (D, calls) ∧
        ∀ i s, services[i]? = some s → calls.count i = D / s.period := by
  intro D
  induction D with
  | zero => intro _; exact ⟨[], rfl, by simp⟩
  | succ D ih =>
    intro hD
    obtain ⟨calls, hrun, hcount⟩ := ih (by omega)
    obtain ⟨more, hmore, hmc⟩ := releaseDue_count (D + 1) services 0 hv
    refine ⟨calls ++ more, ?_, ?_⟩
    · simp [runTicks, hrun, tickIteration, Nat.mod_eq_of_lt hD, hmore]
    · intro i s hi
      have hs : s.period ≠ 0 := hv s (List.getElem?_mem hi)
      rw [List.count_append, hcount i s hi, hmc i, Nat.succ_div]
      simp [hi, Nat.dvd_iff_mod_eq_zero]

/-- C1: one iteration of the tick loop of the shared-tick sequencer advances the
64-bit tick counter by one (exactly `tick + 1` below the top of its range) and
then calls `release()` at most once per service, on exactly those registered
services whose period divides the new tick (`tick % period == 0`). -/
theorem tickIteration_releases_exactly_due (tick : Nat) (services : List Service)
    (hv : ∀ s ∈ services, s.period ≠ 0) :
    ∃ calls, tickIteration tick services = some ((tick + 1) % UINT64_MOD, calls) ∧
      (tick + 1 < UINT64_MOD → (tick + 1) % UINT64_MOD = tick + 1) ∧
      calls.Nodup ∧
      ∀ i, i ∈ calls ↔
        ∃ s, services[i]? = some s ∧ ((tick + 1) % UINT64_MOD) % s.getPeriod = 0 := by
  obtain ⟨calls, hc, hcount⟩ := releaseDue_count ((tick + 1) % UINT64_MOD) services 0 hv
  refine ⟨calls, by simp [tickIteration, hc], fun h => Nat.mod_eq_of_lt h, ?_, ?_⟩
  · rw [List.nodup_iff_count_le_one]
    intro i
    rw [hcount i]
    split <;> simp
  · intro i
    rw [← List.count_pos_iff, hcount i]
    by_cases h : ∃ s, services[i]? = some s ∧ (tick + 1) % UINT64_MOD % s.period = 0
    · simp [Service.getPeriod, h]
    · simp [Service.getPeriod, h]

/-- Instance of C1: three services of periods 100, 300 and 7 at tick 299. -/
theorem tickIteration_releases_exactly_due_witness :
    ∃ calls, tickIteration 299 threeServices = some ((299 + 1) % UINT64_MOD, calls) ∧
      (299 + 1 < UINT64_MOD → (299 + 1) % UINT64_MOD = 299 + 1) ∧
      calls.Nodup ∧
      ∀ i, i ∈ calls ↔
        ∃ s, threeServices[i]? = some s ∧ ((299 + 1) % UINT64_MOD) % s.getPeriod = 0 :=
  tickIteration_releases_exactly_due 299 threeServices (by decide)

/-- C2: when every registered service has a period of at least 1 and `D` tick
iterations have completed (`D` within the range of the 64-bit tick counter), a
service of period `P` has received `D / P` release calls, which is within one of
`floor(D / P)`; the number is the same in any other set of registered services
holding a service of period `P`. -/
theorem release_count_eq_div (services others : List Service) (i j P D : Nat)
    (hD : D < UINT64_MOD)
    (hv : ∀ s ∈ services, 1 ≤ s.period) (hw : ∀ s ∈ others, 1 ≤ s.period)
    (hi : (services[i]?).map Service.getPeriod = some P)
    (hj : (others[j]?).map Service.getPeriod = some P) :
    ∃ n, releaseCount services D i = some n ∧ releaseCount others D j = some n ∧
      n ≤ D / P + 1 ∧ D / P ≤ n + 1 ∧ n = D / P := by
  obtain ⟨c1, h1, k1⟩ := runTicks_count services (fun s hs => by have := hv s hs; omega) D hD
  obtain ⟨c2, h2, k2⟩ := runTicks_count others (fun s hs => by have := hw s hs; omega) D hD
  rcases hsi : services[i]? with _ | s
  · simp [hsi] at hi
  rcases hsj : others[j]? with _ | t
  · simp [hsj] at hj
  simp [hsi, Service.getPeriod] at hi
  simp [hsj, Service.getPeriod] at hj
  refine ⟨D / P, ?_, ?_, by omega, by omega, rfl⟩
  · simp [releaseCount, h1, k1 i s hsi, hi]
  · simp [releaseCount, h2, k2 j t hsj, hj]

/-- Instance of C2: periods 100 and 300 over 900 ticks receive 9 and 3 releases,
and the service of period 300 receives 3 when it is registered alone. -/
theorem release_count_eq_div_witness :
    releaseCount twoServices 900 0 = some 9 ∧
      releaseCount twoServices 900 1 = some 3 ∧
      releaseCount [Service.init 1 51 300 newStat 2] 900 0 = some 3 := by
  obtain ⟨n, h1, -, -, -, hn⟩ := release_count_eq_div
    twoServices [Service.init 0 50 100 newStat 1] 0 0 100 900
    (by decide) (by decide) (by decide) (by decide) (by decide)
  obtain ⟨m, g1, g2, -, -, hm⟩ := release_count_eq_div
    twoServices [Service.init 1 51 300 newStat 2] 1 0 300 900
    (by decide) (by decide) (by decide) (by decide) (by decide)
  subst hn; subst hm
  exact ⟨h1, g1, g2⟩

theorem record_snoc (R : Rounding) (samples : List (Nat × Nat)) (x : Nat × Nat) :
    Service_Statistic.record R (samples ++ [x]) =
      (Service_Statistic.record R samples).update_statistic R x.1 x.2 := by
  simp [Service_Statistic.record, List.foldl_append]

theorem execSum_snoc (samples : List (Nat × Nat)) (x : Nat × Nat) :
    execSum (samples ++ [x]) = execSum samples + x.1 := by
  simp [execSum]

theorem record_invariant (R : Rounding) (samples : List (Nat × Nat)) :
    execSum samples ≤ 2 ^ 53 →
      (Service_Statistic.record R samples).total_execution_time = (execSum samples : ℚ) ∧
      (Service_Statistic.record R samples).num_iteration = samples.length % UINT32_MOD ∧
      samples.length * (Service_Statistic.record R samples).min_execution_time
        ≤ execSum samples ∧
      execSum samples
        ≤ samples.length * (Service_Statistic.record R samples).max_execution_time ∧
      (samples ≠ [] →
        (Service_Statistic.record R samples).min_execution_time ≤ execSum samples) ∧
      (Service_Statistic.record R samples).max_execution_time ≤ execSum samples := by
  induction samples using List.reverseRecOn with
  | nil =>
    intro _
    simp [Service_Statistic.record, Service_Statistic.init, execSum]
  | append_singleton samples x ih =>
    intro hsum
    rw [execSum_snoc] at hsum
    obtain ⟨h1, h2, h3, h4, h5, h6⟩ := ih (by omega)
    rw [record_snoc, execSum_snoc]
    set st := Service_Statistic.record R samples with hst
    have hfl : R.fl ((execSum samples : ℚ) + (x.1 : ℚ)) = ((execSum samples + x.1 : ℕ) : ℚ) := by
      have := R.fl_nat (execSum samples + x.1) hsum
      rw [← this]; push_cast; rfl
    refine ⟨?_, ?_, ?_, ?_, ?_, ?_⟩
    · simp only [Service_Statistic.update_statistic, h1]
      exact hfl
    · simp only [Service_Statistic.update_statistic, h2, List.length_append,
        List.length_singleton]
      simp only [UINT32_MOD]
      omega
    · simp only [Service_Statistic.update_statistic, List.length_append, List.length_singleton]
      split
      · rename_i hlt
        have : samples.length * x.1 ≤ samples.length * st.min_execution_time :=
          Nat.mul_le_mul_left _ (Nat.le_of_lt hlt)
        nlinarith
      · rename_i hge
        have : st.min_execution_time ≤ x.1 := Nat.le_of_not_lt hge
        nlinarith
    · simp only [Service_Statistic.update_statistic, List.length_append, List.length_singleton]
      split
      · rename_i hgt
        have : samples.length * st.max_execution_time ≤ samples.length * x.1 :=
          Nat.mul_le_mul_left _ (Nat.le_of_lt hgt)
        nlinarith
      · rename_i hle
        have : x.1 ≤ st.max_execution_time := Nat.le_of_not_lt hle
        nlinarith
    · intro _
      simp only [Service_Statistic.update_statistic]
      split
      · omega
      · rename_i hge
        have : st.min_execution_time ≤ x.1 := Nat.le_of_not_lt hge
        omega
    · simp only [Service_Statistic.update_statistic]
      split <;> omega

theorem record_replicate (e s : Nat) (he : e ≤ 0xFFFFFFFF) (hs : s ≤ 0xFFFFFFFF) :
    ∀ n, 1 ≤ n →
      Service_Statistic.record Rounding.exactArith (List.replicate n (e, s)) =
        { min_execution_time := e, max_execution_time := e,
          min_start_time := s, max_start_time := s,
          num_iteration := n % UINT32_MOD, total_execution_time := (n : ℚ) * e } := by
  intro n hn
  induction n, hn using Nat.le_induction with
  | base =>
    simp only [List.replicate, Service_Statistic.record, List.foldl,
      Service_Statistic.update_statistic, Service_Statistic.init, Rounding.exactArith]
    have h1 : (if e < 0xFFFFFFFF then e else 0xFFFFFFFF) = e := by split <;> omega
    have h2 : (if s < 0xFFFFFFFF then s else 0xFFFFFFFF) = s := by split <;> omega
    have h3 : (if e > 0 then e else 0) = e := by split <;> omega
    have h4 : (if s > 0 then s else 0) = s := by split <;> omega
    rw [h1, h2, h3, h4]
    simp [UINT32_MOD]
  | succ n hn ih =>
    rw [List.replicate_succ', record_snoc, ih]
    simp only [Service_Statistic.update_statistic, Rounding.exactArith, lt_self_iff_false,
      if_false, gt_iff_lt]
    congr 1
    · simp only [UINT32_MOD]; omega
    · push_cast; ring

/-- C10 (as stated, refuted): after `2 ^ 32 + 1` calls of
`update_statistic(1, 0)` the 32-bit iteration counter has wrapped round to 1
while the total is `2 ^ 32 + 1`, so `get_statistic` reports the average
4294967297 above the maximum 1. -/
theorem average_exceeds_max_after_counter_wrap :
    ((Service_Statistic.record Rounding.exactArith
        (List.replicate 4294967297 (1, 0))).get_statistic
          Rounding.exactArith).max_exec_time = 1 ∧
    ((Service_Statistic.record Rounding.exactArith
        (List.replicate 4294967297 (1, 0))).get_statistic
          Rounding.exactArith).avg_exec_time = 4294967297 ∧
    ¬ (((Service_Statistic.record Rounding.exactArith
        (List.replicate 4294967297 (1, 0))).get_statistic
          Rounding.exactArith).avg_exec_time ≤
      ((Service_Statistic.record Rounding.exactArith
        (List.replicate 4294967297 (1, 0))).get_statistic
          Rounding.exactArith).max_exec_time) := by
  rw [record_replicate 1 0 (by norm_num) (by norm_num) 4294967297 (by norm_num)]
  norm_num [Service_Statistic.get_statistic, UINT32_MOD, Rounding.exactArith]

/-- C10 (amended): after `N` calls of `update_statistic` on a fresh
`Service_Statistic`, with `1 ≤ N < 2 ^ 32` (the iteration counter has not
wrapped) and the sum of the recorded execution times at most `2 ^ 53` (the
`double` total is exact), `get_statistic` returns
`min_exec_time ≤ avg_exec_time ≤ max_exec_time`, where `avg_exec_time` is the
sum of the `N` execution times divided by `N`, rounded to a `double`. -/
theorem average_between_min_and_max (R : Rounding) (samples : List (Nat × Nat))
    (hN : 1 ≤ samples.length) (hlen : samples.length < UINT32_MOD)
    (hsum : execSum samples ≤ 2 ^ 53) :
    (((Service_Statistic.record R samples).get_statistic R).min_exec_time : ℚ) ≤
        ((Service_Statistic.record R samples).get_statistic R).avg_exec_time ∧
      ((Service_Statistic.record R samples).get_statistic R).avg_exec_time ≤
        (((Service_Statistic.record R samples).get_statistic R).max_exec_time : ℚ) ∧
      ((Service_Statistic.record R samples).get_statistic R).avg_exec_time =
        R.fl ((execSum samples : ℚ) / (samples.length : ℚ)) := by
  obtain ⟨h1, h2, h3, h4, h5, h6⟩ := record_invariant R samples hsum
  have hne : samples ≠ [] := by
    intro h; rw [h] at hN; simp at hN
  have hnum : (Service_Statistic.record R samples).num_iteration = samples.length := by
    rw [h2]; exact Nat.mod_eq_of_lt hlen
  have hlen0 : samples.length ≠ 0 := by omega
  have hpos : (0 : ℚ) < (samples.length : ℚ) := by exact_mod_cast hN
  simp only [Service_Statistic.get_statistic, hnum, h1, ne_eq, hlen0, not_false_eq_true,
    if_true, and_true]
  refine ⟨?_, ?_⟩
  · have hmin := R.fl_nat (Service_Statistic.record R samples).min_execution_time
      (le_trans (h5 hne) hsum)
    rw [← hmin]
    apply R.mono
    rw [le_div_iff₀ hpos]
    exact_mod_cast (by rw [Nat.mul_comm]; exact h3 :
      (Service_Statistic.record R samples).min_execution_time * samples.length
        ≤ execSum samples)
  · have hmax := R.fl_nat (Service_Statistic.record R samples).max_execution_time
      (le_trans h6 hsum)
    rw [← hmax]
    apply R.mono
    rw [div_le_iff₀ hpos]
    exact_mod_cast (by rw [Nat.mul_comm]; exact h4 :
      execSum samples
        ≤ (Service_Statistic.record R samples).max_execution_time * samples.length)

/-- Instance of C10 (amended): three samples with execution times 120, 80 and
100 microseconds. -/
theorem average_between_min_and_max_witness :
    (((Service_Statistic.record Rounding.exactArith
        [(120, 5), (80, 20005), (100, 40010)]).get_statistic
          Rounding.exactArith).min_exec_time : ℚ) ≤
        ((Service_Statistic.record Rounding.exactArith
          [(120, 5), (80, 20005), (100, 40010)]).get_statistic
            Rounding.exactArith).avg_exec_time ∧
      ((Service_Statistic.record Rounding.exactArith
          [(120, 5), (80, 20005), (100, 40010)]).get_statistic
            Rounding.exactArith).avg_exec_time ≤
        (((Service_Statistic.record Rounding.exactArith
          [(120, 5), (80, 20005), (100, 40010)]).get_statistic
            Rounding.exactArith).max_exec_time : ℚ) ∧
      ((Service_Statistic.record Rounding.exactArith
          [(120, 5), (80, 20005), (100, 40010)]).get_statistic
            Rounding.exactArith).avg_exec_time =
        Rounding.exactArith.fl
          ((execSum [(120, 5), (80, 20005), (100, 40010)] : ℚ) /
            (([(120, 5), (80, 20005), (100, 40010)] : List (Nat × Nat)).length : ℚ)) :=
  average_between_min_and_max Rounding.exactArith [(120, 5), (80, 20005), (100, 40010)]
    (by decide) (by decide) (by decide)

end RTES_FINAL

namespace Ver3

theorem wrapInt32_range (x : Int) : -2147483648 ≤ wrapInt32 x ∧ wrapInt32 x ≤ INT_MAX := by
  unfold wrapInt32 INT_MAX
  omega

theorem wrapInt32_of_range (x : Int) (h1 : -2147483648 ≤ x) (h2 : x ≤ INT_MAX) :
    wrapInt32 x = x := by
  unfold wrapInt32
  unfold INT_MAX at h2
  omega

theorem wrapInt32_add (x y : Int) : wrapInt32 (wrapInt32 x + y) = wrapInt32 (x + y) := by
  unfold wrapInt32
  omega

theorem Service.act_isRunning (R : RTES_FINAL.Rounding) (s : Service) (a : Action) :
    (s.act R a).isRunning = s.isRunning := by
  cases a with
  | release => rfl
  | thread now =>
    simp only [Service.act, Service.provideServiceStep]
    split <;> (repeat' split) <;> rfl

theorem Service.act_not_exited (R : RTES_FINAL.Rounding) (s : Service) (a : Action)
    (hr : s.isRunning = true) (hx : s.thread ≠ .exited) : (s.act R a).thread ≠ .exited := by
  cases a with
  | release => exact hx
  | thread now =>
    simp only [Service.act, Service.provideServiceStep]
    split <;> (repeat' split) <;> simp_all

theorem Service.act_total (R : RTES_FINAL.Rounding) (s : Service) (a : Action)
    (hr : s.isRunning = true) (hx : s.thread ≠ .exited) :
    wrapInt32 ((s.act R a).executionCount + (s.act R a).credits) =
      wrapInt32 (s.executionCount + s.credits + (if a = .release then 1 else 0)) := by
  cases a with
  | release =>
    simp only [Service.act, Service.release, Service.credits, if_true]
    congr 1
    push_cast
    ring
  | thread now =>
    cases hth : s.thread with
    | exited => exact absurd hth hx
    | loopHead =>
      simp [Service.act, Service.provideServiceStep, hth, hr, Service.credits]
    | semWait =>
      by_cases hz : s.releaseSem = 0
      · simp [Service.act, Service.provideServiceStep, hth, hz, Service.credits]
      · simp only [Service.act, Service.provideServiceStep, hth, hz, if_false,
          Service.credits, reduceCtorEq]
        congr 1
        have : 1 ≤ s.releaseSem := Nat.one_le_iff_ne_zero.mpr hz
        push_cast [Nat.cast_sub this]
        ring
    | woken =>
      by_cases hc : s.executionCount > 0
      · simp [Service.act, Service.provideServiceStep, hth, hr, hc, Service.credits]
      · simp [Service.act, Service.provideServiceStep, hth, hr, hc, Service.credits]
    | inTask start =>
      simp only [Service.act, Service.provideServiceStep, hth, Service.credits, reduceCtorEq,
        if_false, Nat.add_zero, add_zero]
      rw [wrapInt32_add]
      congr 1
      push_cast
      ring

theorem Service.act_count_range (R : RTES_FINAL.Rounding) (s : Service) (a : Action)
    (h : -2147483648 ≤ s.executionCount ∧ s.executionCount ≤ INT_MAX) :
    -2147483648 ≤ (s.act R a).executionCount ∧ (s.act R a).executionCount ≤ INT_MAX := by
  cases a with
  | release => exact h
  | thread now =>
    cases hth : s.thread with
    | inTask start =>
      simp only [Service.act, Service.provideServiceStep, hth]
      exact wrapInt32_range _
    | loopHead =>
      simp only [Service.act, Service.provideServiceStep, hth]
      split <;> exact h
    | semWait =>
      simp only [Service.act, Service.provideServiceStep, hth]
      split <;> exact h
    | woken =>
      simp only [Service.act, Service.provideServiceStep, hth]
      split
      · split <;> exact h
      · exact h
    | exited =>
      simp only [Service.act, Service.provideServiceStep, hth]
      exact h

theorem Service.run_invariant (R : RTES_FINAL.Rounding) (schedule : List Action) :
    ∀ s : Service, s.isRunning = true → s.thread ≠ .exited →
      (-2147483648 ≤ s.executionCount ∧ s.executionCount ≤ INT_MAX) →
      (s.run R schedule).isRunning = true ∧ (s.run R schedule).thread ≠ .exited ∧
      (-2147483648 ≤ (s.run R schedule).executionCount ∧
        (s.run R schedule).executionCount ≤ INT_MAX) ∧
      wrapInt32 ((s.run R schedule).executionCount + (s.run R schedule).credits) =
        wrapInt32 (s.executionCount + s.credits + releasesIn schedule) := by
  induction schedule with
  | nil => intro s hr hx hc; simp [Service.run, releasesIn, hr, hx, hc]
  | cons a rest ih =>
    intro s hr hx hc
    have h1 : (s.act R a).isRunning = true := by rw [Service.act_isRunning]; exact hr
    have h2 := Service.act_not_exited R s a hr hx
    have h4 := Service.act_count_range R s a hc
    obtain ⟨g1, g2, g4, g3⟩ := ih (s.act R a) h1 h2 h4
    have h3 := Service.act_total R s a hr hx
    have hrun : s.run R (a :: rest) = (s.act R a).run R rest := rfl
    rw [hrun]
    refine ⟨g1, g2, g4, ?_⟩
    rw [g3, ← wrapInt32_add, h3, wrapInt32_add]
    congr 1
    by_cases ha : a = .release
    · simp [releasesIn, ha]; ring
    · have : ¬ (Action.release = a) := fun h => ha h.symm
      simp [releasesIn, ha, List.count_cons, this]

theorem Service.provideServiceStep_blocked (R : RTES_FINAL.Rounding) (s : Service) (now : ℚ)
    (hb : s.blocked = true) : s.provideServiceStep R now = s := by
  simp only [Service.blocked, Bool.and_eq_true, decide_eq_true_eq] at hb
  simp [Service.provideServiceStep, hb.1, hb.2]

theorem Service.runThread_blocked (R : RTES_FINAL.Rounding) (clock : List ℚ) (s : Service)
    (hb : s.blocked = true) : s.runThread R clock = s := by
  induction clock with
  | nil => rfl
  | cons now rest ih =>
    have h : s.runThread R (now :: rest) = (s.provideServiceStep R now).runThread R rest := rfl
    rw [h, Service.provideServiceStep_blocked R s now hb, ih]

theorem Service.provideServiceStep_progress (R : RTES_FINAL.Rounding) (s : Service) (now : ℚ)
    (hr : s.isRunning = true) (hx : s.thread ≠ .exited) (hb : s.blocked = false) :
    (s.provideServiceStep R now).stepsLeft + 1 ≤ s.stepsLeft := by
  simp only [Service.blocked, Bool.and_eq_false_iff, decide_eq_false_iff_not] at hb
  simp only [Service.provideServiceStep]
  split <;> (repeat' split) <;> first
    | (simp_all [Service.stepsLeft]; done)
    | (simp_all [Service.stepsLeft]; omega)

theorem Service.runThread_reaches_blocked (R : RTES_FINAL.Rounding) (clock : List ℚ) :
    ∀ s : Service, s.isRunning = true → s.thread ≠ .exited →
      (-2147483648 ≤ s.executionCount ∧ s.executionCount ≤ INT_MAX) →
      s.stepsLeft ≤ clock.length →
      (s.runThread R clock).blocked = true ∧
      (-2147483648 ≤ (s.runThread R clock).executionCount ∧
        (s.runThread R clock).executionCount ≤ INT_MAX) ∧
      wrapInt32 ((s.runThread R clock).executionCount + (s.runThread R clock).credits) =
        wrapInt32 (s.executionCount + s.credits) := by
  induction clock with
  | nil =>
    intro s _ hx hc hlen
    simp only [List.length_nil, Nat.le_zero] at hlen
    refine ⟨?_, hc, rfl⟩
    show s.blocked = true
    unfold Service.stepsLeft at hlen
    unfold Service.blocked
    cases hth : s.thread <;> simp_all
  | cons now rest ih =>
    intro s hr hx hc hlen
    have h : s.runThread R (now :: rest) = (s.provideServiceStep R now).runThread R rest := rfl
    rw [h]
    cases hb : s.blocked with
    | true =>
      rw [Service.provideServiceStep_blocked R s now hb, Service.runThread_blocked R rest s hb]
      exact ⟨hb, hc, rfl⟩
    | false =>
      have hp := Service.provideServiceStep_progress R s now hr hx hb
      have h1 : (s.provideServiceStep R now).isRunning = true := by
        rw [← hr]; exact Service.act_isRunning R s (.thread now)
      have h2 : (s.provideServiceStep R now).thread ≠ .exited :=
        Service.act_not_exited R s (.thread now) hr hx
      have h3 := Service.act_total R s (.thread now) hr hx
      have h4 := Service.act_count_range R s (.thread now) hc
      simp only [Service.act, reduceCtorEq, if_false, add_zero] at h3 h4
      simp only [List.length_cons] at hlen
      obtain ⟨g1, g4, g2⟩ := ih (s.provideServiceStep R now) h1 h2 h4 (by omega)
      exact ⟨g1, g4, by rw [g2, h3]⟩

theorem Service.blocked_credits (s : Service) (hb : s.blocked = true) : s.credits = 0 := by
  simp only [Service.blocked, Bool.and_eq_true, decide_eq_true_eq] at hb
  simp [Service.credits, hb.1, hb.2]

/-- The execution count once the thread has used up every release credit: the
count at the start plus the credits outstanding at the start plus the releases
of the schedule, as an `int`. -/
theorem Service.count_when_blocked (R : RTES_FINAL.Rounding) (s : Service)
    (schedule : List Action) (hr : s.isRunning = true) (hx : s.thread ≠ .exited)
    (hc : -2147483648 ≤ s.executionCount ∧ s.executionCount ≤ INT_MAX) :
    ∃ n, ∀ clock : List ℚ, n ≤ clock.length →
      ((s.run R schedule).runThread R clock).blocked = true ∧
      ((s.run R schedule).runThread R clock).executionCount =
        wrapInt32 (s.executionCount + s.credits + releasesIn schedule) := by
  obtain ⟨h1, h2, h4, h3⟩ := Service.run_invariant R schedule s hr hx hc
  refine ⟨(s.run R schedule).stepsLeft, fun clock hlen => ?_⟩
  obtain ⟨g1, g4, g2⟩ :=
    Service.runThread_reaches_blocked R clock (s.run R schedule) h1 h2 h4 hlen
  refine ⟨g1, ?_⟩
  rw [Service.blocked_credits _ g1] at g2
  simp only [Nat.cast_zero, add_zero] at g2
  rw [wrapInt32_of_range _ g4.1 g4.2] at g2
  rw [g2, h3]

/-- C3 (as stated, refuted): the thread of "Gas Monitor" is busy with its first
execution when `release()` is called `2147483647` times, which the semaphore can
hold.  The thread then executes the task once per credit, and when it has used
them up the `int` execution count does not stand at `2147483648`, the number of
executions, but at `-2147483648`. -/
theorem execution_count_overflows :
    gasMonitorInTask.executionCount = 0 ∧ gasMonitorInTask.credits = 1 ∧
      gasMonitorInTask.releaseSem = 0 ∧
      ∀ R : RTES_FINAL.Rounding, ∃ n, ∀ clock : List ℚ, n ≤ clock.length →
        ((gasMonitorInTask.run R (List.replicate 2147483647 .release)).runThread R
          clock).blocked = true ∧
        ((gasMonitorInTask.run R (List.replicate 2147483647 .release)).runThread R
          clock).executionCount = -2147483648 := by
  have h0 : gasMonitorInTask.executionCount = 0 := by decide
  have h1 : gasMonitorInTask.credits = 1 := by decide
  refine ⟨h0, h1, by decide, fun R => ?_⟩
  obtain ⟨n, hn⟩ := Service.count_when_blocked R gasMonitorInTask
    (List.replicate 2147483647 .release) (by decide) (by decide)
    (by rw [h0]; unfold INT_MAX; omega)
  refine ⟨n, fun clock hlen => ?_⟩
  obtain ⟨g1, g2⟩ := hn clock hlen
  refine ⟨g1, ?_⟩
  rw [g2, h0, h1]
  unfold releasesIn
  rw [List.count_replicate_self]
  unfold wrapInt32
  omega

/-- C3 (amended): releases of the semaphore-based service are additive.  For a
running service, whatever the position of its thread and however `k` calls of
`release()` interleave with the steps of the thread, the thread then runs until
it blocks on the empty semaphore, and by then it has executed the task once for
every release credit: the execution count has risen by exactly `k` plus the
credits that were outstanding at the start (none for an idle service), as long
as that number of executions does not exceed `INT_MAX`, which is also the
greatest value of the semaphore. -/
theorem releases_each_executed_once (R : RTES_FINAL.Rounding) (s : Service)
    (schedule : List Action) (hr : s.isRunning = true) (hx : s.thread ≠ .exited)
    (hc : 0 ≤ s.executionCount)
    (hb : s.executionCount + s.credits + releasesIn schedule ≤ INT_MAX) :
    ∃ n, ∀ clock : List ℚ, n ≤ clock.length →
      ((s.run R schedule).runThread R clock).blocked = true ∧
      ((s.run R schedule).runThread R clock).executionCount =
        s.executionCount + s.credits + releasesIn schedule := by
  have hrange : -2147483648 ≤ s.executionCount ∧ s.executionCount ≤ INT_MAX := by
    refine ⟨by omega, ?_⟩
    have : (0 : Int) ≤ (s.credits : Int) + releasesIn schedule := by positivity
    omega
  obtain ⟨n, hn⟩ := Service.count_when_blocked R s schedule hr hx hrange
  refine ⟨n, fun clock hlen => ?_⟩
  obtain ⟨g1, g2⟩ := hn clock hlen
  refine ⟨g1, ?_⟩
  rw [g2]
  apply wrapInt32_of_range _ _ hb
  have : (0 : Int) ≤ (s.credits : Int) + releasesIn schedule := by positivity
  omega

/-- Instance of C3: the service "Inference" released three times, the third time
while its thread is inside the task. -/
theorem releases_each_executed_once_witness :
    (0 : Int) ≤ (Service.init "Inference" 2 99 300).executionCount ∧
    ∃ n, ∀ clock : List ℚ, n ≤ clock.length →
      (((Service.init "Inference" 2 99 300).run RTES_FINAL.Rounding.exactArith
          [.thread 0, .release, .release, .thread 1, .thread 300, .release]).runThread
            RTES_FINAL.Rounding.exactArith clock).blocked = true ∧
      (((Service.init "Inference" 2 99 300).run RTES_FINAL.Rounding.exactArith
          [.thread 0, .release, .release, .thread 1, .thread 300, .release]).runThread
            RTES_FINAL.Rounding.exactArith clock).executionCount =
        (Service.init "Inference" 2 99 300).executionCount +
          (Service.init "Inference" 2 99 300).credits +
          releasesIn [.thread 0, .release, .release, .thread 1, .thread 300, .release] :=
  ⟨by decide,
    releases_each_executed_once RTES_FINAL.Rounding.exactArith
      (Service.init "Inference" 2 99 300)
      [.thread 0, .release, .release, .thread 1, .thread 300, .release]
      (by decide) (by decide) (by decide) (by decide)⟩

/-- C5 (as stated, refuted): for the service "Gas Monitor" after one execution,
a second `stop()` directly after the first is not a no-op: it posts the release
semaphore again, raising its value, and emits a statistics report again. -/
theorem second_stop_is_not_noop :
    gasMonitorIdle.stop.1.stop ≠ (gasMonitorIdle.stop.1, []) ∧
      Event.semPost ∈ gasMonitorIdle.stop.1.stop.2 ∧
      (∃ r, gasMonitorIdle.stop.1.stop.2 =
        [.semPost, .requestStop, .semDestroy, .report r]) ∧
      gasMonitorIdle.stop.1.stop.1.releaseSem = gasMonitorIdle.stop.1.releaseSem + 1 := by
  refine ⟨?_, by decide, ⟨_, rfl⟩, by decide⟩
  intro h
  have hlen := congrArg (fun p => p.2.length) h
  revert hlen
  decide

/-- C5 (amended): a second `stop()` directly after a first one makes the same
calls as the first (`sem_post`, `request_stop`, `sem_destroy`, and the same
statistics report when the execution count is not 0, none when it is 0); it
leaves the running flag false and every statistic unchanged, and the only state
it changes is the value of the semaphore, which it raises by one. -/
theorem second_stop_repeats_first (s : Service) :
    s.stop.1.stop.2 = s.stop.2 ∧
      s.stop.2 = [.semPost, .requestStop, .semDestroy] ++ s.logStatistics ∧
      s.stop.1.stop.1 = { s.stop.1 with releaseSem := s.stop.1.releaseSem + 1 } ∧
      s.stop.1.isRunning = false := by
  refine ⟨?_, ?_, rfl, rfl⟩ <;>
    simp only [Service.stop, Service.logStatistics]

/-- C6 (the code at the failing input): `stop()` is called on "Gas Monitor"
while its thread is inside the first execution of the task.  The calls of
`stop()` are `sem_post`, `request_stop`, `sem_destroy` and no report (the
execution count is still 0); `stop()` has returned with the thread still inside
the task, and the execution that the thread then completes is counted after the
report was due. -/
theorem stop_returns_before_thread_finishes :
    gasMonitorInTask.thread = .inTask 100 ∧
      gasMonitorInTask.stop.2 = [.semPost, .requestStop, .semDestroy] ∧
      gasMonitorInTask.stop.1.thread = .inTask 100 ∧
      gasMonitorInTask.stop.1.executionCount = 0 ∧
      ∀ R : RTES_FINAL.Rounding,
        (gasMonitorInTask.stop.1.provideServiceStep R 105).executionCount = 1 := by
  refine ⟨by decide, by decide, by decide, by decide, fun R => ?_⟩
  have h : gasMonitorInTask.stop.1.thread = .inTask 100 := by decide
  have hc : gasMonitorInTask.stop.1.executionCount = 0 := by decide
  simp only [Service.provideServiceStep, h, hc]
  decide

end Ver3
namespace Ver3

end Ver3

namespace Ver1

end Ver1

/-- C7 (as stated, refuted): constructing the service "Gas Monitor" with period 0
succeeds in ver_3 and in RTES_FINAL, a thread is started for it, and
`addService` with period 0 appends it to an empty sequencer. -/
theorem zero_period_service_is_constructed :
    (Ver3.Service.construct "Gas Monitor" 1 99 0 =
        .ok (Ver3.Service.init "Gas Monitor" 1 99 0) ∧
      (Ver3.Service.init "Gas Monitor" 1 99 0).thread = .loopHead ∧
      Ver3.Sequencer.addService { services := [], timerIds := [] } "Gas Monitor" 1 99 0 =
        .ok { services := [Ver3.Service.init "Gas Monitor" 1 99 0], timerIds := [] }) ∧
    (RTES_FINAL.Service.construct 1 99 0 RTES_FINAL.newStat 1 = .ok (RTES_FINAL.Service.init 1 99 0 RTES_FINAL.newStat 1) ∧
      (RTES_FINAL.Service.init 1 99 0 RTES_FINAL.newStat 1).thread = .spawned ∧
      RTES_FINAL.Sequencer.addService RTES_FINAL.Sequencer.empty 1 99 0 RTES_FINAL.newStat 1 =
        .ok { RTES_FINAL.Sequencer.empty with
              services := [RTES_FINAL.Service.init 1 99 0 RTES_FINAL.newStat 1] }) :=
  ⟨⟨rfl, rfl, rfl⟩, rfl, rfl, rfl⟩

/-- C7 (amended): constructing a service never fails, whatever the period, 0
included: the constructors of ver_3 and of RTES_FINAL store the period as given,
set the running flag and start the thread, and `addService` appends the new
service to the collection. -/
theorem construct_accepts_every_period (name : String)
    (affinity priority period service_id : Nat) (stat : RTES_FINAL.Service_Statistic)
    (seq3 : Ver3.Sequencer) (seq : RTES_FINAL.Sequencer) :
    (∃ svc, Ver3.Service.construct name affinity priority period = .ok svc ∧
        svc.period = period ∧ svc.isRunning = true ∧ svc.thread = .loopHead ∧
        seq3.addService name affinity priority period =
          .ok { seq3 with services := seq3.services ++ [svc] }) ∧
    (∃ svc, RTES_FINAL.Service.construct affinity priority period stat service_id = .ok svc ∧
        svc.period = period ∧ svc.running = true ∧ svc.thread = .spawned ∧
        seq.addService affinity priority period stat service_id =
          .ok { seq with services := seq.services ++ [svc] }) :=
  ⟨⟨_, rfl, rfl, rfl, rfl, rfl⟩, ⟨_, rfl, rfl, rfl, rfl, rfl⟩⟩

/-- C8 (as stated, refuted): after `startServices()` on a one-service sequencer,
`addService` reports no error and the collection has grown to two services, in
RTES_FINAL (tick thread running) and in ver_3 (timer 7 armed). -/
theorem addService_after_start_appends :
    ((RTES_FINAL.Sequencer.startServices
          { services := [RTES_FINAL.Service.init 1 99 20 RTES_FINAL.newStat 1],
            running := false, tickThread := false }).addService 1 98 50 RTES_FINAL.newStat 2 =
        .ok { services := [RTES_FINAL.Service.init 1 99 20 RTES_FINAL.newStat 1,
                           RTES_FINAL.Service.init 1 98 50 RTES_FINAL.newStat 2],
              running := true, tickThread := true }) ∧
    (∃ events,
      Ver3.Sequencer.startServices
          { timer_create := fun _ => some 7, timer_settime := fun _ => true }
          { services := [Ver3.Service.init "Gas Monitor" 1 99 100], timerIds := [] } =
        .ok ({ services := [Ver3.Service.init "Gas Monitor" 1 99 100], timerIds := [7] },
             events)) ∧
    Ver3.Sequencer.addService
        { services := [Ver3.Service.init "Gas Monitor" 1 99 100], timerIds := [7] }
        "Inference" 2 99 300 =
      .ok { services := [Ver3.Service.init "Gas Monitor" 1 99 100,
                         Ver3.Service.init "Inference" 2 99 300],
            timerIds := [7] } :=
  ⟨rfl, ⟨_, rfl⟩, rfl⟩

/-- C8 (amended): `addService` does not look at whether the sequencer was
started.  Called after `startServices()` it constructs the service and appends
it to the collection, and returns normally; the running flag and the tick thread
(RTES_FINAL) and the armed timers (ver_3) are as `startServices()` left them. -/
theorem addService_ignores_started (seq : RTES_FINAL.Sequencer) (seq3 : Ver3.Sequencer)
    (env : Ver3.TimerEnv) (name : String) (affinity priority period service_id : Nat)
    (stat : RTES_FINAL.Service_Statistic) :
    (seq.startServices.addService affinity priority period stat service_id =
        .ok { services :=
                seq.services ++
                  [RTES_FINAL.Service.init affinity priority period stat service_id],
              running := true, tickThread := true }) ∧
    (∃ started events, seq3.startServices env = .ok (started, events) ∧
        started.services = seq3.services ∧
        started.addService name affinity priority period =
          .ok { services :=
                  seq3.services ++ [Ver3.Service.init name affinity priority period],
                timerIds := started.timerIds }) :=
  ⟨rfl, ⟨_, _, rfl, rfl, rfl⟩⟩

namespace Ver3

theorem armTimers_spec (env : TimerEnv) :
    ∀ (services : List Service) (i : Nat),
      (∀ t, t ∈ (armTimers env services i).1 ↔
        ∃ j, i ≤ j ∧ j < i + services.length ∧
          env.timer_create j = some t ∧ env.timer_settime j = true) ∧
      (∀ j, i ≤ j → j < i + services.length → env.timer_create j = none →
        SeqEvent.perror "timer_create" ∈ (armTimers env services i).2) ∧
      (∀ j t, i ≤ j → j < i + services.length → env.timer_create j = some t →
        env.timer_settime j = false →
        SeqEvent.perror "timer_settime" ∈ (armTimers env services i).2 ∧
          SeqEvent.timerDelete t ∈ (armTimers env services i).2) := by
  intro services
  induction services with
  | nil =>
    intro i
    refine ⟨fun t => ?_, fun j h1 h2 => ?_, fun j t h1 h2 => ?_⟩
    · simp only [armTimers, List.not_mem_nil, List.length_nil, false_iff]
      rintro ⟨j, h1, h2, -⟩
      omega
    · simp only [List.length_nil] at h2; omega
    · simp only [List.length_nil] at h2; omega
  | cons svc rest ih =>
    intro i
    obtain ⟨ih1, ih2, ih3⟩ := ih (i + 1)
    have hsplit : ∀ j, i ≤ j → j < i + (svc :: rest).length →
        j = i ∨ (i + 1 ≤ j ∧ j < i + 1 + rest.length) := by
      intro j h1 h2
      simp only [List.length_cons] at h2
      omega
    refine ⟨fun t => ?_, fun j h1 h2 hc => ?_, fun j t h1 h2 hc hs => ?_⟩
    · constructor
      · intro ht
        have hcases : (env.timer_create i = some t ∧ env.timer_settime i = true) ∨
            t ∈ (armTimers env rest (i + 1)).1 := by
          simp only [armTimers] at ht
          cases hc : env.timer_create i with
          | none => simp only [hc] at ht; exact Or.inr ht
          | some timerId =>
            cases hs : env.timer_settime i with
            | false => simp [hc, hs] at ht; exact Or.inr ht
            | true =>
              simp [hc, hs] at ht
              rcases ht with ht | ht
              · exact Or.inl ⟨by rw [ht], rfl⟩
              · exact Or.inr ht
        rcases hcases with ⟨hc, hs⟩ | hrest
        · exact ⟨i, le_refl _, by simp, hc, hs⟩
        · obtain ⟨j, h1, h2, hc, hs⟩ := (ih1 t).1 hrest
          exact ⟨j, by omega, by simp only [List.length_cons]; omega, hc, hs⟩
      · rintro ⟨j, h1, h2, hc, hs⟩
        rcases hsplit j h1 h2 with rfl | ⟨g1, g2⟩
        · simp [armTimers, hc, hs]
        · have hrest := (ih1 t).2 ⟨j, g1, g2, hc, hs⟩
          simp only [armTimers]
          cases hc0 : env.timer_create i with
          | none => simpa using hrest
          | some timerId =>
            cases hs0 : env.timer_settime i with
            | false => simpa using hrest
            | true => simp [hrest]
    · rcases hsplit j h1 h2 with rfl | ⟨g1, g2⟩
      · simp [armTimers, hc]
      · have hrest := ih2 j g1 g2 hc
        simp only [armTimers]
        cases hc0 : env.timer_create i with
        | none => simp [hrest]
        | some timerId =>
          cases hs0 : env.timer_settime i with
          | false => simp [hrest]
          | true => simp [hrest]
    · rcases hsplit j h1 h2 with rfl | ⟨g1, g2⟩
      · simp [armTimers, hc, hs]
      · have hrest := ih3 j t g1 g2 hc hs
        simp only [armTimers]
        cases hc0 : env.timer_create i with
        | none => simp [hrest]
        | some timerId =>
          cases hs0 : env.timer_settime i with
          | false => simp [hrest]
          | true => simp [hrest]

end Ver3

/-- C9 (as stated, refuted): with two services, when `timer_create` fails for the
second one, `startServices()` completes normally: only the first service has a
timer, and the failure shows up as a `perror` call alone. -/
theorem startServices_swallows_timer_failure :
    Ver3.Sequencer.startServices
        { timer_create := fun i => if i = 0 then some 7 else none,
          timer_settime := fun _ => true }
        { services := [Ver3.Service.init "Gas Monitor" 1 99 100,
                       Ver3.Service.init "Inference" 2 99 300],
          timerIds := [] } =
      .ok ({ services := [Ver3.Service.init "Gas Monitor" 1 99 100,
                          Ver3.Service.init "Inference" 2 99 300],
             timerIds := [7] },
           [.timerSet 7 0 { it_value := { tv_sec := 0, tv_nsec := 100000000 },
                            it_interval := { tv_sec := 0, tv_nsec := 100000000 } },
            .perror "timer_create"]) := by
  rfl

/-- C9 (amended): `startServices()` always completes normally.  A service whose
timer cannot be created is reported with `perror("timer_create")` and skipped;
one whose timer cannot be armed is reported with `perror("timer_settime")`, its
timer is deleted, and it is skipped; the timers added to the timer list are
exactly those of the services for which both calls succeeded. -/
theorem startServices_skips_failed_timers (env : Ver3.TimerEnv) (seq : Ver3.Sequencer) :
    ∃ timers events,
      seq.startServices env =
        .ok ({ seq with timerIds := seq.timerIds ++ timers }, events) ∧
      (∀ t, t ∈ timers ↔
        ∃ j, j < seq.services.length ∧
          env.timer_create j = some t ∧ env.timer_settime j = true) ∧
      (∀ j, j < seq.services.length → env.timer_create j = none →
        Ver3.SeqEvent.perror "timer_create" ∈ events) ∧
      (∀ j t, j < seq.services.length → env.timer_create j = some t →
        env.timer_settime j = false →
        Ver3.SeqEvent.perror "timer_settime" ∈ events ∧
          Ver3.SeqEvent.timerDelete t ∈ events) := by
  obtain ⟨h1, h2, h3⟩ := Ver3.armTimers_spec env seq.services 0
  refine ⟨(Ver3.armTimers env seq.services 0).1, (Ver3.armTimers env seq.services 0).2,
    rfl, fun t => ?_, fun j hj hc => ?_, fun j t hj hc hs => ?_⟩
  · rw [h1 t]
    constructor
    · rintro ⟨j, -, g2, g3⟩
      exact ⟨j, by omega, g3⟩
    · rintro ⟨j, g2, g3⟩
      exact ⟨j, Nat.zero_le _, by omega, g3⟩
  · exact h2 j (Nat.zero_le _) (by omega) hc
  · exact h3 j t (Nat.zero_le _) (by omega) hc hs

namespace Ver1

theorem Service.act_stats (s : Service) (st : Service_Statistic) (a : Action)
    (hs : s.stats = some st) :
    ∃ st1, (s.act a).stats = some st1 ∧
      st1.execCount =
        (if (match a, s.thread with
             | .thread _, .inTask _ => 1
             | _, _ => 0) = 1
         then (st.execCount + 1) % UINT32_MOD else st.execCount) ∧
      st1.missedDeadlines =
        (if (match a, s.thread with
             | .thread now, .inTask start =>
               if now - start > (s.period : Int) * 1000000 then 1 else 0
             | _, _ => 0) = 1
         then (st.missedDeadlines + 1) % UINT32_MOD else st.missedDeadlines) := by
  cases a with
  | release => exact ⟨st, by simp [Service.act, Service.release, hs], by simp, by simp⟩
  | thread now =>
    cases hth : s.thread with
    | waiting =>
      refine ⟨st, ?_, by simp, by simp⟩
      simp only [Service.act, Service.provideServiceStep, hth]
      split
      · split <;> exact hs
      · exact hs
    | exited =>
      exact ⟨st, by simp [Service.act, Service.provideServiceStep, hth, hs], by simp, by simp⟩
    | inTask start =>
      by_cases hlate : now - start > (s.period : Int) * 1000000
      · exact ⟨{ execCount := (st.execCount + 1) % UINT32_MOD,
                 missedDeadlines := (st.missedDeadlines + 1) % UINT32_MOD },
          by simp [Service.act, Service.provideServiceStep, hth, hs, hlate],
          by simp, by simp [hlate]⟩
      · exact ⟨{ execCount := (st.execCount + 1) % UINT32_MOD,
                 missedDeadlines := st.missedDeadlines },
          by simp [Service.act, Service.provideServiceStep, hth, hs, hlate],
          by simp, by simp [hlate]⟩

theorem Service.late_le_completed (schedule : List Action) :
    ∀ s : Service, s.late schedule ≤ s.completed schedule := by
  induction schedule with
  | nil => intro s; simp [Service.late, Service.completed]
  | cons a rest ih =>
    intro s
    have h := ih (s.act a)
    simp only [Service.late, Service.completed]
    cases a with
    | release => simpa using h
    | thread now =>
      cases hth : s.thread with
      | waiting => simpa [hth] using h
      | exited => simpa [hth] using h
      | inTask start =>
        simp only [hth]
        split <;> omega

theorem Service.run_stats (schedule : List Action) :
    ∀ (s : Service) (st : Service_Statistic), s.stats = some st →
      st.execCount < UINT32_MOD → st.missedDeadlines < UINT32_MOD →
      ∃ st1, (s.run schedule).stats = some st1 ∧
        st1.execCount = (st.execCount + s.completed schedule) % UINT32_MOD ∧
        st1.missedDeadlines = (st.missedDeadlines + s.late schedule) % UINT32_MOD := by
  induction schedule with
  | nil =>
    intro s st hs h1 h2
    exact ⟨st, hs, by simp [Service.completed, Nat.mod_eq_of_lt h1],
      by simp [Service.late, Nat.mod_eq_of_lt h2]⟩
  | cons a rest ih =>
    intro s st hs h1 h2
    obtain ⟨st1, g1, g2, g3⟩ := Service.act_stats s st a hs
    have b1 : st1.execCount < UINT32_MOD := by
      rw [g2]; split
      · exact Nat.mod_lt _ (by simp [UINT32_MOD])
      · exact h1
    have b2 : st1.missedDeadlines < UINT32_MOD := by
      rw [g3]; split
      · exact Nat.mod_lt _ (by simp [UINT32_MOD])
      · exact h2
    obtain ⟨st2, k1, k2, k3⟩ := ih (s.act a) st1 g1 b1 b2
    have hrun : s.run (a :: rest) = (s.act a).run rest := rfl
    refine ⟨st2, by rw [hrun]; exact k1, ?_, ?_⟩
    · rw [k2, g2]
      simp only [Service.completed, UINT32_MOD] at *
      split <;> rename_i hc
      · rw [hc]; omega
      · have : (match a, s.thread with
            | .thread _, .inTask _ => 1
            | _, _ => 0) = 0 := by
          revert hc; split <;> simp
        rw [this]; simp
    · rw [k3, g3]
      simp only [Service.late, UINT32_MOD] at *
      split <;> rename_i hc
      · rw [hc]; omega
      · have : (match a, s.thread with
            | .thread now, .inTask start =>
              if now - start > (s.period : Int) * 1000000 then 1 else 0
            | _, _ => 0) = 0 := by
          revert hc; split
          · split <;> simp
          · simp
        rw [this]; simp

theorem Service.run_append (s : Service) (l1 l2 : List Action) :
    s.run (l1 ++ l2) = (s.run l1).run l2 := by
  simp [Service.run, List.foldl_append]

theorem Service.completed_append (l1 l2 : List Action) :
    ∀ s : Service, s.completed (l1 ++ l2) = s.completed l1 + (s.run l1).completed l2 := by
  induction l1 with
  | nil => intro s; simp [Service.completed, Service.run]
  | cons a rest ih =>
    intro s
    have hrun : s.run (a :: rest) = (s.act a).run rest := rfl
    have h := ih (s.act a)
    show Service.completed s (a :: (rest ++ l2)) = _
    rw [hrun]
    simp only [Service.completed]
    rw [h]
    omega

theorem Service.late_append (l1 l2 : List Action) :
    ∀ s : Service, s.late (l1 ++ l2) = s.late l1 + (s.run l1).late l2 := by
  induction l1 with
  | nil => intro s; simp [Service.late, Service.run]
  | cons a rest ih =>
    intro s
    have hrun : s.run (a :: rest) = (s.act a).run rest := rfl
    have h := ih (s.act a)
    show Service.late s (a :: (rest ++ l2)) = _
    rw [hrun]
    simp only [Service.late]
    rw [h]
    omega

theorem Service.oneExecution_spec (s : Service) (start finish : Int)
    (hth : s.thread = .waiting) (hr : s.running = true) :
    (s.run (oneExecution start finish)).thread = .waiting ∧
      (s.run (oneExecution start finish)).running = true ∧
      (s.run (oneExecution start finish)).period = s.period ∧
      s.completed (oneExecution start finish) = 1 ∧
      s.late (oneExecution start finish) =
        (if finish - start > (s.period : Int) * 1000000 then 1 else 0) := by
  simp [oneExecution, Service.run, Service.act, Service.release, Service.provideServiceStep,
    Service.completed, Service.late, hth, hr]

theorem Service.executions_spec (start finish : Int) :
    ∀ (n : Nat) (s : Service), s.thread = .waiting → s.running = true →
      s.completed (executions start finish n) = n ∧
      s.late (executions start finish n) =
        (if finish - start > (s.period : Int) * 1000000 then n else 0) := by
  intro n
  induction n with
  | zero => intro s _ _; simp [executions, Service.completed, Service.late]
  | succ n ih =>
    intro s hth hr
    obtain ⟨h1, h2, h3, h4, h5⟩ := Service.oneExecution_spec s start finish hth hr
    obtain ⟨g1, g2⟩ := ih (s.run (oneExecution start finish)) h1 h2
    rw [executions, Service.completed_append, Service.late_append, h4, h5, g1, g2, h3]
    constructor
    · omega
    · split <;> omega

/-- C11 (as stated, refuted): a service of period 100 ms with a fresh statistics
object completes `2 ^ 32` task executions, the first one late by a nanosecond.
The 32-bit `execCount` has then wrapped round to 0, which is neither the number
of executions nor at least `missedDeadlines`, which is 1. -/
theorem exec_count_wraps_below_missed :
    freshService.completed
        (oneExecution 0 100000001 ++ executions 0 0 4294967295) = 4294967296 ∧
      (freshService.run (oneExecution 0 100000001 ++ executions 0 0 4294967295)).stats =
        some { execCount := 0, missedDeadlines := 1 } := by
  have hw : freshService.thread = .waiting := rfl
  have hr : freshService.running = true := rfl
  obtain ⟨h1, h2, h3, h4, h5⟩ := Service.oneExecution_spec freshService 0 100000001 hw hr
  obtain ⟨g1, g2⟩ := Service.executions_spec 0 0 4294967295 _ h1 h2
  have hc : freshService.completed
      (oneExecution 0 100000001 ++ executions 0 0 4294967295) = 4294967296 := by
    rw [Service.completed_append, h4, g1]
  have hl : freshService.late
      (oneExecution 0 100000001 ++ executions 0 0 4294967295) = 1 := by
    rw [Service.late_append, h5, g2, h3]
    have hp : freshService.period = 100 := rfl
    rw [hp]
    norm_num
  obtain ⟨st, k1, k2, k3⟩ := Service.run_stats
    (oneExecution 0 100000001 ++ executions 0 0 4294967295) freshService
    { execCount := 0, missedDeadlines := 0 } rfl (by simp [UINT32_MOD]) (by simp [UINT32_MOD])
  refine ⟨hc, ?_⟩
  rw [k1]
  rw [hc] at k2
  rw [hl] at k3
  cases st with
  | mk e m =>
    simp only [UINT32_MOD] at k2 k3
    rw [k2, k3]
    norm_num

/-- C11 (amended): for a service constructed with a fresh statistics object,
as long as fewer than `2 ^ 32` task executions have completed, `execCount` is the
number of completed executions and `missedDeadlines` is at most `execCount`; and
neither counter is smaller later on than it was before. -/
theorem counters_track_executions (priority criticality period_ms service_id : Nat)
    (schedule later : List Action)
    (hN : (Service.construct priority criticality period_ms
            (some { execCount := 0, missedDeadlines := 0 }) service_id).completed
          (schedule ++ later) < UINT32_MOD) :
    ∃ st st1,
      ((Service.construct priority criticality period_ms
          (some { execCount := 0, missedDeadlines := 0 }) service_id).run schedule).stats
        = some st ∧
      ((Service.construct priority criticality period_ms
          (some { execCount := 0, missedDeadlines := 0 }) service_id).run
            (schedule ++ later)).stats = some st1 ∧
      st.execCount =
        (Service.construct priority criticality period_ms
          (some { execCount := 0, missedDeadlines := 0 }) service_id).completed schedule ∧
      st.missedDeadlines ≤ st.execCount ∧
      st.execCount ≤ st1.execCount ∧
      st.missedDeadlines ≤ st1.missedDeadlines := by
  set s0 := Service.construct priority criticality period_ms
    (some { execCount := 0, missedDeadlines := 0 }) service_id with hs0
  have hz : (0 : Nat) < UINT32_MOD := by simp [UINT32_MOD]
  obtain ⟨st, k1, k2, k3⟩ := Service.run_stats schedule s0 _ rfl hz hz
  obtain ⟨st1, j1, j2, j3⟩ := Service.run_stats (schedule ++ later) s0 _ rfl hz hz
  have hca := Service.completed_append schedule later s0
  have hla := Service.late_append schedule later s0
  have hl1 := Service.late_le_completed schedule s0
  have hl2 := Service.late_le_completed (schedule ++ later) s0
  simp only [Nat.zero_add] at k2 k3 j2 j3
  rw [Nat.mod_eq_of_lt (by omega)] at k2 k3 j2 j3
  exact ⟨st, st1, k1, j1, k2, by omega, by omega, by omega⟩

/-- Instance of C11 (amended): two executions, the second one late, then a
third. -/
theorem counters_track_executions_witness :
    ∃ st st1,
      ((Service.construct 1 2 100
          (some { execCount := 0, missedDeadlines := 0 }) 1).run
            (oneExecution 0 5000000 ++ oneExecution 20000000 150000000)).stats
        = some st ∧
      ((Service.construct 1 2 100
          (some { execCount := 0, missedDeadlines := 0 }) 1).run
            ((oneExecution 0 5000000 ++ oneExecution 20000000 150000000) ++
              oneExecution 160000000 161000000)).stats = some st1 ∧
      st.execCount =
        (Service.construct 1 2 100
          (some { execCount := 0, missedDeadlines := 0 }) 1).completed
            (oneExecution 0 5000000 ++ oneExecution 20000000 150000000) ∧
      st.missedDeadlines ≤ st.execCount ∧
      st.execCount ≤ st1.execCount ∧
      st.missedDeadlines ≤ st1.missedDeadlines :=
  counters_track_executions 1 2 100 1
    (oneExecution 0 5000000 ++ oneExecution 20000000 150000000)
    (oneExecution 160000000 161000000) (by decide)

/-- C13: when the task of a ver_1 service with a statistics object returns,
`missedDeadlines` goes up by one (in 32-bit arithmetic, so by exactly one below
the top of the range) if the measured duration `end - start` is strictly above
the period, and stays as it was otherwise, a duration equal to the period
included.  Durations are in nanoseconds, the period in milliseconds. -/
theorem missed_deadline_iff_duration_exceeds_period (s : Service)
    (st : Service_Statistic) (start finish : Int)
    (hth : s.thread = .inTask start) (hs : s.stats = some st) :
    ∃ st1, (s.provideServiceStep finish).stats = some st1 ∧
      (finish - start > (s.period : Int) * 1000000 →
        st1.missedDeadlines = (st.missedDeadlines + 1) % UINT32_MOD ∧
        (st.missedDeadlines + 1 < UINT32_MOD →
          st1.missedDeadlines = st.missedDeadlines + 1)) ∧
      (finish - start ≤ (s.period : Int) * 1000000 →
        st1.missedDeadlines = st.missedDeadlines) := by
  by_cases hlate : finish - start > (s.period : Int) * 1000000
  · refine ⟨{ execCount := (st.execCount + 1) % UINT32_MOD,
              missedDeadlines := (st.missedDeadlines + 1) % UINT32_MOD }, ?_, ?_, ?_⟩
    · simp [Service.provideServiceStep, hth, hs, hlate]
    · intro _
      exact ⟨rfl, fun h => Nat.mod_eq_of_lt h⟩
    · intro h
      omega
  · refine ⟨{ execCount := (st.execCount + 1) % UINT32_MOD,
              missedDeadlines := st.missedDeadlines }, ?_, ?_, ?_⟩
    · simp [Service.provideServiceStep, hth, hs, hlate]
    · intro h
      exact absurd h hlate
    · intro _
      rfl

/-- Instance of C13: a service of period 100 ms whose task ran from 0 to
100000001 ns. -/
theorem missed_deadline_iff_duration_exceeds_period_witness :
    ∃ st1, ((freshService.run [.release, .thread 0]).provideServiceStep 100000001).stats
        = some st1 ∧
      (100000001 - 0 > ((freshService.run [.release, .thread 0]).period : Int) * 1000000 →
        st1.missedDeadlines =
            (({ execCount := 0, missedDeadlines := 0 } : Service_Statistic).missedDeadlines + 1)
              % UINT32_MOD ∧
        (({ execCount := 0, missedDeadlines := 0 } : Service_Statistic).missedDeadlines + 1
            < UINT32_MOD →
          st1.missedDeadlines =
            ({ execCount := 0, missedDeadlines := 0 } : Service_Statistic).missedDeadlines
              + 1)) ∧
      (100000001 - 0 ≤ ((freshService.run [.release, .thread 0]).period : Int) * 1000000 →
        st1.missedDeadlines =
          ({ execCount := 0, missedDeadlines := 0 } : Service_Statistic).missedDeadlines) :=
  missed_deadline_iff_duration_exceeds_period (freshService.run [.release, .thread 0])
    { execCount := 0, missedDeadlines := 0 } 0 100000001 rfl rfl

end Ver1
namespace RTES_FINAL

/-- C12: on a freshly constructed `Service_Statistic`, `get_statistic` reports 0
for the minimum, maximum and average execution time and for both jitters; the
sentinel `0xFFFFFFFF` of the constructor does not show. -/
theorem fresh_statistic_reports_zero (R : Rounding) :
    Service_Statistic.init.get_statistic R =
      { min_exec_time := 0, max_exec_time := 0, avg_exec_time := 0,
        jitter_exec_time := 0, jitter_start_time := 0 } := by
  simp [Service_Statistic.get_statistic, Service_Statistic.init]

/-- C16 (the code at the failing input): a sequencer with one service of period
1 ms is started; the tick thread tests `_running`, finds it set, and enters the
loop body.  `stopServices()` then runs to its end, clearing `_running` and
stopping the service.  The tick thread is still in its loop body: its next step
increments the tick to 1 and calls `release()` on the service. -/
theorem tick_thread_releases_after_stopServices :
    (Sequencer.empty.addService 1 99 1 newStat 1).map Sequencer.startServices =
        .ok startedOneService ∧
      startedOneService.tickThreadStep TickThread.start =
        some (startedOneService, { tick := 0, pc := .sleeping }, []) ∧
      startedOneService.stopServices.running = false ∧
      (startedOneService.stopServices.tickThreadStep { tick := 0, pc := .sleeping }).map
          (fun r => (r.2.1, r.2.2)) =
        some ({ tick := 1, pc := .check }, [0]) := by
  refine ⟨rfl, rfl, rfl, ?_⟩
  decide

theorem releasedServices_offset (tick : Nat) :
    ∀ (services pre : List Service),
      (releaseDue tick services pre.length).map
          (fun calls => calls.filterMap (fun i => (pre ++ services)[i]?)) =
        if services.all (fun s => decide (s.period ≠ 0)) then
          some (services.filter (fun s => decide (tick % s.period = 0)))
        else none := by
  intro services
  induction services with
  | nil => intro pre; simp [releaseDue]
  | cons s rest ih =>
    intro pre
    have h := ih (pre ++ [s])
    simp only [List.length_append, List.length_singleton, List.append_assoc,
      List.singleton_append] at h
    by_cases hs : s.period = 0
    · simp [releaseDue, Service.getPeriod, hs]
    · simp only [releaseDue, Service.getPeriod, hs, if_false, List.all_cons,
        decide_not, decide_False, Bool.not_false, Bool.true_and]
      cases hr : releaseDue tick rest (pre.length + 1) with
      | none =>
        rw [hr] at h
        simp only [Option.map_none', decide_not] at h
        simp only [Option.map_none']
        by_cases hall : (rest.all fun s => !decide (s.period = 0)) = true
        · simp [hall] at h
        · simp [hall]
      | some calls =>
        rw [hr] at h
        simp only [Option.map_some', decide_not] at h
        simp only [Option.map_some']
        by_cases hd : tick % s.period = 0
        · simp only [hd, if_true, List.filterMap_cons]
          have hget : (pre ++ s :: rest)[pre.length]? = some s := by
            rw [List.getElem?_append_right (le_refl _)]
            simp
          rw [hget]
          split at h
          · rename_i hall
            simp only [hall, if_true, List.filter_cons, hd, decide_True]
            simp only [Option.some.injEq] at h
            simp [h]
          · rename_i hall
            simp at h
        · simp only [hd, if_false]
          split at h
          · rename_i hall
            simp only [hall, if_true, List.filter_cons, hd, decide_False]
            simpa using h
          · simp at h

theorem releasedServices_eq (tick : Nat) (services : List Service) :
    releasedServices tick services =
      if services.all (fun s => decide (s.period ≠ 0)) then
        some (services.filter (fun s => decide (tick % s.period = 0)))
      else none := by
  have h := releasedServices_offset tick services []
  simpa [releasedServices] using h

/-- C19: after `sortServicesbyAscendingPeriod()` the collection is a
permutation of the collection before the call, and it is ordered by period: for
all positions `i < j`, the period at `i` is at most the period at `j`. -/
theorem sort_is_permutation_ordered_by_period (seq : Sequencer) :
    seq.sortServicesbyAscendingPeriod.services.Perm seq.services ∧
      ∀ (i j : Nat) (hij : i < j)
        (hj : j < seq.sortServicesbyAscendingPeriod.services.length),
        (seq.sortServicesbyAscendingPeriod.services.get ⟨i, by omega⟩).getPeriod ≤
          (seq.sortServicesbyAscendingPeriod.services.get ⟨j, hj⟩).getPeriod := by
  have htotal : IsTotal Service (fun a b => customLess b a = false) :=
    ⟨fun a b => by simp only [customLess, Service.getPeriod, decide_eq_false_iff_not]; omega⟩
  have htrans : IsTrans Service (fun a b => customLess b a = false) :=
    ⟨fun a b c => by
      simp only [customLess, Service.getPeriod, decide_eq_false_iff_not]; omega⟩
  refine ⟨List.perm_insertionSort _ _, fun i j hij hj => ?_⟩
  have hsorted : List.Sorted (fun a b => customLess b a = false)
      (seq.services.insertionSort (fun a b => customLess b a = false)) :=
    List.sorted_insertionSort _ _
  have h := List.pairwise_iff_get.mp hsorted ⟨i, by
    simp only [Sequencer.sortServicesbyAscendingPeriod] at hj; omega⟩ ⟨j, hj⟩ hij
  simp only [customLess, Service.getPeriod, decide_eq_false_iff_not, not_lt] at h
  exact h

/-- C20: at every tick the release loop releases the same services whether or
not `sortServicesbyAscendingPeriod()` was called first: the two lists of released
services are permutations of each other (and the loop divides by zero on the
sorted collection exactly when it does on the unsorted one). -/
theorem sort_keeps_released_services (seq : Sequencer) (tick : Nat) :
    (releasedServices tick seq.sortServicesbyAscendingPeriod.services = none ∧
        releasedServices tick seq.services = none) ∨
      ∃ a b, releasedServices tick seq.sortServicesbyAscendingPeriod.services = some a ∧
        releasedServices tick seq.services = some b ∧ a.Perm b := by
  have hperm : (seq.services.insertionSort (fun a b => customLess b a = false)).Perm
      seq.services := List.perm_insertionSort _ _
  have hall : (seq.services.insertionSort (fun a b => customLess b a = false)).all
      (fun s => decide (s.period ≠ 0)) = seq.services.all (fun s => decide (s.period ≠ 0)) := by
    rw [Bool.eq_iff_iff]
    simp only [List.all_eq_true]
    exact ⟨fun h x hx => h x (hperm.mem_iff.mpr hx), fun h x hx => h x (hperm.mem_iff.mp hx)⟩
  rw [releasedServices_eq, releasedServices_eq]
  simp only [Sequencer.sortServicesbyAscendingPeriod, hall]
  cases hc : seq.services.all (fun s => decide (s.period ≠ 0)) with
  | false => left; simp
  | true =>
    right
    exact ⟨_, _, rfl, rfl, hperm.filter _⟩

end RTES_FINAL
namespace Ver3

end Ver3

namespace RTES_FINAL

end RTES_FINAL

namespace Ver3

theorem jitters_snoc (R : RTES_FINAL.Rounding) (P : Nat) :
    ∀ (st : List ℚ) (last now : ℚ), st.getLast? = some last →
      jitters R P (st ++ [now]) =
        jitters R P st ++ [|R.fl (toMilliseconds R (now - last) - (P : ℚ))|] := by
  intro st
  induction st with
  | nil => intro last now h; simp at h
  | cons a rest ih =>
    intro last now h
    cases rest with
    | nil =>
      simp only [List.getLast?_singleton, Option.some.injEq] at h
      subst h
      simp [jitters]
    | cons b more =>
      have h1 : (b :: more).getLast? = some last := by
        rw [List.getLast?_cons_cons] at h; exact h
      have := ih last now h1
      simp only [List.cons_append] at this ⊢
      simp only [jitters, this]
      rfl

theorem jitters_nonneg (R : RTES_FINAL.Rounding) (P : Nat) :
    ∀ (st : List ℚ), ∀ j ∈ jitters R P st, 0 ≤ j := by
  intro st
  induction st with
  | nil => intro j hj; simp [jitters] at hj
  | cons a rest ih =>
    cases rest with
    | nil => intro j hj; simp [jitters] at hj
    | cons b more =>
      intro j hj
      simp only [jitters, List.mem_cons] at hj
      rcases hj with rfl | hj
      · exact abs_nonneg _
      · exact ih j hj

theorem jitters_length (R : RTES_FINAL.Rounding) (P : Nat) :
    ∀ (st : List ℚ), (jitters R P st).length = st.length - 1 := by
  intro st
  induction st with
  | nil => rfl
  | cons a rest ih =>
    cases rest with
    | nil => rfl
    | cons b more =>
      simp only [jitters, List.length_cons] at ih ⊢
      omega

theorem jitters_getElem (R : RTES_FINAL.Rounding) (P : Nat) :
    ∀ (st : List ℚ) (i : Nat) (a b : ℚ), st[i]? = some a → st[i + 1]? = some b →
      (jitters R P st)[i]? = some |R.fl (toMilliseconds R (b - a) - (P : ℚ))| := by
  intro st
  induction st with
  | nil => intro i a b h; simp at h
  | cons x rest ih =>
    cases rest with
    | nil => intro i a b _ h; simp at h
    | cons y more =>
      intro i a b ha hb
      cases i with
      | zero =>
        simp only [List.getElem?_cons_zero, Option.some.injEq, zero_add,
          List.getElem?_cons_succ] at ha hb
        subst ha; subst hb
        simp [jitters]
      | succ k =>
        simp only [List.getElem?_cons_succ] at ha hb
        have := ih k a b ha (by simpa using hb)
        simpa [jitters] using this

theorem foldl_min_spec (D : ℚ) :
    ∀ (J : List ℚ), (J.foldl min D = D ∨ J.foldl min D ∈ J) ∧ J.foldl min D ≤ D ∧
      ∀ j ∈ J, J.foldl min D ≤ j := by
  intro J
  induction J using List.reverseRecOn with
  | nil => simp
  | append_singleton J x ih =>
    obtain ⟨h1, h2, h3⟩ := ih
    simp only [List.foldl_append, List.foldl_cons, List.foldl_nil, List.mem_append,
      List.mem_singleton]
    refine ⟨?_, le_trans (min_le_left _ _) h2, ?_⟩
    · rcases le_total (J.foldl min D) x with hle | hle
      · rw [min_eq_left hle]
        rcases h1 with h1 | h1
        · exact Or.inl h1
        · exact Or.inr (Or.inl h1)
      · rw [min_eq_right hle]
        exact Or.inr (Or.inr rfl)
    · intro j hj
      rcases hj with hj | rfl
      · exact le_trans (min_le_left _ _) (h3 j hj)
      · exact min_le_right _ _

theorem foldl_max_spec (D : ℚ) :
    ∀ (J : List ℚ), (J.foldl max D = D ∨ J.foldl max D ∈ J) ∧ D ≤ J.foldl max D ∧
      ∀ j ∈ J, j ≤ J.foldl max D := by
  intro J
  induction J using List.reverseRecOn with
  | nil => simp
  | append_singleton J x ih =>
    obtain ⟨h1, h2, h3⟩ := ih
    simp only [List.foldl_append, List.foldl_cons, List.foldl_nil, List.mem_append,
      List.mem_singleton]
    refine ⟨?_, le_trans h2 (le_max_left _ _), ?_⟩
    · rcases le_total (J.foldl max D) x with hle | hle
      · rw [max_eq_right hle]
        exact Or.inr (Or.inr rfl)
      · rw [max_eq_left hle]
        rcases h1 with h1 | h1
        · exact Or.inl h1
        · exact Or.inr (Or.inl h1)
    · intro j hj
      rcases hj with hj | rfl
      · exact le_trans (h3 j hj) (le_max_left _ _)
      · exact le_max_right _ _

theorem JitterInv.act (R : RTES_FINAL.Rounding) (P : Nat) (s : Service) (st : List ℚ)
    (a : Action) (h : JitterInv R P s st)
    (hlen : ((st ++ s.stepStart R a).length : Int) ≤ INT_MAX) :
    JitterInv R P (s.act R a) (st ++ s.stepStart R a) := by
  obtain ⟨hr, hp, hb, hc, hin, hlast, hmin, hmax⟩ := h
  cases a with
  | release =>
    have e : s.stepStart R .release = [] := rfl
    rw [e, List.append_nil]
    exact ⟨hr, hp, hb, hc, hin, hlast, hmin, hmax⟩
  | thread now =>
    cases hth : s.thread with
    | loopHead =>
      have e : s.stepStart R (.thread now) = [] := by simp [Service.stepStart, hth]
      rw [e, List.append_nil]
      refine ⟨?_, ?_, hb, ?_, ?_, ?_, ?_, ?_⟩ <;>
        simp_all [Service.act, Service.provideServiceStep]
    | semWait =>
      have e : s.stepStart R (.thread now) = [] := by simp [Service.stepStart, hth]
      rw [e, List.append_nil]
      by_cases hz : s.releaseSem = 0
      · refine ⟨?_, ?_, hb, ?_, ?_, ?_, ?_, ?_⟩ <;>
          simp_all [Service.act, Service.provideServiceStep]
      · refine ⟨?_, ?_, hb, ?_, ?_, ?_, ?_, ?_⟩ <;>
          simp_all [Service.act, Service.provideServiceStep]
    | exited =>
      have e : s.stepStart R (.thread now) = [] := by simp [Service.stepStart, hth]
      rw [e, List.append_nil]
      refine ⟨?_, ?_, hb, ?_, ?_, ?_, ?_, ?_⟩ <;>
        simp_all [Service.act, Service.provideServiceStep]
    | inTask x =>
      have e : s.stepStart R (.thread now) = [] := by simp [Service.stepStart, hth]
      rw [e, List.append_nil]
      rw [hth] at hc
      refine ⟨?_, ?_, hb, ?_, ?_, ?_, ?_, ?_⟩
      · simp [Service.act, Service.provideServiceStep, hth, hr]
      · simp [Service.act, Service.provideServiceStep, hth, hp]
      · simp only [Service.act, Service.provideServiceStep, hth, hc]
        have hne : st ≠ [] := hin ⟨x, hth⟩
        have hpos : 0 < st.length := List.length_pos.mpr hne
        rw [wrapInt32_of_range _ (by omega) (by omega)]
        omega
      · simp [Service.act, Service.provideServiceStep, hth]
      · simpa [Service.act, Service.provideServiceStep, hth] using hlast
      · simpa [Service.act, Service.provideServiceStep, hth] using hmin
      · simpa [Service.act, Service.provideServiceStep, hth] using hmax
    | woken =>
      rw [hth] at hc
      simp only [sub_zero] at hc
      have e : s.stepStart R (.thread now) = [now] := by
        simp only [Service.stepStart, Service.act, Service.provideServiceStep, hth, hr,
          if_true]
      rw [e] at hlen ⊢
      by_cases hempty : st = []
      · subst hempty
        have hc0 : s.executionCount = 0 := by simpa using hc
        refine ⟨?_, ?_, hlen, ?_, ?_, ?_, ?_, ?_⟩
        · simp [Service.act, Service.provideServiceStep, hth, hr, hc0]
        · simp [Service.act, Service.provideServiceStep, hth, hr, hc0, hp]
        · simp [Service.act, Service.provideServiceStep, hth, hr, hc0]
        · simp
        · simp [Service.act, Service.provideServiceStep, hth, hr, hc0]
        · simpa [Service.act, Service.provideServiceStep, hth, hr, hc0, jitters] using hmin
        · simpa [Service.act, Service.provideServiceStep, hth, hr, hc0, jitters] using hmax
      · have hpos : s.executionCount > 0 := by
          rw [hc]
          have : 0 < st.length := List.length_pos.mpr hempty
          exact_mod_cast this
        have hl := hlast hempty
        have hj := jitters_snoc R P st s.lastStartTime now hl
        refine ⟨?_, ?_, hlen, ?_, ?_, ?_, ?_, ?_⟩
        · simp [Service.act, Service.provideServiceStep, hth, hr, hpos]
        · simp [Service.act, Service.provideServiceStep, hth, hr, hpos, hp]
        · have e1 : (s.act R (.thread now)).executionCount = s.executionCount := by
            simp [Service.act, Service.provideServiceStep, hth, hr, hpos]
          have e2 : (s.act R (.thread now)).thread = .inTask now := by
            simp [Service.act, Service.provideServiceStep, hth, hr, hpos]
          rw [e1, e2, hc]
          simp
        · simp
        · simp [Service.act, Service.provideServiceStep, hth, hr, hpos]
        · rw [hj, List.foldl_append]
          simp [Service.act, Service.provideServiceStep, hth, hr, hpos, hmin, hp]
        · rw [hj, List.foldl_append]
          simp [Service.act, Service.provideServiceStep, hth, hr, hpos, hmax, hp]

theorem JitterInv.run (R : RTES_FINAL.Rounding) (P : Nat) (schedule : List Action) :
    ∀ (s : Service) (st : List ℚ), JitterInv R P s st →
      ((st ++ s.starts R schedule).length : Int) ≤ INT_MAX →
      JitterInv R P (s.run R schedule) (st ++ s.starts R schedule) := by
  induction schedule with
  | nil => intro s st h _; simpa [Service.run, Service.starts] using h
  | cons a rest ih =>
    intro s st h hlen
    have hlen1 : ((st ++ s.stepStart R a).length : Int) ≤ INT_MAX := by
      simp only [Service.starts, List.length_append, Nat.cast_add] at hlen ⊢
      have : (0 : Int) ≤ (((s.act R a).starts R rest).length : Int) := by positivity
      omega
    have h1 := JitterInv.act R P s st a h hlen1
    have h2 := ih (s.act R a) _ h1 (by simpa [Service.starts, List.append_assoc] using hlen)
    have hrun : s.run R (a :: rest) = (s.act R a).run R rest := rfl
    rw [hrun]
    simpa [Service.starts, List.append_assoc] using h2

theorem JitterInv.init (R : RTES_FINAL.Rounding) (name : String)
    (affinity priority period : Nat) :
    JitterInv R period (Service.init name affinity priority period) [] := by
  simp [JitterInv, Service.init, jitters, INT_MAX]

end Ver3
namespace Ver3

theorem run_cons_sem (R : RTES_FINAL.Rounding) (s : Service) (a : Action)
    (rest : List Action) : s.run R (a :: rest) = (s.act R a).run R rest := rfl

theorem run_append_sem (R : RTES_FINAL.Rounding) (s : Service) (l1 l2 : List Action) :
    s.run R (l1 ++ l2) = (s.run R l1).run R l2 := by
  simp [Service.run, List.foldl_append]

theorem run_cycle (P : Nat) (s : Service) (hr : s.isRunning = true)
    (hth : s.thread = .semWait) (hsem : s.releaseSem = 0) (hp : s.period = P)
    (hl : s.lastStartTime = 0) (hm : s.maxStartJitter ≤ P) :
    (s.run RTES_FINAL.Rounding.exactArith cycle).isRunning = true ∧
      (s.run RTES_FINAL.Rounding.exactArith cycle).thread = .semWait ∧
      (s.run RTES_FINAL.Rounding.exactArith cycle).releaseSem = 0 ∧
      (s.run RTES_FINAL.Rounding.exactArith cycle).period = P ∧
      (s.run RTES_FINAL.Rounding.exactArith cycle).lastStartTime = 0 ∧
      (s.run RTES_FINAL.Rounding.exactArith cycle).maxStartJitter ≤ P ∧
      (s.run RTES_FINAL.Rounding.exactArith cycle).executionCount =
        wrapInt32 (s.executionCount + 1) := by
  by_cases hc : s.executionCount > 0
  · simp [cycle, Service.run, Service.act, Service.release, Service.provideServiceStep, hth,
      hsem, hr, hc, hp, hl, hm, RTES_FINAL.Rounding.exactArith, toMilliseconds]
  · simp [cycle, Service.run, Service.act, Service.release, Service.provideServiceStep, hth,
      hsem, hr, hc, hp, hl, hm, RTES_FINAL.Rounding.exactArith, toMilliseconds]

theorem run_cycles (P : Nat) (n : Nat) :
    ∀ s : Service, s.isRunning = true → s.thread = .semWait → s.releaseSem = 0 →
      s.period = P → s.lastStartTime = 0 → s.maxStartJitter ≤ P →
      (s.run RTES_FINAL.Rounding.exactArith (cycles n)).isRunning = true ∧
      (s.run RTES_FINAL.Rounding.exactArith (cycles n)).thread = .semWait ∧
      (s.run RTES_FINAL.Rounding.exactArith (cycles n)).releaseSem = 0 ∧
      (s.run RTES_FINAL.Rounding.exactArith (cycles n)).period = P ∧
      (s.run RTES_FINAL.Rounding.exactArith (cycles n)).lastStartTime = 0 ∧
      (s.run RTES_FINAL.Rounding.exactArith (cycles n)).maxStartJitter ≤ P ∧
      wrapInt32 (s.run RTES_FINAL.Rounding.exactArith (cycles n)).executionCount =
        wrapInt32 (s.executionCount + n) ∧
      (1 ≤ n → -2147483648 ≤
          (s.run RTES_FINAL.Rounding.exactArith (cycles n)).executionCount ∧
        (s.run RTES_FINAL.Rounding.exactArith (cycles n)).executionCount ≤ INT_MAX) := by
  induction n with
  | zero =>
    intro s hr hth hsem hp hl hm
    refine ⟨hr, hth, hsem, hp, hl, hm, by simp [cycles, Service.run], fun h => ?_⟩
    omega
  | succ n ih =>
    intro s hr hth hsem hp hl hm
    obtain ⟨c1, c2, c3, c4, c5, c6, c7⟩ := run_cycle P s hr hth hsem hp hl hm
    obtain ⟨g1, g2, g3, g4, g5, g6, g7, g8⟩ :=
      ih (s.run RTES_FINAL.Rounding.exactArith cycle) c1 c2 c3 c4 c5 c6
    have hrun : s.run RTES_FINAL.Rounding.exactArith (cycles (n + 1)) =
        (s.run RTES_FINAL.Rounding.exactArith cycle).run RTES_FINAL.Rounding.exactArith
          (cycles n) := by
      show s.run RTES_FINAL.Rounding.exactArith (cycle ++ cycles n) = _
      exact run_append_sem _ s cycle (cycles n)
    rw [hrun]
    refine ⟨g1, g2, g3, g4, g5, g6, ?_, fun _ => ?_⟩
    · rw [g7, c7, wrapInt32_add]
      congr 1
      push_cast
      ring
    · rcases Nat.eq_zero_or_pos n with h0 | hpos
      · subst h0
        have : (s.run RTES_FINAL.Rounding.exactArith cycle).run
            RTES_FINAL.Rounding.exactArith (cycles 0) =
            s.run RTES_FINAL.Rounding.exactArith cycle := rfl
        rw [this, c7]
        exact wrapInt32_range _
      · exact g8 hpos

theorem start_without_sample (R : RTES_FINAL.Rounding) (s : Service) (t now : ℚ)
    (hr : s.isRunning = true) (hth : s.thread = .semWait) (hsem : s.releaseSem = 0)
    (hc : ¬ s.executionCount > 0) :
    (s.run R [.release, .thread t, .thread now]).thread = .inTask now ∧
      (s.run R [.release, .thread t, .thread now]).maxStartJitter = s.maxStartJitter ∧
      (s.run R [.release, .thread t, .thread now]).minStartJitter = s.minStartJitter := by
  simp [Service.run, Service.act, Service.release, Service.provideServiceStep, hth, hsem, hr,
    hc]

/-- C14 (as stated, refuted): "Gas Monitor" (period 100 ms) has executed
`2147483648` times, every start at clock reading 0, and its `int` execution
count stands at `-2147483648`.  Its next execution starts at 1000 ms, an
interval of 1000 ms after the previous start and so a jitter of 900 ms, but the
test `_executionCount > 0` fails, no sample is taken and the stored maximum
start jitter stays at most 100 ms. -/
theorem start_jitter_not_sampled_after_overflow :
    gasMonitorAfterOverflow.executionCount = -2147483648 ∧
      gasMonitorAfterOverflow.lastStartTime = 0 ∧
      gasMonitorAfterOverflow.period = 100 ∧
      (gasMonitorAfterOverflow.run RTES_FINAL.Rounding.exactArith
        [.release, .thread 1000, .thread 1000]).thread = .inTask 1000 ∧
      (gasMonitorAfterOverflow.run RTES_FINAL.Rounding.exactArith
        [.release, .thread 1000, .thread 1000]).maxStartJitter ≤ 100 ∧
      (100 : ℚ) < |RTES_FINAL.Rounding.exactArith.fl
        (toMilliseconds RTES_FINAL.Rounding.exactArith (1000 - 0) - 100)| := by
  have hS : gasMonitorAfterOverflow =
      (((Service.init "Gas Monitor" 1 99 100).act RTES_FINAL.Rounding.exactArith
        (.thread 0)).run RTES_FINAL.Rounding.exactArith (cycles 2147483648)) := by
    unfold gasMonitorAfterOverflow
    exact run_cons_sem _ _ _ _
  obtain ⟨g1, g2, g3, g4, g5, g6, g7, g8⟩ := run_cycles 100 2147483648
    ((Service.init "Gas Monitor" 1 99 100).act RTES_FINAL.Rounding.exactArith (.thread 0))
    (by decide) (by decide) (by decide) (by decide) (by decide)
    (by norm_num [Service.init, Service.act, Service.provideServiceStep])
  rw [← hS] at g1 g2 g3 g4 g5 g6 g7 g8
  have hcount : gasMonitorAfterOverflow.executionCount = -2147483648 := by
    have h0 : ((Service.init "Gas Monitor" 1 99 100).act RTES_FINAL.Rounding.exactArith
        (.thread 0)).executionCount = 0 := by decide
    obtain ⟨r1, r2⟩ := g8 (by norm_num)
    rw [wrapInt32_of_range _ r1 r2, h0] at g7
    rw [g7]
    unfold wrapInt32
    norm_num
  obtain ⟨e1, e2, -⟩ := start_without_sample RTES_FINAL.Rounding.exactArith
    gasMonitorAfterOverflow 1000 1000 g1 g2 g3 (by rw [hcount]; norm_num)
  refine ⟨hcount, g5, g4, e1, ?_, ?_⟩
  · rw [e2]
    exact_mod_cast g6
  · norm_num [RTES_FINAL.Rounding.exactArith, toMilliseconds]

/-- C14 (amended): for a ver_3 service run from its construction, let the start
times be those of the executions begun so far, at most `2147483647` of them, so
that the `int` execution count has not overflowed.  While at most one execution
has begun, no jitter sample has been taken (the stored minimum and maximum are
their initial values).  The jitter of every later execution is
`|start - previous start - period|` as the code computes it in `double`
arithmetic: the interval is converted to a `double` of milliseconds and the
subtraction is rounded.  There is one such value per execution after the first,
and once two or more executions have begun the stored minimum and maximum start
jitter are the least and the greatest of these values (each of which, being a
finite `double`, is at most `DBL_MAX`). -/
theorem start_jitter_is_min_max_of_samples (R : RTES_FINAL.Rounding) (name : String)
    (affinity priority period : Nat) (schedule : List Action)
    (hbound : ((Service.init name affinity priority period).starts R schedule).length
      ≤ 2147483647) :
    (((Service.init name affinity priority period).starts R schedule).length ≤ 1 →
        ((Service.init name affinity priority period).run R schedule).minStartJitter
          = DBL_MAX ∧
        ((Service.init name affinity priority period).run R schedule).maxStartJitter = 0) ∧
      (∀ i a b,
        ((Service.init name affinity priority period).starts R schedule)[i]? = some a →
        ((Service.init name affinity priority period).starts R schedule)[i + 1]? = some b →
        (jitters R period ((Service.init name affinity priority period).starts R schedule))[i]?
          = some |R.fl (toMilliseconds R (b - a) - (period : ℚ))|) ∧
      (jitters R period ((Service.init name affinity priority period).starts R schedule)).length
        = ((Service.init name affinity priority period).starts R schedule).length - 1 ∧
      (2 ≤ ((Service.init name affinity priority period).starts R schedule).length →
        (∀ j ∈ jitters R period
            ((Service.init name affinity priority period).starts R schedule),
          j ≤ DBL_MAX) →
        ((Service.init name affinity priority period).run R schedule).minStartJitter ∈
            jitters R period ((Service.init name affinity priority period).starts R schedule) ∧
          (∀ j ∈ jitters R period
              ((Service.init name affinity priority period).starts R schedule),
            ((Service.init name affinity priority period).run R schedule).minStartJitter ≤ j) ∧
          ((Service.init name affinity priority period).run R schedule).maxStartJitter ∈
            jitters R period ((Service.init name affinity priority period).starts R schedule) ∧
          (∀ j ∈ jitters R period
              ((Service.init name affinity priority period).starts R schedule),
            j ≤ ((Service.init name affinity priority period).run R schedule).maxStartJitter))
    := by
  have hinv := JitterInv.run R period schedule _ []
    (JitterInv.init R name affinity priority period)
    (by
      simp only [List.nil_append, INT_MAX]
      exact_mod_cast hbound)
  simp only [List.nil_append] at hinv
  obtain ⟨-, -, -, -, -, -, hmin, hmax⟩ := hinv
  generalize (Service.init name affinity priority period).starts R schedule = st at *
  generalize (Service.init name affinity priority period).run R schedule = s at *
  have hlen := jitters_length R period st
  refine ⟨?_, ?_, hlen, ?_⟩
  · intro h1
    have hJ : jitters R period st = [] := by
      apply List.eq_nil_of_length_eq_zero
      omega
    rw [hmin, hmax, hJ]
    exact ⟨rfl, rfl⟩
  · intro i a b ha hb
    exact jitters_getElem R period st i a b ha hb
  · intro h2 hfin
    have hne : jitters R period st ≠ [] := by
      intro h
      rw [h] at hlen
      simp at hlen
      omega
    obtain ⟨j0, hj0⟩ := List.exists_mem_of_ne_nil _ hne
    obtain ⟨m1, m2, m3⟩ := foldl_min_spec DBL_MAX (jitters R period st)
    obtain ⟨x1, x2, x3⟩ := foldl_max_spec 0 (jitters R period st)
    rw [hmin, hmax]
    refine ⟨?_, m3, ?_, x3⟩
    · rcases m1 with m1 | m1
      · have h1 : DBL_MAX ≤ j0 := by rw [← m1]; exact m3 j0 hj0
        have h2 : j0 = DBL_MAX := le_antisymm (hfin j0 hj0) h1
        rw [m1, ← h2]
        exact hj0
      · exact m1
    · rcases x1 with x1 | x1
      · have h1 : j0 ≤ 0 := by rw [← x1]; exact x3 j0 hj0
        have h2 : j0 = 0 := le_antisymm h1 (jitters_nonneg R period st j0 hj0)
        rw [x1, ← h2]
        exact hj0
      · exact x1

end Ver3

namespace Ver3

/-- Instance of C14: three executions of "Gas Monitor" (period 100 ms) starting at
100, 201 and 299 ms give the jitters 1 and 2, which are the stored minimum and
maximum. -/
theorem start_jitter_is_min_max_of_samples_witness :
    (Service.init "Gas Monitor" 1 99 100).starts RTES_FINAL.Rounding.exactArith threeRuns
        = [100, 201, 299] ∧
      jitters RTES_FINAL.Rounding.exactArith 100 [100, 201, 299] = [1, 2] ∧
      ((Service.init "Gas Monitor" 1 99 100).run RTES_FINAL.Rounding.exactArith
        threeRuns).minStartJitter = 1 ∧
      ((Service.init "Gas Monitor" 1 99 100).run RTES_FINAL.Rounding.exactArith
        threeRuns).maxStartJitter = 2 := by
  have hst : (Service.init "Gas Monitor" 1 99 100).starts RTES_FINAL.Rounding.exactArith
      threeRuns = [100, 201, 299] := by
    decide
  have hJ : jitters RTES_FINAL.Rounding.exactArith 100 [100, 201, 299] = [1, 2] := by
    norm_num [jitters, toMilliseconds, RTES_FINAL.Rounding.exactArith]
  obtain ⟨-, -, -, h⟩ :=
    start_jitter_is_min_max_of_samples RTES_FINAL.Rounding.exactArith "Gas Monitor" 1 99 100
      threeRuns (by rw [hst]; decide)
  rw [hst] at h
  have hJ' : jitters RTES_FINAL.Rounding.exactArith 100 [100, 201, 299] = [1, 2] := hJ
  rw [hJ'] at h
  have hD : ∀ j ∈ ([1, 2] : List ℚ), j ≤ DBL_MAX := by
    intro j hj
    simp only [List.mem_cons, List.mem_singleton, List.not_mem_nil, or_false] at hj
    rcases hj with rfl | rfl <;> norm_num [DBL_MAX]
  obtain ⟨m1, m2, x1, x2⟩ := h (by simp) hD
  refine ⟨hst, hJ, ?_, ?_⟩
  · simp only [List.mem_cons, List.mem_singleton, List.not_mem_nil, or_false] at m1
    rcases m1 with m1 | m1
    · exact m1
    · have := m2 1 (by simp)
      rw [m1] at this
      norm_num at this
  · simp only [List.mem_cons, List.mem_singleton, List.not_mem_nil, or_false] at x1
    rcases x1 with x1 | x1
    · have := x2 2 (by simp)
      rw [x1] at this
      norm_num at this
    · exact x1

theorem armTimers_timerSet (env : TimerEnv) :
    ∀ (services : List Service) (k i : Nat) (svc : Service) (t : Nat),
      services[i]? = some svc → env.timer_create (k + i) = some t →
      env.timer_settime (k + i) = true →
      SeqEvent.timerSet t (k + i) (timerSpec svc) ∈ (armTimers env services k).2 := by
  intro services
  induction services with
  | nil => intro k i svc t h; simp at h
  | cons s rest ih =>
    intro k i svc t hsvc hc hs
    cases i with
    | zero =>
      simp only [List.getElem?_cons_zero, Option.some.injEq] at hsvc
      subst hsvc
      simp only [Nat.add_zero] at hc hs ⊢
      simp [armTimers, hc, hs]
    | succ j =>
      simp only [List.getElem?_cons_succ] at hsvc
      have h := ih (k + 1) j svc t hsvc (by rw [← hc]; congr 1; omega)
        (by rw [← hs]; congr 1; omega)
      have hidx : k + 1 + j = k + (j + 1) := by omega
      rw [hidx] at h
      simp only [armTimers]
      cases hc0 : env.timer_create k with
      | none => simp [h]
      | some timerId =>
        cases hs0 : env.timer_settime k with
        | false => simp [h]
        | true => simp [h]

/-- C15 (as stated, refuted): for the period `2 ^ 31` ms the conversion of the
period to `int` gives a negative number, so the timer setting that
`startServices()` computes has a negative `tv_sec` and a negative `tv_nsec`, and
is not a period of `2 ^ 31` ms. -/
theorem timer_setting_negative_for_large_period :
    timerSpec (Service.init "Gas Monitor" 1 99 2147483648) =
        { it_value := { tv_sec := -2147483, tv_nsec := -648000000 },
          it_interval := { tv_sec := -2147483, tv_nsec := -648000000 } } ∧
      (timerSpec (Service.init "Gas Monitor" 1 99 2147483648)).it_value.tv_nsec < 0 ∧
      (timerSpec (Service.init "Gas Monitor" 1 99 2147483648)).it_value.tv_sec * 1000000000 +
          (timerSpec (Service.init "Gas Monitor" 1 99 2147483648)).it_value.tv_nsec ≠
        2147483648 * 1000000 := by
  decide

/-- C15 (amended): for a service whose period `p` satisfies `0 < p < 2 ^ 31`
(it fits an `int`), the timer that `startServices()` arms for it has first
expiry and interval both equal to `p` ms:
`tv_sec * 1000000000 + tv_nsec = p * 1000000` with `0 ≤ tv_nsec < 1000000000`,
and `it_interval` equals `it_value`. -/
theorem armed_timer_has_period (env : TimerEnv) (seq : Sequencer) (i : Nat)
    (svc : Service) (t : Nat) (hsvc : seq.services[i]? = some svc)
    (hc : env.timer_create i = some t) (hs : env.timer_settime i = true)
    (hpos : 0 < svc.period) (hlt : svc.period < 2 ^ 31) :
    ∃ started events, seq.startServices env = .ok (started, events) ∧
      SeqEvent.timerSet t i (timerSpec svc) ∈ events ∧
      (timerSpec svc).it_value.tv_sec * 1000000000 + (timerSpec svc).it_value.tv_nsec =
        (svc.period : Int) * 1000000 ∧
      0 ≤ (timerSpec svc).it_value.tv_nsec ∧
      (timerSpec svc).it_value.tv_nsec < 1000000000 ∧
      (timerSpec svc).it_interval = (timerSpec svc).it_value := by
  have hev := armTimers_timerSet env seq.services 0 i svc t hsvc
    (by simpa using hc) (by simpa using hs)
  simp only [Nat.zero_add] at hev
  have hconv : toInt32 svc.getPeriod = (svc.period : Int) := by
    have h1 : svc.period % 2 ^ 32 = svc.period := Nat.mod_eq_of_lt (by omega)
    simp only [toInt32, Service.getPeriod, h1, hlt, if_true]
  have hnn : (0 : Int) ≤ (svc.period : Int) := Int.natCast_nonneg _
  refine ⟨_, _, rfl, hev, ?_, ?_, ?_, rfl⟩
  · simp only [timerSpec, hconv, Int.tdiv_eq_ediv hnn (by norm_num : (0 : Int) ≤ 1000),
      Int.tmod_eq_emod hnn (by norm_num : (0 : Int) ≤ 1000)]
    omega
  · simp only [timerSpec, hconv,
      Int.tmod_eq_emod hnn (by norm_num : (0 : Int) ≤ 1000)]
    omega
  · simp only [timerSpec, hconv,
      Int.tmod_eq_emod hnn (by norm_num : (0 : Int) ≤ 1000)]
    omega

/-- Instance of C15 (amended): the service "Inference" of period 2500 ms, alone in
a sequencer, gets a timer of 2 s and 500000000 ns. -/
theorem armed_timer_has_period_witness :
    ∃ started events,
      Sequencer.startServices
          { timer_create := fun _ => some 7, timer_settime := fun _ => true }
          { services := [Service.init "Inference" 2 99 2500], timerIds := [] } =
        .ok (started, events) ∧
      SeqEvent.timerSet 7 0 (timerSpec (Service.init "Inference" 2 99 2500)) ∈ events ∧
      (timerSpec (Service.init "Inference" 2 99 2500)).it_value.tv_sec * 1000000000 +
          (timerSpec (Service.init "Inference" 2 99 2500)).it_value.tv_nsec =
        ((Service.init "Inference" 2 99 2500).period : Int) * 1000000 ∧
      0 ≤ (timerSpec (Service.init "Inference" 2 99 2500)).it_value.tv_nsec ∧
      (timerSpec (Service.init "Inference" 2 99 2500)).it_value.tv_nsec < 1000000000 ∧
      (timerSpec (Service.init "Inference" 2 99 2500)).it_interval =
        (timerSpec (Service.init "Inference" 2 99 2500)).it_value :=
  armed_timer_has_period
    { timer_create := fun _ => some 7, timer_settime := fun _ => true }
    { services := [Service.init "Inference" 2 99 2500], timerIds := [] } 0
    (Service.init "Inference" 2 99 2500) 7 rfl rfl rfl (by decide) (by decide)

/-- C18 (as stated, refuted): `stop()` on the running service "Gas Monitor" that
was never released makes its three calls and emits no statistics report. -/
theorem stop_of_unreleased_service_emits_no_report :
    (Service.init "Gas Monitor" 1 99 100).isRunning = true ∧
      (Service.init "Gas Monitor" 1 99 100).executionCount = 0 ∧
      (Service.init "Gas Monitor" 1 99 100).stop.2 =
        [.semPost, .requestStop, .semDestroy] := by
  decide

/-- C18 (amended): `stop()` emits a statistics report exactly when the execution
count is not 0 at the time of the call; the report is then the last of its
calls and carries the statistics of that moment.  With an execution count of 0
(a service that was never released, for one) nothing is reported. -/
theorem stop_reports_iff_executed (s : Service) :
    ((∃ r, Event.report r ∈ s.stop.2) ↔ s.executionCount ≠ 0) ∧
      (s.executionCount = 0 → s.stop.2 = [.semPost, .requestStop, .semDestroy]) ∧
      (s.executionCount ≠ 0 →
        s.stop.2 =
          [.semPost, .requestStop, .semDestroy,
           .report { service_name := s.service_name, period := s.period,
                     minExecTime := s.minExecTime, maxExecTime := s.maxExecTime,
                     avgExecTime := s.totalExecTime / s.executionCount,
                     execJitter := s.maxExecTime - s.minExecTime,
                     startJitter := s.maxStartJitter - s.minStartJitter }]) := by
  by_cases h : s.executionCount = 0
  · simp [Service.stop, Service.logStatistics, h]
  · simp [Service.stop, Service.logStatistics, h]

end Ver3
namespace RTES_FINAL

theorem stopLoop_eq (services : List Service) :
    stopLoop services = (services.map Service.stop, services) := by
  induction services with
  | nil => rfl
  | cons s rest ih => simp [stopLoop, ih]

theorem Sequencer.addServices_eq (args : List ServiceArgs) :
    ∀ seq : Sequencer, seq.addServices args =
      .ok { seq with services := seq.services ++ args.map ServiceArgs.service } := by
  induction args with
  | nil => intro seq; simp [Sequencer.addServices]
  | cons a rest ih =>
    intro seq
    simp [Sequencer.addServices, Sequencer.addService, Service.construct, ih,
      ServiceArgs.service]

/-- C21 (as stated, refuted): a service of period 300 ms is added, then one of
period 100 ms, and `sortServicesbyAscendingPeriod()` is called.  `stopServices()`
then calls `stop()` on the service of period 100 ms first, the one that was
added last. -/
theorem stop_order_after_sort_is_not_insertion_order :
    Sequencer.empty.addServices slowThenFast =
        .ok { Sequencer.empty with services := slowThenFast.map ServiceArgs.service } ∧
      (({ Sequencer.empty with services := slowThenFast.map ServiceArgs.service }
          ).sortServicesbyAscendingPeriod.stopServicesTrace.2).map Service.getPeriod
        = [100, 300] ∧
      (slowThenFast.map ServiceArgs.service).map Service.getPeriod = [300, 100] := by
  refine ⟨rfl, ?_, rfl⟩
  decide

theorem insertionSort_ordered_by_period (services : List Service) :
    (services.insertionSort (fun a b => customLess b a = false)).Pairwise
      (fun a b => a.getPeriod ≤ b.getPeriod) := by
  have htotal : IsTotal Service (fun a b => customLess b a = false) :=
    ⟨fun a b => by simp only [customLess, Service.getPeriod, decide_eq_false_iff_not]; omega⟩
  have htrans : IsTrans Service (fun a b => customLess b a = false) :=
    ⟨fun a b c => by
      simp only [customLess, Service.getPeriod, decide_eq_false_iff_not]; omega⟩
  have hsorted : List.Sorted (fun a b => customLess b a = false)
      (services.insertionSort (fun a b => customLess b a = false)) :=
    List.sorted_insertionSort _ _
  refine List.Pairwise.imp ?_ hsorted
  intro a b h
  simpa [customLess, Service.getPeriod] using h

/-- C21 (amended): `stopServices()` calls `stop()` once on each service in the
order the collection has at that moment.  After a sequence of `addService`
calls on an empty sequencer that is the order of the calls; after
`sortServicesbyAscendingPeriod()` it is a permutation of the order of the calls
in which the periods do not decrease. -/
theorem stop_order_is_collection_order (seq : Sequencer) (args : List ServiceArgs) :
    seq.stopServicesTrace.2 = seq.services ∧
      seq.stopServicesTrace.1 = seq.stopServices ∧
      (∃ built, Sequencer.empty.addServices args = .ok built ∧
        built.stopServicesTrace.2 = args.map ServiceArgs.service ∧
        (built.sortServicesbyAscendingPeriod.stopServicesTrace.2).Perm
          (args.map ServiceArgs.service) ∧
        (built.sortServicesbyAscendingPeriod.stopServicesTrace.2).Pairwise
          (fun a b => a.getPeriod ≤ b.getPeriod)) := by
  refine ⟨by simp [Sequencer.stopServicesTrace, stopLoop_eq],
    by simp [Sequencer.stopServicesTrace, Sequencer.stopServices, stopLoop_eq], ?_⟩
  refine ⟨_, Sequencer.addServices_eq args Sequencer.empty, ?_, ?_, ?_⟩
  · simp [Sequencer.stopServicesTrace, stopLoop_eq, Sequencer.empty]
  · simp only [Sequencer.stopServicesTrace, stopLoop_eq, Sequencer.empty,
      Sequencer.sortServicesbyAscendingPeriod, List.nil_append]
    exact List.perm_insertionSort _ _
  · simp only [Sequencer.stopServicesTrace, stopLoop_eq, Sequencer.empty,
      Sequencer.sortServicesbyAscendingPeriod, List.nil_append]
    exact insertionSort_ordered_by_period _

/-- C24 (as stated, refuted): `addService` accepts a service of period 0, and the
first iteration of the tick loop then evaluates `tick % 0`. -/
theorem zero_period_divides_by_zero :
    Sequencer.empty.addService 1 99 0 newStat 1 =
        .ok { Sequencer.empty with services := [Service.init 1 99 0 newStat 1] } ∧
      tickIteration 0 [Service.init 1 99 0 newStat 1] = none := by
  exact ⟨rfl, rfl⟩

theorem releaseDue_none_iff (tick : Nat) :
    ∀ (services : List Service) (k : Nat),
      releaseDue tick services k = none ↔ ∃ s ∈ services, s.period = 0 := by
  intro services
  induction services with
  | nil => intro k; simp [releaseDue]
  | cons s rest ih =>
    intro k
    by_cases hs : s.period = 0
    · simp [releaseDue, Service.getPeriod, hs]
    · simp only [releaseDue, Service.getPeriod, hs, if_false, List.mem_cons,
        exists_eq_or_imp, false_or]
      rw [← ih (k + 1)]
      cases releaseDue tick rest (k + 1) <;> simp

/-- C24 (amended): `addService` accepts every period, 0 included, and an
iteration of the tick loop evaluates the modulo with a zero divisor exactly
when a service of period 0 is registered; with every registered period at least
1 it never does. -/
theorem modulo_by_zero_iff_zero_period (seq : Sequencer) (tick : Nat)
    (affinity priority period service_id : Nat) (stat : Service_Statistic) :
    (∃ seq1, seq.addService affinity priority period stat service_id = .ok seq1 ∧
        seq1.services =
          seq.services ++ [Service.init affinity priority period stat service_id]) ∧
      (tickIteration tick seq.services = none ↔ ∃ s ∈ seq.services, s.period = 0) := by
  refine ⟨⟨_, rfl, rfl⟩, ?_⟩
  rw [← releaseDue_none_iff ((tick + 1) % UINT64_MOD) seq.services 0]
  simp only [tickIteration]
  cases releaseDue ((tick + 1) % UINT64_MOD) seq.services 0 <;> simp

end RTES_FINAL

namespace Ver1

theorem begun_append (l1 : List Action) :
    ∀ (s : Service) (l2 : List Action),
      s.begun (l1 ++ l2) = s.begun l1 + (s.run l1).begun l2 := by
  induction l1 with
  | nil => intro s l2; simp [Service.begun, Service.run]
  | cons a rest ih =>
    intro s l2
    have hrun : s.run (a :: rest) = (s.act a).run rest := rfl
    show Service.begun s (a :: (rest ++ l2)) = _
    rw [hrun]
    simp only [Service.begun]
    rw [ih]
    omega

theorem run_releases (k : Nat) :
    ∀ s : Service, s.run (releases (k + 1)) = { s with ready := true } ∧
      s.begun (releases (k + 1)) = 0 ∧ s.completed (releases (k + 1)) = 0 := by
  induction k with
  | zero =>
    intro s
    refine ⟨rfl, ?_, ?_⟩
    · simp [releases, Service.begun, Service.act, Service.release]
    · simp [releases, Service.completed]
  | succ n ih =>
    intro s
    obtain ⟨h1, h2, h3⟩ := ih s.release
    have hrun : s.run (releases (n + 1 + 1)) = s.release.run (releases (n + 1)) := rfl
    have hb : s.begun (releases (n + 1 + 1)) = 0 + s.release.begun (releases (n + 1)) := by
      simp [releases, List.replicate_succ, Service.begun, Service.act, Service.release]
    have hc : s.completed (releases (n + 1 + 1)) =
        0 + s.release.completed (releases (n + 1)) := by
      simp [releases, List.replicate_succ, Service.completed, Service.act]
    rw [hrun, hb, hc, h1, h2, h3]
    exact ⟨rfl, rfl, rfl⟩

theorem run_blocked (clock : List Int) :
    ∀ s : Service, s.thread = .waiting → s.ready = false → s.running = true →
      s.run (threadSteps clock) = s ∧ s.begun (threadSteps clock) = 0 ∧
        s.completed (threadSteps clock) = 0 := by
  induction clock with
  | nil => intro s _ _ _; exact ⟨rfl, rfl, rfl⟩
  | cons now rest ih =>
    intro s ht hr hrun
    have hstep : s.provideServiceStep now = s := by
      simp [Service.provideServiceStep, ht, hr, hrun]
    obtain ⟨h1, h2, h3⟩ := ih s ht hr hrun
    have hrn : s.run (threadSteps (now :: rest)) =
        (s.provideServiceStep now).run (threadSteps rest) := rfl
    refine ⟨by rw [hrn, hstep, h1], ?_, ?_⟩
    · simp only [threadSteps, List.map_cons, Service.begun, Service.act, ht, hstep]
      simpa [threadSteps] using h2
    · simp only [threadSteps, List.map_cons, Service.completed, Service.act, ht, hstep]
      simpa [threadSteps] using h3

/-- The thread of a running service, waiting with `_ready` set: its first step
enters the task, its second step returns from it and records it, and every
later step finds it blocked. -/
theorem run_one_execution (s : Service) (start finish : Int) (more : List Int)
    (ht : s.thread = .waiting) (hr : s.ready = true) (hrun : s.running = true) :
    s.run (threadSteps [start]) = { s with ready := false, thread := .inTask start } ∧
      s.run (threadSteps (start :: finish :: more)) =
        ({ s with ready := false, thread := .inTask start } : Service).provideServiceStep
          finish ∧
      s.begun (threadSteps (start :: finish :: more)) = 1 ∧
      s.completed (threadSteps (start :: finish :: more)) = 1 := by
  have h1 : s.provideServiceStep start = { s with ready := false, thread := .inTask start } := by
    simp [Service.provideServiceStep, ht, hr, hrun]
  have hb := run_blocked more
    (({ s with ready := false, thread := .inTask start } : Service).provideServiceStep finish)
    (by simp [Service.provideServiceStep]) (by simp [Service.provideServiceStep])
    (by simp [Service.provideServiceStep, hrun])
  obtain ⟨b1, b2, b3⟩ := hb
  have hrn : s.run (threadSteps (start :: finish :: more)) =
      ((s.provideServiceStep start).provideServiceStep finish).run (threadSteps more) := rfl
  refine ⟨?_, ?_, ?_, ?_⟩
  · show s.provideServiceStep start = _
    exact h1
  · rw [hrn, h1, b1]
  · simp only [threadSteps, List.map_cons, Service.begun, Service.act, ht, h1]
    have b2' := b2
    simp only [threadSteps] at b2'
    rw [b2']
  · simp only [threadSteps, List.map_cons, Service.completed, Service.act, ht, h1]
    have b3' := b3
    simp only [threadSteps] at b3'
    rw [b3']

end Ver1

namespace Ver1

theorem run_releases_any (k : Nat) :
    ∀ s : Service, s.run (releases k) = { s with ready := s.ready || decide (0 < k) } ∧
      s.begun (releases k) = 0 ∧ s.completed (releases k) = 0 := by
  intro s
  cases k with
  | zero =>
    refine ⟨?_, rfl, rfl⟩
    cases s
    simp [releases, Service.run]
  | succ n =>
    obtain ⟨h1, h2, h3⟩ := run_releases n s
    refine ⟨?_, h2, h3⟩
    rw [h1]
    simp

theorem step_in_task (s : Service) (start now : Int) (ht : s.thread = .inTask start) :
    (s.provideServiceStep now).thread = .waiting ∧
      (s.provideServiceStep now).ready = s.ready ∧
      (s.provideServiceStep now).running = s.running ∧
      (s.provideServiceStep now).stats.map (fun st => st.execCount) =
        s.stats.map (fun st => (st.execCount + 1) % UINT32_MOD) := by
  refine ⟨by simp [Service.provideServiceStep, ht], by simp [Service.provideServiceStep, ht],
    by simp [Service.provideServiceStep, ht], ?_⟩
  simp only [Service.provideServiceStep, ht, Option.map_map]
  cases s.stats with
  | none => rfl
  | some st =>
    simp only [Option.map_some', Function.comp, Option.some.injEq]
    split <;> rfl

/-- C22: in ver_1, `k ≥ 1` calls of `release()` that all arrive before the
running thread next tests `_ready` lead to exactly one task execution.  For a
waiting thread the calls precede its wake-up: its next step enters the task
(at `start`), the step after that returns from it (at `finish`) and counts it
in `execCount`, and however many steps follow, the thread stays waiting with
`_ready` cleared: one execution begun, one completed.  For a thread inside the
task, `a` of the calls arrive before the task under way returns (at `fin`) and
`b` after it, `a + b = k`: the thread then enters the task once more and no
further time, so that two executions are completed, the one that was under way
and the one for the `k` releases. -/
theorem releases_coalesce_into_one_execution (s : Service) (k : Nat)
    (start finish : Int) (more : List Int) (hk : 1 ≤ k) (hrun : s.running = true) :
    (s.thread = .waiting →
        (s.run (releases k ++ threadSteps [start])).thread = .inTask start ∧
        (s.run (releases k ++ threadSteps (start :: finish :: more))).thread = .waiting ∧
        (s.run (releases k ++ threadSteps (start :: finish :: more))).ready = false ∧
        (s.run (releases k ++ threadSteps (start :: finish :: more))).stats.map
            (fun st => st.execCount) =
          s.stats.map (fun st => (st.execCount + 1) % UINT32_MOD) ∧
        s.begun (releases k ++ threadSteps (start :: finish :: more)) = 1 ∧
        s.completed (releases k ++ threadSteps (start :: finish :: more)) = 1) ∧
      (∀ start0 fin a b, s.thread = .inTask start0 → a + b = k →
        (s.run (releases a ++ .thread fin :: (releases b ++ threadSteps [start]))).thread
          = .inTask start ∧
        (s.run (releases a ++ .thread fin ::
          (releases b ++ threadSteps (start :: finish :: more)))).thread = .waiting ∧
        (s.run (releases a ++ .thread fin ::
          (releases b ++ threadSteps (start :: finish :: more)))).ready = false ∧
        (s.run (releases a ++ .thread fin ::
          (releases b ++ threadSteps (start :: finish :: more)))).stats.map
            (fun st => st.execCount) =
          s.stats.map (fun st => ((st.execCount + 1) % UINT32_MOD + 1) % UINT32_MOD) ∧
        s.begun (releases a ++ .thread fin ::
          (releases b ++ threadSteps (start :: finish :: more))) = 1 ∧
        s.completed (releases a ++ .thread fin ::
          (releases b ++ threadSteps (start :: finish :: more))) = 2) := by
  -- a thread that waits with `_ready` set
  have key : ∀ s1 : Service, s1.thread = .waiting → s1.ready = true → s1.running = true →
      (s1.run (threadSteps [start])).thread = .inTask start ∧
      (s1.run (threadSteps (start :: finish :: more))).thread = .waiting ∧
      (s1.run (threadSteps (start :: finish :: more))).ready = false ∧
      (s1.run (threadSteps (start :: finish :: more))).stats.map (fun st => st.execCount) =
        s1.stats.map (fun st => (st.execCount + 1) % UINT32_MOD) ∧
      s1.begun (threadSteps (start :: finish :: more)) = 1 ∧
      s1.completed (threadSteps (start :: finish :: more)) = 1 := by
    intro s1 g1 g2 g3
    obtain ⟨e1, e2, e3, e4⟩ := run_one_execution s1 start finish more g1 g2 g3
    obtain ⟨f1, f2, f3, f4⟩ := step_in_task
      ({ s1 with ready := false, thread := .inTask start } : Service) start finish rfl
    rw [e1, e2]
    exact ⟨rfl, f1, f2, f4, e3, e4⟩
  constructor
  · intro ht
    obtain ⟨h1, h2, h3⟩ := run_releases_any k s
    have hs1 : s.run (releases k) = { s with ready := true } := by
      rw [h1]
      have : decide (0 < k) = true := by simpa using hk
      simp [this]
    obtain ⟨k1, k2, k3, k4, k5, k6⟩ := key ({ s with ready := true }) ht rfl hrun
    rw [Service.run_append, Service.run_append, begun_append, Service.completed_append, h2, h3,
      hs1]
    exact ⟨k1, k2, k3, k4, by omega, by omega⟩
  · intro start0 fin a b ht hab
    obtain ⟨h1, h2, h3⟩ := run_releases_any a s
    generalize hs1 : s.run (releases a) = s1 at h1
    have t1 : s1.thread = .inTask start0 := by rw [h1]; exact ht
    have r1 : s1.running = true := by rw [h1]; exact hrun
    have st1 : s1.stats = s.stats := by rw [h1]
    have rd1 : s1.ready = (s.ready || decide (0 < a)) := by rw [h1]
    obtain ⟨f1, f2, f3, f4⟩ := step_in_task s1 start0 fin t1
    generalize hs2 : s1.provideServiceStep fin = s2 at f1 f2 f3 f4
    obtain ⟨g1, g2, g3⟩ := run_releases_any b s2
    generalize hs3 : s2.run (releases b) = s3 at g1
    have t3 : s3.thread = .waiting := by rw [g1]; exact f1
    have r3 : s3.running = true := by rw [g1]; show s2.running = true; rw [f3, r1]
    have st3 : s3.stats = s2.stats := by rw [g1]
    have rd3 : s3.ready = true := by
      rw [g1]
      show (s2.ready || decide (0 < b)) = true
      rw [f2, rd1]
      rcases Nat.eq_zero_or_pos a with ha | ha
      · have hb0 : 0 < b := by omega
        simp [hb0]
      · simp [ha]
    obtain ⟨k1, k2, k3, k4, k5, k6⟩ := key s3 t3 rd3 r3
    have hcons : ∀ tail : List Action,
        s.run (releases a ++ .thread fin :: (releases b ++ tail)) = s3.run tail := by
      intro tail
      rw [Service.run_append, hs1]
      show (s1.provideServiceStep fin).run (releases b ++ tail) = _
      rw [hs2, Service.run_append, hs3]
    have hbeg : ∀ tail : List Action,
        s.begun (releases a ++ .thread fin :: (releases b ++ tail)) = s3.begun tail := by
      intro tail
      rw [begun_append, h2, hs1]
      have : s1.begun (.thread fin :: (releases b ++ tail)) =
          0 + (s1.provideServiceStep fin).begun (releases b ++ tail) := by
        simp [Service.begun, Service.act, t1]
      rw [this, hs2, begun_append, g2, hs3]
      omega
    have hcom : ∀ tail : List Action,
        s.completed (releases a ++ .thread fin :: (releases b ++ tail)) =
          1 + s3.completed tail := by
      intro tail
      rw [Service.completed_append, h3, hs1]
      have : s1.completed (.thread fin :: (releases b ++ tail)) =
          1 + (s1.provideServiceStep fin).completed (releases b ++ tail) := by
        simp [Service.completed, Service.act, t1]
      rw [this, hs2, Service.completed_append, g3, hs3]
      omega
    rw [hcons, hcons, hbeg, hcom]
    refine ⟨k1, k2, k3, ?_, k5, by omega⟩
    rw [k4, st3, ← st1]
    have f4' := f4
    cases hst : s1.stats with
    | none =>
      rw [hst] at f4'
      simp only [Option.map_none', Option.map_eq_none'] at f4'
      rw [f4']
      rfl
    | some v =>
      rw [hst] at f4'
      simp only [Option.map_some'] at f4'
      cases hv : s2.stats with
      | none => rw [hv] at f4'; simp at f4'
      | some w =>
        rw [hv] at f4'
        simp only [Option.map_some', Option.some.injEq] at f4'
        simp only [Option.map_some', f4']

/-- C22, instance: a fresh service that receives three releases before its
thread wakes up enters the task at the next step of the thread and has executed
it once, with `execCount` 1, however the thread goes on. -/
theorem releases_coalesce_into_one_execution_witness :
    1 ≤ 3 ∧ freshService.running = true ∧
      (freshService.run (releases 3 ++ threadSteps [100])).thread = .inTask 100 ∧
      (freshService.run (releases 3 ++ threadSteps [100, 105, 106, 107])).thread
        = .waiting ∧
      (freshService.run (releases 3 ++ threadSteps [100, 105, 106, 107])).stats.map
        (fun st => st.execCount) = some 1 ∧
      freshService.begun (releases 3 ++ threadSteps [100, 105, 106, 107]) = 1 ∧
      freshService.completed (releases 3 ++ threadSteps [100, 105, 106, 107]) = 1 :=
  ⟨by decide, rfl,
    ((releases_coalesce_into_one_execution freshService 3 100 105 [106, 107]
      (by decide) rfl).1 rfl).1,
    ((releases_coalesce_into_one_execution freshService 3 100 105 [106, 107]
      (by decide) rfl).1 rfl).2.1,
    ((releases_coalesce_into_one_execution freshService 3 100 105 [106, 107]
      (by decide) rfl).1 rfl).2.2.2.1,
    ((releases_coalesce_into_one_execution freshService 3 100 105 [106, 107]
      (by decide) rfl).1 rfl).2.2.2.2.1,
    ((releases_coalesce_into_one_execution freshService 3 100 105 [106, 107]
      (by decide) rfl).1 rfl).2.2.2.2.2⟩

end Ver1

namespace Ver3

theorem DBL_MAX_pos : 0 < DBL_MAX := by
  norm_num [DBL_MAX]

/-- A ver_3 service run from its construction that has begun exactly one
execution and recorded it: the report printed by `stop()` gives a start jitter of
`0 - DBL_MAX`. -/
theorem report_after_single_execution (R : RTES_FINAL.Rounding) (name : String)
    (affinity priority period : Nat) (schedule : List Action)
    (hone : ((Service.init name affinity priority period).starts R schedule).length = 1)
    (hrec : ((Service.init name affinity priority period).run R schedule).executionCount
      ≠ 0) :
    ∃ r, (((Service.init name affinity priority period).run R schedule).stop).2 =
        [.semPost, .requestStop, .semDestroy, .report r] ∧
      r.startJitter = -DBL_MAX ∧ r.startJitter < 0 := by
  have hinv := JitterInv.run R period schedule _ []
    (JitterInv.init R name affinity priority period)
    (by simp only [List.nil_append, hone, INT_MAX]; norm_num)
  simp only [List.nil_append] at hinv
  obtain ⟨-, -, -, -, -, -, hmin, hmax⟩ := hinv
  generalize (Service.init name affinity priority period).starts R schedule = st at *
  generalize (Service.init name affinity priority period).run R schedule = s at *
  have hJ : jitters R period st = [] := by
    apply List.eq_nil_of_length_eq_zero
    rw [jitters_length, hone]
  rw [hJ] at hmin hmax
  simp only [List.foldl_nil] at hmin hmax
  refine ⟨{ service_name := s.service_name, period := s.period,
             minExecTime := s.minExecTime, maxExecTime := s.maxExecTime,
             avgExecTime := s.totalExecTime / s.executionCount,
             execJitter := s.maxExecTime - s.minExecTime,
             startJitter := s.maxStartJitter - s.minStartJitter }, ?_, ?_, ?_⟩
  · simp only [Service.stop, Service.logStatistics, hrec, if_false]
    rfl
  · simp [hmin, hmax]
  · simp only [hmin, hmax, zero_sub]
    exact neg_neg_of_pos DBL_MAX_pos

/-- C23 (failing input): the service "Gas Monitor" is released once, executes
from 100 ms to 102 ms and is stopped.  The report printed by `stop()` gives a
start jitter of `0 - DBL_MAX`, a negative number: no start-interval sample was
taken, and the initial minimum `DBL_MAX` is subtracted from the initial
maximum 0.  This holds whatever the rounding of the operations on `double`. -/
theorem single_execution_reports_negative_start_jitter (R : RTES_FINAL.Rounding) :
    ((Service.init "Gas Monitor" 1 99 100).run R
        [.thread 0, .release, .thread 0, .thread 100, .thread 102, .thread 102]
        ).executionCount = 1 ∧
      ∃ r, (((Service.init "Gas Monitor" 1 99 100).run R
          [.thread 0, .release, .thread 0, .thread 100, .thread 102, .thread 102]).stop).2 =
          [.semPost, .requestStop, .semDestroy, .report r] ∧
        r.startJitter = -DBL_MAX ∧ r.startJitter < 0 := by
  have hcount : ((Service.init "Gas Monitor" 1 99 100).run R
      [.thread 0, .release, .thread 0, .thread 100, .thread 102, .thread 102]
      ).executionCount = 1 := by
    simp [Service.run, Service.act, Service.provideServiceStep, Service.init,
      Service.release, wrapInt32]
  refine ⟨hcount, report_after_single_execution R "Gas Monitor" 1 99 100
    [.thread 0, .release, .thread 0, .thread 100, .thread 102, .thread 102] ?_ ?_⟩
  · simp [Service.starts, Service.stepStart, Service.act, Service.provideServiceStep,
      Service.init, Service.release]
  · rw [hcount]
    norm_num

end Ver3

namespace FinalCombined

theorem firstIdx_append_cons (p : Char → Bool) (a : List Char) (c : Char) (b : List Char)
    (ha : ∀ x ∈ a, p x = false) (hc : p c = true) :
    firstIdx p (a ++ c :: b) = some a.length := by
  induction a with
  | nil => simp [firstIdx, hc]
  | cons x xs ih =>
    have hx : p x = false := ha x (List.mem_cons_self _ _)
    have hxs : ∀ y ∈ xs, p y = false := fun y hy => ha y (List.mem_cons_of_mem _ hy)
    simp [firstIdx, hx, ih hxs]

theorem firstIdx_eq_none (p : Char → Bool) (l : List Char)
    (h : ∀ x ∈ l, p x = false) : firstIdx p l = none := by
  induction l with
  | nil => rfl
  | cons x xs ih =>
    have hx : p x = false := h x (List.mem_cons_self _ _)
    have hxs : ∀ y ∈ xs, p y = false := fun y hy => h y (List.mem_cons_of_mem _ hy)
    simp [firstIdx, hx, ih hxs]

theorem firstIdx_lt (p : Char → Bool) :
    ∀ (l : List Char) (i : Nat), firstIdx p l = some i → i < l.length := by
  intro l
  induction l with
  | nil => intro i h; simp [firstIdx] at h
  | cons x xs ih =>
    intro i h
    by_cases hx : p x = true
    · simp [firstIdx, hx] at h
      subst h
      simp
    · simp only [firstIdx, hx, if_false, Bool.false_eq_true] at h
      cases hr : firstIdx p xs with
      | none => rw [hr] at h; simp at h
      | some j =>
        rw [hr] at h
        simp at h
        have := ih j hr
        subst h
        simp
        omega

theorem firstIdx_of_mem (p : Char → Bool) (l : List Char)
    (h : ∃ x ∈ l, p x = true) : ∃ i, firstIdx p l = some i := by
  cases hr : firstIdx p l with
  | some i => exact ⟨i, rfl⟩
  | none =>
    exfalso
    obtain ⟨x, hx, hpx⟩ := h
    induction l with
    | nil => simp at hx
    | cons y ys ih =>
      by_cases hy : p y = true
      · simp [firstIdx, hy] at hr
      · simp only [firstIdx, hy, if_false, Bool.false_eq_true] at hr
        cases hr2 : firstIdx p ys with
        | some j => rw [hr2] at hr; simp at hr
        | none =>
          rcases List.mem_cons.mp hx with rfl | hx2
          · exact hy hpx
          · exact ih hr2 hx2

theorem findAux_single (c : Char) (l : List Char) :
    findAux [c] l = firstIdx (fun d => c == d) l := by
  induction l with
  | nil => simp [findAux, firstIdx]
  | cons x xs ih => simp [findAux, firstIdx, List.isPrefixOf, ih]

theorem findAux_eq_some (needle : List Char) :
    ∀ (l : List Char) (n : Nat), n ≤ l.length →
      List.isPrefixOf needle (l.drop n) = true →
      (∀ q, q < n → List.isPrefixOf needle (l.drop q) = false) →
      findAux needle l = some n := by
  intro l
  induction l with
  | nil =>
    intro n hn hp _
    have hn0 : n = 0 := by simpa using hn
    subst hn0
    cases needle with
    | nil => simp [findAux]
    | cons a as => simp [List.isPrefixOf] at hp
  | cons x xs ih =>
    intro n hn hp hq
    cases n with
    | zero =>
      simp only [List.drop_zero] at hp
      simp [findAux, hp]
    | succ m =>
      have h0 : List.isPrefixOf needle (x :: xs) = false := by
        simpa using hq 0 (Nat.succ_pos m)
      have hm : findAux needle xs = some m := by
        apply ih m
        · simpa using hn
        · simpa using hp
        · intro q hqm
          simpa using hq (q + 1) (by omega)
      simp [findAux, h0, hm]

theorem findAux_eq_none (needle : List Char) :
    ∀ l : List Char, (∀ q, List.isPrefixOf needle (l.drop q) = false) →
      findAux needle l = none := by
  intro l
  induction l with
  | nil =>
    intro h
    have h0 := h 0
    cases needle with
    | nil => simp [List.isPrefixOf] at h0
    | cons a as => simp [findAux]
  | cons x xs ih =>
    intro h
    have h0 : List.isPrefixOf needle (x :: xs) = false := by simpa using h 0
    have hx : findAux needle xs = none := ih (fun q => by simpa using h (q + 1))
    simp [findAux, h0, hx]

theorem find_at (P S needle : List Char) (i : Nat) (h : findAux needle S = some i) :
    find (P ++ S) needle P.length = P.length + i := by
  simp [find, h]

theorem find_at_none (P S needle : List Char) (h : findAux needle S = none) :
    find (P ++ S) needle P.length = NPOS := by
  simp [find, h]

theorem find_first_not_of_at (P S chars : List Char) (i : Nat)
    (h : firstIdx (fun c => !chars.contains c) S = some i) :
    find_first_not_of (P ++ S) chars P.length = P.length + i := by
  unfold find_first_not_of
  rw [List.drop_left, h]

theorem find_first_not_of_at_none (P S chars : List Char)
    (h : firstIdx (fun c => !chars.contains c) S = none) :
    find_first_not_of (P ++ S) chars P.length = NPOS := by
  unfold find_first_not_of
  rw [List.drop_left, h]

theorem find_first_of_at (P S chars : List Char) (i : Nat)
    (h : firstIdx (fun c => chars.contains c) S = some i) :
    find_first_of (P ++ S) chars P.length = P.length + i := by
  unfold find_first_of
  rw [List.drop_left, h]

theorem substr_at (P B S : List Char) :
    substr (P ++ (B ++ S)) P.length B.length = .ok B := by
  simp [substr]

theorem substr_ok (s : List Char) (pos count : Nat) (h : pos ≤ s.length) :
    substr s pos count = .ok ((s.drop pos).take count) := by
  simp [substr, Nat.not_lt.mpr h]

theorem substr_error (s : List Char) (count : Nat) (h : s.length < NPOS) :
    substr s NPOS count = .error "std::out_of_range" := by
  simp [substr, h]

end FinalCombined

namespace FinalCombined

theorem terminator_not_skipped (t : Char) (ht : t ∈ TERMINATORS) : t ∉ SKIPPED := by
  simp only [TERMINATORS, List.mem_cons, List.mem_singleton, List.not_mem_nil, or_false] at ht
  rcases ht with rfl | rfl <;> decide

theorem find_quoted_key (json key pre tail : List Char)
    (hj : json = pre ++ (quoted key ++ tail))
    (hfirst : ∀ q, q < pre.length → List.isPrefixOf (quoted key) (json.drop q) = false) :
    find json (quoted key) 0 = pre.length := by
  have hp : List.isPrefixOf (quoted key) (json.drop pre.length) = true := by
    rw [hj, List.drop_left, List.isPrefixOf_iff_prefix]
    exact List.prefix_append _ _
  have hle : pre.length ≤ json.length := by
    rw [hj]; simp
  have h := findAux_eq_some (quoted key) json pre.length hle hp hfirst
  simp [find, h]

theorem find_colon (json pre a b : List Char)
    (hj : json = pre ++ (a ++ ':' :: b)) (ha : ∀ c ∈ a, c ≠ ':') :
    find json [':'] pre.length = pre.length + a.length := by
  rw [hj]
  apply find_at
  rw [findAux_single]
  apply firstIdx_append_cons
  · intro x hx
    have := ha x hx
    simpa using fun h => this h.symm
  · simp

theorem find_colon_none (json pre a : List Char)
    (hj : json = pre ++ a) (ha : ∀ c ∈ a, c ≠ ':') :
    find json [':'] pre.length = NPOS := by
  rw [hj]
  apply find_at_none
  rw [findAux_single]
  apply firstIdx_eq_none
  intro x hx
  have := ha x hx
  simpa using fun h => this h.symm

theorem extract_json_field_core (json key pre mid lead body rest : List Char) (t : Char)
    (hj : json = pre ++ (quoted key ++ mid ++ ':' :: (lead ++ (body ++ t :: rest))))
    (hlen : json.length < NPOS)
    (hfirst : ∀ q, q < pre.length → List.isPrefixOf (quoted key) (json.drop q) = false)
    (hcolon : ∀ c ∈ quoted key ++ mid, c ≠ ':')
    (hlead : ∀ c ∈ lead, c ∈ SKIPPED)
    (hhead : ∀ c, body.head? = some c → c ∉ SKIPPED)
    (hbody : ∀ c ∈ body, c ∉ TERMINATORS)
    (ht : t ∈ TERMINATORS) :
    extract_json_field json key = .ok (removeQuotes body) ∧
      CallPython.extract_json_field json key = .ok (removeQuotes body) := by
  have h1 : find json (quoted key) 0 = pre.length :=
    find_quoted_key json key pre (mid ++ ':' :: (lead ++ (body ++ t :: rest)))
      (by rw [hj]; simp [List.append_assoc]) hfirst
  have h2 : find json [':'] pre.length = pre.length + (quoted key ++ mid).length :=
    find_colon json pre (quoted key ++ mid) (lead ++ (body ++ t :: rest)) hj hcolon
  have hpre : pre.length ≤ json.length := by rw [hj]; simp
  have hne1 : pre.length ≠ NPOS := by omega
  have hpos1 : pre.length + (quoted key ++ mid).length ≤ json.length := by
    rw [hj]; simp only [List.length_append]; omega
  have hne2 : pre.length + (quoted key ++ mid).length ≠ NPOS := by omega
  -- the first character that is not skipped
  obtain ⟨c, more, hcm, hc⟩ : ∃ c more, body ++ t :: rest = c :: more ∧ c ∉ SKIPPED := by
    cases hb : body with
    | nil => exact ⟨t, rest, rfl, terminator_not_skipped t ht⟩
    | cons b bs => exact ⟨b, bs ++ t :: rest, rfl, hhead b (by rw [hb]; rfl)⟩
  have h3 : find_first_not_of json SKIPPED (pre.length + (quoted key ++ mid).length) =
      (pre ++ (quoted key ++ mid)).length + (':' :: lead).length := by
    have hj3 : json = (pre ++ (quoted key ++ mid)) ++ ((':' :: lead) ++ c :: more) := by
      rw [hj, ← hcm]; simp [List.append_assoc]
    have := find_first_not_of_at (pre ++ (quoted key ++ mid)) ((':' :: lead) ++ c :: more)
      SKIPPED (':' :: lead).length
      (firstIdx_append_cons _ (':' :: lead) c more
        (by
          intro x hx
          have hx2 : x ∈ SKIPPED := by
            rcases List.mem_cons.mp hx with rfl | hx
            · decide
            · exact hlead x hx
          simpa using hx2)
        (by simpa using hc))
    rw [← hj3, List.length_append] at this
    rw [this]
    simp only [List.length_append]
  have h4 : find_first_of json TERMINATORS
      ((pre ++ (quoted key ++ mid)).length + (':' :: lead).length) =
      (pre ++ (quoted key ++ mid)).length + (':' :: lead).length + body.length := by
    have hj4 : json = (pre ++ (quoted key ++ mid) ++ (':' :: lead)) ++ (body ++ t :: rest) := by
      rw [hj]; simp [List.append_assoc]
    have := find_first_of_at (pre ++ (quoted key ++ mid) ++ (':' :: lead)) (body ++ t :: rest)
      TERMINATORS body.length
      (firstIdx_append_cons _ body t rest
        (by
          intro x hx
          simpa using hbody x hx)
        (by simpa using ht))
    rw [← hj4, List.length_append] at this
    exact this
  have hblen : body.length < SIZE_MOD := by
    have : body.length ≤ json.length := by
      rw [hj]; simp only [List.length_append, List.length_cons]; omega
    simp only [NPOS] at hlen
    simp only [SIZE_MOD]
    omega
  have hcount : ((pre ++ (quoted key ++ mid)).length + (':' :: lead).length + body.length
      + SIZE_MOD - ((pre ++ (quoted key ++ mid)).length + (':' :: lead).length)) % SIZE_MOD
      = body.length := by
    have e : (pre ++ (quoted key ++ mid)).length + (':' :: lead).length + body.length
        + SIZE_MOD - ((pre ++ (quoted key ++ mid)).length + (':' :: lead).length)
        = body.length + SIZE_MOD := by omega
    rw [e, Nat.add_mod_right, Nat.mod_eq_of_lt hblen]
  have h5 : substr json ((pre ++ (quoted key ++ mid)).length + (':' :: lead).length)
      body.length = .ok body := by
    have hj5 : json = (pre ++ (quoted key ++ mid) ++ (':' :: lead)) ++ (body ++ t :: rest) := by
      rw [hj]; simp [List.append_assoc]
    have := substr_at (pre ++ (quoted key ++ mid) ++ (':' :: lead)) body (t :: rest)
    rw [← hj5, List.length_append] at this
    exact this
  constructor
  · simp only [extract_json_field, h1, hne1, if_false, h2, h3, h4, hcount, h5]
  · simp only [CallPython.extract_json_field, h1, hne1, if_false, h2, hne2, h3, h4, hcount, h5]

end FinalCombined

namespace FinalCombined

theorem removeQuotes_eq_self (v : List Char) (hv : ∀ c ∈ v, c ≠ QUOTE) :
    removeQuotes v = v := by
  unfold removeQuotes
  rw [List.filter_eq_self]
  intro c hc
  simpa using hv c hc

theorem removeQuotes_quotes (l : List Char) (hl : ∀ c ∈ l, c = QUOTE) :
    removeQuotes l = [] := by
  unfold removeQuotes
  rw [List.filter_eq_nil_iff]
  intro c hc
  simp [hl c hc]

theorem removeQuotes_append (a b : List Char) :
    removeQuotes (a ++ b) = removeQuotes a ++ removeQuotes b := by
  simp [removeQuotes]

/-- C25 (as stated, refuted): with the text `{"class": "` both versions of
`extract_json_field` end in `std::out_of_range`: nothing but a space and a quote
follows the colon, `find_first_not_of` returns `npos` and `substr(npos, ...)`
throws.  With the text `{"class"`, where no colon follows the key, the version
of `final.cpp` throws as well, while the version of
`call_python_from_cpp_script.cpp` returns the empty string. -/
theorem extract_json_field_throws_without_value :
    extract_json_field "\x7b\"class\": \"".toList "class".toList
        = .error "std::out_of_range" ∧
      CallPython.extract_json_field "\x7b\"class\": \"".toList "class".toList
        = .error "std::out_of_range" ∧
      extract_json_field "\x7b\"class\"".toList "class".toList
        = .error "std::out_of_range" ∧
      CallPython.extract_json_field "\x7b\"class\"".toList "class".toList = .ok [] :=
  ⟨rfl, rfl, rfl, rfl⟩

/-- C25 (amended): for a string shorter than `npos`, both versions of
`extract_json_field` return the empty string when the quoted key does not occur.
When the first occurrence of the quoted key is followed by a colon, they return
a string (the same one) if some character other than a space, a double quote or
a colon follows that colon, and fail with `std::out_of_range` if none does.  When
no colon follows the first occurrence of the quoted key, the version of
`call_python_from_cpp_script.cpp` returns the empty string. -/
theorem extract_json_field_fails_only_without_value (json key : List Char)
    (hlen : json.length < NPOS) :
    ((∀ q, List.isPrefixOf (quoted key) (json.drop q) = false) →
        extract_json_field json key = .ok [] ∧
        CallPython.extract_json_field json key = .ok []) ∧
      (∀ pre a b, json = pre ++ (a ++ ':' :: b) →
        List.isPrefixOf (quoted key) (a ++ ':' :: b) = true →
        (∀ q, q < pre.length → List.isPrefixOf (quoted key) (json.drop q) = false) →
        (∀ c ∈ a, c ≠ ':') →
        ((∃ c ∈ b, c ∉ SKIPPED) →
          ∃ field, extract_json_field json key = .ok field ∧
            CallPython.extract_json_field json key = .ok field) ∧
        ((∀ c ∈ b, c ∈ SKIPPED) →
          extract_json_field json key = .error "std::out_of_range" ∧
          CallPython.extract_json_field json key = .error "std::out_of_range")) ∧
      (∀ pre a, json = pre ++ a →
        List.isPrefixOf (quoted key) a = true →
        (∀ q, q < pre.length → List.isPrefixOf (quoted key) (json.drop q) = false) →
        (∀ c ∈ a, c ≠ ':') →
        CallPython.extract_json_field json key = .ok []) := by
  refine ⟨?_, ?_, ?_⟩
  · intro hno
    have h := findAux_eq_none (quoted key) json hno
    have h1 : find json (quoted key) 0 = NPOS := by simp [find, h]
    simp [extract_json_field, CallPython.extract_json_field, h1]
  · intro pre a b hj hp hfirst ha
    obtain ⟨tail, htail⟩ := List.isPrefixOf_iff_prefix.mp hp
    have h1 : find json (quoted key) 0 = pre.length :=
      find_quoted_key json key pre tail (by rw [hj, htail]) hfirst
    have h2 := find_colon json pre a b hj ha
    have hle : pre.length + a.length < json.length := by
      rw [hj]; simp only [List.length_append, List.length_cons]; omega
    have hne1 : pre.length ≠ NPOS := by omega
    have hne2 : pre.length + a.length ≠ NPOS := by omega
    have hj3 : json = (pre ++ a) ++ (':' :: b) := by rw [hj]; simp
    constructor
    · intro hex
      obtain ⟨c, hcb, hc⟩ := hex
      obtain ⟨i, hi⟩ := firstIdx_of_mem (fun c => !SKIPPED.contains c) (':' :: b)
        ⟨c, List.mem_cons_of_mem _ hcb, by simpa using hc⟩
      have hlt := firstIdx_lt _ _ _ hi
      have h3 := find_first_not_of_at (pre ++ a) (':' :: b) SKIPPED i hi
      rw [← hj3, List.length_append] at h3
      have hstart : pre.length + a.length + i ≤ json.length := by
        rw [hj]
        simp only [List.length_append, List.length_cons] at hlt ⊢
        omega
      refine ⟨removeQuotes ((json.drop (pre.length + a.length + i)).take
        ((find_first_of json TERMINATORS (pre.length + a.length + i) + SIZE_MOD
          - (pre.length + a.length + i)) % SIZE_MOD)), ?_, ?_⟩
      · simp only [extract_json_field, h1, hne1, if_false, h2, h3,
          substr_ok json _ _ hstart]
      · simp only [CallPython.extract_json_field, h1, hne1, if_false, h2, hne2, h3,
          substr_ok json _ _ hstart]
    · intro hall
      have hnone : firstIdx (fun c => !SKIPPED.contains c) (':' :: b) = none := by
        apply firstIdx_eq_none
        intro x hx
        have hx2 : x ∈ SKIPPED := by
          rcases List.mem_cons.mp hx with rfl | hx
          · decide
          · exact hall x hx
        simpa using hx2
      have h3 := find_first_not_of_at_none (pre ++ a) (':' :: b) SKIPPED hnone
      rw [← hj3, List.length_append] at h3
      constructor
      · simp only [extract_json_field, h1, hne1, if_false, h2, h3,
          substr_error json _ hlen]
      · simp only [CallPython.extract_json_field, h1, hne1, if_false, h2, hne2, h3,
          substr_error json _ hlen]
  · intro pre a hj hp hfirst ha
    obtain ⟨tail, htail⟩ := List.isPrefixOf_iff_prefix.mp hp
    have h1 : find json (quoted key) 0 = pre.length :=
      find_quoted_key json key pre tail (by rw [hj, htail]) hfirst
    have h2 := find_colon_none json pre a hj ha
    have hle : pre.length ≤ json.length := by
      rw [hj]; simp
    have hne1 : pre.length ≠ NPOS := by omega
    simp only [CallPython.extract_json_field, h1, hne1, if_false, h2, if_true]

end FinalCombined

namespace FinalCombined

/-- C25, instance: the text `{"class": "x"}` and the key `class`; the key is
found at position 1 and `x` follows the colon, so a string is returned. -/
theorem extract_json_field_fails_only_without_value_witness :
    ("\x7b\"class\": \"x\"\x7d".toList).length < NPOS ∧
      ∃ field, extract_json_field "\x7b\"class\": \"x\"\x7d".toList "class".toList = .ok field ∧
        CallPython.extract_json_field "\x7b\"class\": \"x\"\x7d".toList "class".toList
          = .ok field :=
  ⟨by decide,
    ((extract_json_field_fails_only_without_value "\x7b\"class\": \"x\"\x7d".toList
        "class".toList (by decide)).2.1
      "\x7b".toList "\"class\"".toList " \"x\"\x7d".toList rfl rfl (by decide) (by decide)).1
      ⟨'x', by decide, by decide⟩⟩

/-- C26 (as stated, refuted): in `{"confidence": 0.97 }` the value 0.97 is
surrounded by spaces and terminated by the closing brace, and the function
returns `0.97` followed by a space.  In `{"a:b": "x"}` the quoted key `a:b` is a
field name followed by a colon and the value `x`, and the function returns
`b: x`: the search for the colon starts at the opening quote of the key. -/
theorem extract_json_field_keeps_trailing_space :
    extract_json_field "\x7b\"confidence\": 0.97 \x7d".toList "confidence".toList
        = .ok "0.97 ".toList ∧
      CallPython.extract_json_field "\x7b\"confidence\": 0.97 \x7d".toList "confidence".toList
        = .ok "0.97 ".toList ∧
      extract_json_field "\x7b\"a:b\": \"x\"\x7d".toList "a:b".toList = .ok "b: x".toList ∧
      CallPython.extract_json_field "\x7b\"a:b\": \"x\"\x7d".toList "a:b".toList
        = .ok "b: x".toList :=
  ⟨rfl, rfl, rfl, rfl⟩

/-- C26 (amended): let the text, shorter than `npos`, be
`pre ++ quoted key ++ mid ++ ":" ++ lead ++ v ++ trail ++ [t] ++ rest`, where the
quoted key does not occur before the end of `pre`, the key contains no colon,
`mid` consists of spaces, `lead` and `trail` of spaces and double quotes, `v`
contains no comma, closing brace or double quote and does not start with a space
or a colon, and `t` is a comma or a closing brace.  Then both versions of
`extract_json_field` return `v` followed by the spaces of `trail` when `v` is not
empty, and exactly `v` when `trail` consists of double quotes only. -/
theorem extract_json_field_returns_value
    (json key pre mid lead v trail rest : List Char) (t : Char)
    (hj : json = pre ++ (quoted key ++ mid ++ ':' :: (lead ++ (v ++ trail ++ t :: rest))))
    (hlen : json.length < NPOS)
    (hfirst : ∀ q, q < pre.length → List.isPrefixOf (quoted key) (json.drop q) = false)
    (hkey : ∀ c ∈ key, c ≠ ':')
    (hmid : ∀ c ∈ mid, c = ' ')
    (hlead : ∀ c ∈ lead, c = ' ' ∨ c = QUOTE)
    (hv : ∀ c ∈ v, c ∉ TERMINATORS ∧ c ≠ QUOTE)
    (hv0 : v.head? ≠ some ' ' ∧ v.head? ≠ some ':')
    (htrail : ∀ c ∈ trail, c = ' ' ∨ c = QUOTE)
    (ht : t ∈ TERMINATORS) :
    (v ≠ [] →
        extract_json_field json key = .ok (v ++ removeQuotes trail) ∧
        CallPython.extract_json_field json key = .ok (v ++ removeQuotes trail)) ∧
      ((∀ c ∈ trail, c = QUOTE) →
        extract_json_field json key = .ok v ∧
        CallPython.extract_json_field json key = .ok v) := by
  have hcolon : ∀ c ∈ quoted key ++ mid, c ≠ ':' := by
    intro c hc
    simp only [quoted, List.cons_append, List.mem_cons, List.mem_append,
      List.mem_singleton, List.not_mem_nil, or_false] at hc
    rcases hc with rfl | (hc | rfl) | hc
    · decide
    · exact hkey c hc
    · decide
    · rw [hmid c hc]; decide
  have hskip : ∀ l : List Char, (∀ c ∈ l, c = ' ' ∨ c = QUOTE) → ∀ c ∈ l, c ∈ SKIPPED := by
    intro l hl c hc
    rcases hl c hc with rfl | rfl <;> decide
  have hnoterm : ∀ l : List Char, (∀ c ∈ l, c = ' ' ∨ c = QUOTE) →
      ∀ c ∈ l, c ∉ TERMINATORS := by
    intro l hl c hc
    rcases hl c hc with rfl | rfl <;> decide
  have hfst : v ≠ [] →
      extract_json_field json key = .ok (v ++ removeQuotes trail) ∧
      CallPython.extract_json_field json key = .ok (v ++ removeQuotes trail) := by
    intro hne
    have h := extract_json_field_core json key pre mid lead (v ++ trail) rest t
      hj hlen hfirst hcolon (hskip lead hlead)
      (by
        intro c hc
        cases v with
        | nil => exact absurd rfl hne
        | cons x xs =>
          simp only [List.cons_append, List.head?_cons, Option.some.injEq] at hc
          subst hc
          have hq := (hv x (List.mem_cons_self _ _)).2
          have h1 : x ≠ ' ' := fun e => hv0.1 (by rw [e]; rfl)
          have h2 : x ≠ ':' := fun e => hv0.2 (by rw [e]; rfl)
          simp only [SKIPPED, List.mem_cons, List.mem_singleton, List.not_mem_nil, or_false,
            not_or]
          exact ⟨h1, hq, h2⟩)
      (by
        intro c hc
        rcases List.mem_append.mp hc with hc | hc
        · exact (hv c hc).1
        · exact hnoterm trail htrail c hc)
      ht
    rw [removeQuotes_append, removeQuotes_eq_self v (fun c hc => (hv c hc).2)] at h
    exact h
  refine ⟨hfst, ?_⟩
  intro hq
  by_cases hne : v = []
  · subst hne
    have h := extract_json_field_core json key pre mid (lead ++ trail) [] rest t
      (by rw [hj]; simp [List.append_assoc]) hlen hfirst hcolon
      (by
        intro c hc
        rcases List.mem_append.mp hc with hc | hc
        · exact hskip lead hlead c hc
        · exact hskip trail htrail c hc)
      (by intro c hc; simp at hc)
      (by intro c hc; simp at hc)
      ht
    simpa [removeQuotes] using h
  · have h := hfst hne
    rw [removeQuotes_quotes trail hq, List.append_nil] at h
    exact h

/-- C26, instance: from `{"class": "biodegradable", "confidence": 0.97}` the key
`class` yields `biodegradable` and the key `confidence` yields `0.97`. -/
theorem extract_json_field_returns_value_witness :
    (extract_json_field
        "\x7b\"class\": \"biodegradable\", \"confidence\": 0.97\x7d".toList "class".toList
        = .ok "biodegradable".toList ∧
      CallPython.extract_json_field
        "\x7b\"class\": \"biodegradable\", \"confidence\": 0.97\x7d".toList "class".toList
        = .ok "biodegradable".toList) ∧
    (extract_json_field
        "\x7b\"class\": \"biodegradable\", \"confidence\": 0.97\x7d".toList "confidence".toList
        = .ok "0.97".toList ∧
      CallPython.extract_json_field
        "\x7b\"class\": \"biodegradable\", \"confidence\": 0.97\x7d".toList "confidence".toList
        = .ok "0.97".toList) :=
  ⟨(extract_json_field_returns_value
      "\x7b\"class\": \"biodegradable\", \"confidence\": 0.97\x7d".toList "class".toList
      "\x7b".toList [] " \"".toList "biodegradable".toList "\"".toList
      " \"confidence\": 0.97\x7d".toList ','
      rfl (by decide) (by decide) (by decide) (by decide) (by decide) (by decide)
      (by decide) (by decide) (by decide)).2 (by decide),
   (extract_json_field_returns_value
      "\x7b\"class\": \"biodegradable\", \"confidence\": 0.97\x7d".toList "confidence".toList
      "\x7b\"class\": \"biodegradable\", ".toList [] " ".toList "0.97".toList []
      [] (Char.ofNat 125)
      rfl (by decide) (by decide) (by decide) (by decide) (by decide) (by decide)
      (by decide) (by decide) (by decide)).2 (by decide)⟩

end FinalCombined

namespace Demo

theorem summary_none_iff (t : TimingStats) : t.summary = none ↔ t.count = 0 := by
  unfold TimingStats.summary cdiv
  by_cases h : t.count = 0 <;> simp [h]

theorem summaryGuarded_ne_none (t : TimingStats) : t.summaryGuarded ≠ none := by
  unfold TimingStats.summaryGuarded cdiv
  by_cases h : t.count = 0 <;> simp [h]

/-- C29 (failing input): SIGINT arrives before the first task execution and the
first sensor sample, so every counter still has its initial value 0.  The
averages of `servo.cpp` (in `signalHandler` and in `main`), of `gas_thread.cpp`
and of `final_combined_ver_2.cpp` are then divisions by zero; in general each
summary divides by zero exactly when its counter is 0.  The handler of
`final_project_combined_ver_1/final.cpp` tests the counter and prints 0. -/
theorem shutdown_average_divides_by_zero :
    RTES_FINAL.servo.signalHandler SIGINT TimingStats.initial = none ∧
      RTES_FINAL.servo.main TimingStats.initial = none ∧
      RTES_FINAL.gas_thread.signalHandler SIGINT TimingStats.initial TimingStats.initial
        = none ∧
      Ver2.signalHandler SIGINT TimingStats.initial TimingStats.initial = none ∧
      (∀ exec, RTES_FINAL.servo.signalHandler SIGINT exec = none ↔ exec.count = 0) ∧
      (∀ exec emergency,
        RTES_FINAL.gas_thread.signalHandler SIGINT exec emergency = none ↔
          exec.count = 0 ∨ emergency.count = 0) ∧
      (∀ exec emergency,
        Ver2.signalHandler SIGINT exec emergency = none ↔
          exec.count = 0 ∨ emergency.count = 0) ∧
      Ver1.signalHandler SIGINT [TimingStats.initial] = some [[0, LLONG_MAX, 0, 0, 0]] := by
  have key : ∀ exec emergency : TimingStats,
      (match exec.summary with
        | none => none
        | some a =>
          match emergency.summary with
          | none => none
          | some b => some (a ++ b)) = none ↔ exec.count = 0 ∨ emergency.count = 0 := by
    intro exec emergency
    rw [← summary_none_iff exec, ← summary_none_iff emergency]
    cases exec.summary <;> cases emergency.summary <;> simp
  refine ⟨rfl, rfl, rfl, rfl, ?_, ?_, ?_, rfl⟩
  · intro exec
    simp [RTES_FINAL.servo.signalHandler, summary_none_iff]
  · intro exec emergency
    simp only [RTES_FINAL.gas_thread.signalHandler, if_true]
    exact key exec emergency
  · intro exec emergency
    exact key exec emergency

end Demo

namespace FinalCombined

/-- C27 (as stated, refuted): `capture_frames` has stored a frame, so both flags
are set, and the inference script gives no output.  `inference_service` returns
with `processing_in_progress` still set, and the next `capture_frames` call
returns at its guard without capturing, whatever the distance. -/
theorem empty_output_leaves_processing_in_progress :
    capture_frames 10 true { frame_ready := false, processing_in_progress := false }
        = { frame_ready := true, processing_in_progress := true } ∧
      inference_service [] { frame_ready := true, processing_in_progress := true }
        = .ok ({ frame_ready := false, processing_in_progress := true }, []) ∧
      capture_frames 10 true { frame_ready := false, processing_in_progress := true }
        = { frame_ready := false, processing_in_progress := true } := by
  refine ⟨by decide, rfl, by decide⟩

/-- C27 (amended): a call of `inference_service` with `frame_ready` set returns
with `frame_ready` cleared.  When the output of the script is not empty and the
three fields can be extracted from it, `processing_in_progress` is cleared as
well and the servo of the detected class is moved, so that the guard of a later
`capture_frames` call does not skip it.  When
the output is empty, `processing_in_progress` keeps its value and no servo is
moved; while it is set, `capture_frames` changes nothing. -/
theorem inference_service_clears_flags (output : List Char) (st : Flags)
    (hready : st.frame_ready = true) :
    (output = [] →
        inference_service output st =
          .ok ({ frame_ready := false,
                 processing_in_progress := st.processing_in_progress }, [])) ∧
      (output ≠ [] →
        ∀ detected_class, extract_json_field output "class".toList = .ok detected_class →
        (∃ b, extract_json_field output "confidence".toList = .ok b) →
        (∃ c, extract_json_field output "inference_time_ms".toList = .ok c) →
        inference_service output st =
          .ok ({ frame_ready := false, processing_in_progress := false },
               if detected_class = "biodegradable".toList then [.sweep_servo_1]
               else if detected_class = "nonbiodegradable".toList then [.sweep_servo_2]
               else []) ∧
          ∀ distance, capture_frames distance true
              { frame_ready := false, processing_in_progress := false } =
            if distance < 20 then { frame_ready := true, processing_in_progress := true }
            else { frame_ready := false, processing_in_progress := false }) ∧
      (∀ distance captured ready,
        capture_frames distance captured
            { frame_ready := ready, processing_in_progress := true } =
          { frame_ready := ready, processing_in_progress := true }) := by
  refine ⟨?_, ?_, ?_⟩
  · intro h
    subst h
    simp [inference_service, hready]
  · intro hne a ha ⟨b, hb⟩ ⟨c, hc⟩
    have hemp : output.isEmpty = false := by
      cases output with
      | nil => exact absurd rfl hne
      | cons x xs => rfl
    refine ⟨?_, ?_⟩
    · simp only [inference_service, hready, hemp, ha, hb, hc, Bool.not_true, Bool.not_false,
        Bool.false_eq_true, if_false, if_true]
    · intro distance
      simp [capture_frames]
  · intro distance captured ready
    simp [capture_frames]

/-- C27, instance: the output `{"class": "biodegradable", "confidence": 0.97,
"inference_time_ms": 41}` with both flags set. -/
theorem inference_service_clears_flags_witness :
    inference_service
        "\x7b\"class\": \"biodegradable\", \"confidence\": 0.97, \"inference_time_ms\": 41\x7d".toList
        { frame_ready := true, processing_in_progress := true } =
      .ok ({ frame_ready := false, processing_in_progress := false }, [.sweep_servo_1]) :=
  ((inference_service_clears_flags
      "\x7b\"class\": \"biodegradable\", \"confidence\": 0.97, \"inference_time_ms\": 41\x7d".toList
      { frame_ready := true, processing_in_progress := true } rfl).2.1
    (by decide) "biodegradable".toList rfl ⟨_, rfl⟩ ⟨_, rfl⟩).1

end FinalCombined

namespace FinalCombined

theorem float32_grid (x : ℚ) (hx : IsFloat32 x) (h1 : 1 ≤ x) :
    ∃ k : ℤ, x = k / 8388608 := by
  obtain ⟨m, e, hm, -, -, rfl⟩ := hx
  by_cases he : -23 ≤ e
  · refine ⟨m * 2 ^ (e + 23).toNat, ?_⟩
    have hsplit : (2 : ℚ) ^ e = 2 ^ (((e + 23).toNat : ℤ)) * 2 ^ (-23 : ℤ) := by
      rw [← zpow_add₀ (by norm_num : (2 : ℚ) ≠ 0), Int.toNat_of_nonneg (by omega)]
      congr 1
      ring
    rw [hsplit, zpow_natCast]
    push_cast
    norm_num
    ring
  · exfalso
    have hpow : (2 : ℚ) ^ e ≤ 2 ^ (-24 : ℤ) :=
      zpow_le_zpow_right₀ (by norm_num) (by omega)
    have hpos : (0 : ℚ) < 2 ^ e := zpow_pos (by norm_num) e
    have hmz : m < 2 ^ 24 := lt_of_le_of_lt (le_abs_self m) hm
    have hmq : (m : ℚ) ≤ 16777215 := by
      have : m ≤ 16777215 := by
        norm_num at hmz
        omega
      exact_mod_cast this
    have h24 : (2 : ℚ) ^ (-24 : ℤ) = 1 / 16777216 := by norm_num
    rw [h24] at hpow
    rcases le_or_lt (m : ℚ) 0 with hneg | hposm
    · have : (m : ℚ) * 2 ^ e ≤ 0 := mul_nonpos_of_nonpos_of_nonneg hneg hpos.le
      linarith
    · have hA : (m : ℚ) * 2 ^ e ≤ m * (1 / 16777216) :=
        mul_le_mul_of_nonneg_left hpow hposm.le
      linarith

theorem above_high_iff (x : ℚ) (hx : IsFloat32 x) : x > THRESHOLD_HIGH ↔ x > 19 / 10 := by
  unfold THRESHOLD_HIGH
  constructor
  · intro h
    by_contra hn
    push_neg at hn
    have h1 : 1 ≤ x := by
      have : (1 : ℚ) ≤ 15938355 / 8388608 := by norm_num
      linarith
    obtain ⟨k, hk⟩ := float32_grid x hx h1
    rw [hk] at h hn
    have hk1 : (15938355 : ℚ) < k := by
      rw [gt_iff_lt, div_lt_div_iff_of_pos_right (by norm_num)] at h
      exact h
    have hk2 : (15938355 : ℤ) < k := by exact_mod_cast hk1
    have hk3 : (15938356 : ℚ) ≤ k := by
      have : (15938356 : ℤ) ≤ k := by omega
      exact_mod_cast this
    have hk4 : (15938356 : ℚ) / 8388608 ≤ k / 8388608 :=
      div_le_div_of_nonneg_right hk3 (by norm_num)
    have : (19 : ℚ) / 10 < 15938356 / 8388608 := by norm_num
    linarith
  · intro h
    have : (15938355 : ℚ) / 8388608 < 19 / 10 := by norm_num
    linarith

theorem below_low_iff (x : ℚ) (hx : IsFloat32 x) : x < THRESHOLD_LOW ↔ x < 17 / 10 := by
  unfold THRESHOLD_LOW
  constructor
  · intro h
    by_contra hn
    push_neg at hn
    have h1 : 1 ≤ x := by
      have : (1 : ℚ) ≤ 17 / 10 := by norm_num
      linarith
    obtain ⟨k, hk⟩ := float32_grid x hx h1
    rw [hk] at h hn
    have hk1 : (k : ℚ) < 14260634 := by
      rw [div_lt_div_iff_of_pos_right (by norm_num)] at h
      exact h
    have hk2 : k < (14260634 : ℤ) := by exact_mod_cast hk1
    have hk3 : (k : ℚ) ≤ 14260633 := by
      have : k ≤ (14260633 : ℤ) := by omega
      exact_mod_cast this
    have hk4 : (k : ℚ) / 8388608 ≤ 14260633 / 8388608 :=
      div_le_div_of_nonneg_right hk3 (by norm_num)
    have : (14260633 : ℚ) / 8388608 < 17 / 10 := by norm_num
    linarith
  · intro h
    have : (17 : ℚ) / 10 < 14260634 / 8388608 := by norm_num
    linarith

/-- C28: for every `float` sample, `hasADS1115Sample` takes the state from
RUNNING to EMERGENCY exactly when the sample exceeds 1.9, from EMERGENCY to
RUNNING exactly when the sample is below 1.7, and leaves the state as it was,
whatever it was, for a sample from 1.7 to 1.9. -/
theorem gas_alarm_has_hysteresis (sample : ℚ) (hs : IsFloat32 sample) :
    (hasADS1115Sample sample .RUNNING = .EMERGENCY ↔ sample > 19 / 10) ∧
      (hasADS1115Sample sample .EMERGENCY = .RUNNING ↔ sample < 17 / 10) ∧
      (17 / 10 ≤ sample → sample ≤ 19 / 10 →
        ∀ systemState, hasADS1115Sample sample systemState = systemState) := by
  have hH := above_high_iff sample hs
  have hL := below_low_iff sample hs
  refine ⟨?_, ?_, ?_⟩
  · rw [← hH]
    by_cases h : sample > THRESHOLD_HIGH <;> simp [hasADS1115Sample, h]
  · rw [← hL]
    by_cases h : sample < THRESHOLD_LOW <;> simp [hasADS1115Sample, h]
  · intro h1 h2 st
    have n1 : ¬ sample > THRESHOLD_HIGH := by
      rw [hH]; exact not_lt.mpr h2
    have n2 : ¬ sample < THRESHOLD_LOW := by
      rw [hL]; exact not_lt.mpr h1
    simp [hasADS1115Sample, n1, n2]

/-- C28, instance: the sample 1.875 leaves the state RUNNING as it is, and the
sample 2 raises the alarm. -/
theorem gas_alarm_has_hysteresis_witness :
    IsFloat32 (15 / 8) ∧ hasADS1115Sample (15 / 8) .RUNNING = .RUNNING ∧
      hasADS1115Sample 2 .RUNNING = .EMERGENCY :=
  ⟨⟨15, -3, by norm_num, by norm_num, by norm_num, by norm_num⟩,
    (gas_alarm_has_hysteresis (15 / 8)
      ⟨15, -3, by norm_num, by norm_num, by norm_num, by norm_num⟩).2.2
      (by norm_num) (by norm_num) .RUNNING,
    (gas_alarm_has_hysteresis 2
      ⟨1, 1, by norm_num, by norm_num, by norm_num, by norm_num⟩).1.mpr (by norm_num)⟩

end FinalCombined

